import Mathlib

/-!
# Receipt scoring service: the scoring engine of `main.go`

A shallow embedding of `calcReceiptPoints` and of the library calls it makes
(`regexp.ReplaceAllString`, `strings.Index`, `strings.TrimSpace`,
`strconv.ParseInt`, `strconv.ParseFloat`, `math.Ceil`, float64 multiplication,
the conversion `int(float64)`, and wrap-around addition on the 64-bit `int`),
followed by the properties of the scoring rules.

Conventions of the embedding:

* a Go `string` is modelled by the list of its code points (the strings of a
  receipt come out of `json.Unmarshal`, which only produces valid UTF-8); `len`
  is the number of bytes of the UTF-8 encoding;
* `int` is the 64-bit two's complement integer: every addition wraps;
* a `float64` is a sign, a mantissa and a binary exponent, or an infinity, or
  NaN; rounding is to nearest, ties to even, with gradual underflow;
* `time.Time` is modelled by its civil fields.
-/

namespace Receipts

/-! ## Go strings -/

/-- A Go string, as the sequence of its code points. -/
abbrev GoString := List Char

/-- Number of bytes of the UTF-8 encoding of one code point. -/
def runeLen (c : Char) : Nat :=
  if c.toNat < 0x80 then 1
  else if c.toNat < 0x800 then 2
  else if c.toNat < 0x10000 then 3
  else 4

/-- The builtin `len(s)` of a string: its length in bytes. -/
def len : GoString → Nat
  | [] => 0
  | c :: cs => runeLen c + len cs

/-- Scan for `strings.Index(s, sep)` with a one-character separator: `off` is
the byte offset of the first character of the remaining input. -/
def indexFrom (sep : Char) : GoString → Nat → Int
  | [], _ => -1
  | c :: cs, off => if c = sep then (off : Int) else indexFrom sep cs (off + runeLen c)

/-- The call `strings.Index(s, sep)`: byte offset of the first occurrence of
`sep`, or `-1` when there is none. -/
def stringsIndex (s : GoString) (sep : Char) : Int :=
  indexFrom sep s 0

/-- The slice expression `s[k:]` for a byte offset `k` that lies on a character
boundary between `0` and `len s` (the only offsets `calcReceiptPoints` uses). -/
def sliceFrom : GoString → Nat → GoString
  | s, 0 => s
  | [], _ + 1 => []
  | c :: cs, k + 1 => sliceFrom cs (k + 1 - runeLen c)

/-! ## The regular expression `[^a-zA-Z0-9]+` -/

/-- The character class `[^a-zA-Z0-9]`. -/
def nonAlphaNumeric (c : Char) : Bool :=
  !(('a' ≤ c && c ≤ 'z') || ('A' ≤ c && c ≤ 'Z') || ('0' ≤ c && c ≤ '9'))

/-- Scanner for `ReplaceAllString` of a one-or-more repetition `[cls]+`: each
maximal run of characters of the class is one match and is replaced by `repl`;
`inRun` tells whether the previous character belonged to a match. -/
def replaceRuns (cls : Char → Bool) (repl : GoString) : Bool → GoString → GoString
  | _, [] => []
  | inRun, c :: cs =>
    if cls c then (if inRun then [] else repl) ++ replaceRuns cls repl true cs
    else c :: replaceRuns cls repl false cs

/-- The call `nonAlphaNumericRegex.ReplaceAllString(s, repl)`. -/
def replaceAllString (s repl : GoString) : GoString :=
  replaceRuns nonAlphaNumeric repl false s

/-! ## `strings.TrimSpace` -/

/-- The predicate `unicode.IsSpace`: the code points with the Unicode property
White_Space. -/
def isSpace (c : Char) : Bool :=
  let n := c.toNat
  (9 ≤ n && n ≤ 13) || n = 0x20 || n = 0x85 || n = 0xA0 || n = 0x1680 ||
  (0x2000 ≤ n && n ≤ 0x200A) || n = 0x2028 || n = 0x2029 || n = 0x202F ||
  n = 0x205F || n = 0x3000

/-- The call `strings.TrimSpace(s)`. -/
def trimSpace (s : GoString) : GoString :=
  (s.dropWhile isSpace).rdropWhile isSpace

/-! ## The 64-bit `int` -/

/-- Reduction of an integer to the range of the 64-bit signed `int`. -/
def wrap64 (z : Int) : Int :=
  (z + 2 ^ 63) % 2 ^ 64 - 2 ^ 63

/-- Addition on `int` (the statement `points += n`). -/
def addInt (a b : Int) : Int :=
  wrap64 (a + b)

/-- Multiplication on `int`. -/
def mulInt (a b : Int) : Int :=
  wrap64 (a * b)

/-! ## `strconv.ParseInt` -/

/-- Decimal digit test. -/
def isDigit (c : Char) : Bool :=
  '0' ≤ c && c ≤ '9'

/-- Value of a decimal digit. -/
def digitVal (c : Char) : Nat :=
  c.toNat - 48

/-- Digit loop of `strconv.ParseUint` in base 10; `none` is a syntax error. -/
def parseDigits : GoString → Nat → Option Nat
  | [], acc => some acc
  | c :: cs, acc => if isDigit c then parseDigits cs (acc * 10 + digitVal c) else none

/-- The call `strconv.ParseInt(s, 10, bitSize)`; `none` stands for a non-nil
error (syntax error or value out of range). -/
def parseInt (s : GoString) (bitSize : Nat) : Option Int :=
  match s with
  | [] => none
  | c :: cs =>
    let body := if c = '+' ∨ c = '-' then cs else s
    if body = [] then none
    else
      match parseDigits body 0 with
      | none => none
      | some un =>
        if c = '-' then (if 2 ^ (bitSize - 1) < un then none else some (-(un : Int)))
        else (if 2 ^ (bitSize - 1) ≤ un then none else some (un : Int))

/-! ## `float64` -/

/-- A float64 value: `finite neg m e` is `(-1)^neg * m * 2^e`. The values that
rounding produces have `m ≤ 2^53` and `-1074 ≤ e ≤ 971` (IEEE 754 binary64,
subnormals included); only the value `m * 2^e` matters to the operations, so
the pair is not normalised. The sign of a zero is kept. -/
inductive Float64
  | finite (neg : Bool) (m : Nat) (e : Int)
  | inf (neg : Bool)
  | nan
  deriving DecidableEq, Repr

/-- Number of binary digits of `n`, by halving; `fuel` bounds the number of
halvings. -/
def bitLenAux : Nat → Nat → Nat
  | 0, _ => 0
  | fuel + 1, n => if n = 0 then 0 else bitLenAux fuel (n / 2) + 1

/-- Number of binary digits of `n` (`0` for `0`). -/
def bitLen (n : Nat) : Nat :=
  bitLenAux n n

/-- The integer nearest to `n / d`, ties going to the even one. -/
def roundHalfEven (n d : Nat) : Nat :=
  let q := n / d
  let r := n % d
  if 2 * r < d then q
  else if d < 2 * r then q + 1
  else if q % 2 = 0 then q else q + 1

/-- Binary exponent `e` of the float64 nearest to `n / d > 0`: the one with
`2^52 ≤ (n / d) / 2^e < 2^53`, but not below the subnormal exponent `-1074`. -/
def binadeExp (n d : Nat) : Int :=
  let e1 : Int := (bitLen n : Int) - (bitLen d : Int) - 52
  let e : Int := if d * 2 ^ bitLen n ≤ n * 2 ^ bitLen d then e1 else e1 - 1
  max e (-1074)

/-- The integer nearest (ties to even) to `(n / d) / 2^e`. -/
def scaleRound (n d : Nat) (e : Int) : Nat :=
  match e with
  | Int.ofNat k => roundHalfEven n (d * 2 ^ k)
  | Int.negSucc k => roundHalfEven (n * 2 ^ (k + 1)) d

/-- Rounding of the exact value `(-1)^neg * n / d` to float64, as IEEE 754
prescribes for `*` and as `strconv.ParseFloat` documents for its result: round
to nearest, ties to even, on 53 binary digits (fewer below `2^-1022`); a result
of `2^1024` or more is an infinity. -/
def roundNE (neg : Bool) (n d : Nat) : Float64 :=
  if n = 0 then Float64.finite neg 0 0
  else
    let e := binadeExp n d
    let m := scaleRound n d e
    if 971 < e ∨ (e = 971 ∧ m = 2 ^ 53) then Float64.inf neg
    else Float64.finite neg m e

/-- The exact product `m * b^e` of a natural number and an integer power of
the base `b`, as a fraction (numerator, denominator). -/
def scaled (b m : Nat) (e : Int) : Nat × Nat :=
  match e with
  | Int.ofNat k => (m * b ^ k, 1)
  | Int.negSucc k => (m, b ^ (k + 1))

/-- Multiplication of two float64 values (the operator `*`). -/
def Float64.mul : Float64 → Float64 → Float64
  | Float64.finite s1 m1 e1, Float64.finite s2 m2 e2 =>
    roundNE (xor s1 s2) (scaled 2 (m1 * m2) (e1 + e2)).1 (scaled 2 (m1 * m2) (e1 + e2)).2
  | Float64.finite s1 m1 _, Float64.inf s2 =>
    if m1 = 0 then Float64.nan else Float64.inf (xor s1 s2)
  | Float64.inf s1, Float64.finite s2 m2 _ =>
    if m2 = 0 then Float64.nan else Float64.inf (xor s1 s2)
  | Float64.inf s1, Float64.inf s2 => Float64.inf (xor s1 s2)
  | Float64.nan, _ => Float64.nan
  | _, Float64.nan => Float64.nan

/-- The call `math.Ceil(x)`: the least integral value not below `x`. -/
def Float64.ceil : Float64 → Float64
  | Float64.finite neg m e =>
    match e with
    | Int.ofNat _ => Float64.finite neg m e
    | Int.negSucc k =>
      if neg then Float64.finite neg (m / 2 ^ (k + 1)) 0
      else Float64.finite neg ((m + 2 ^ (k + 1) - 1) / 2 ^ (k + 1)) 0
  | x => x

/-- The conversion `int(x)` of a float64: the fraction is discarded. A value
that `int` cannot represent (also an infinity or NaN) converts to an
implementation-dependent value; the one of amd64, `-2^63`, is used. -/
def Float64.toInt : Float64 → Int
  | Float64.finite neg m e =>
    let t : Nat := match e with
      | Int.ofNat k => m * 2 ^ k
      | Int.negSucc k => m / 2 ^ (k + 1)
    let v : Int := if neg then -(t : Int) else (t : Int)
    if -2 ^ 63 ≤ v ∧ v < 2 ^ 63 then v else -2 ^ 63
  | _ => -2 ^ 63

/-- The constant `0.2` of type float64. -/
def pointTwo : Float64 :=
  roundNE false 1 5

/-! ## `strconv.ParseFloat` -/

/-- Lower-casing of an ASCII capital, as in `commonPrefixLenIgnoreCase`. -/
def asciiLower (c : Char) : Char :=
  if 'A' ≤ c ∧ c ≤ 'Z' then Char.ofNat (c.toNat + 32) else c

/-- Length of the longest prefix of `pre` that `s` starts with, ignoring the
case of `s` (`pre` is lower case). -/
def commonPrefixLenIgnoreCase : GoString → GoString → Nat
  | c :: cs, p :: ps => if asciiLower c = p then commonPrefixLenIgnoreCase cs ps + 1 else 0
  | _, _ => 0

/-- Length of the infinity word at the start of `s`: `8` for "infinity", `3`
for "inf", anything else means there is none. -/
def infLen (s : GoString) : Nat :=
  let n := commonPrefixLenIgnoreCase s "infinity".toList
  if 3 < n ∧ n < 8 then 3 else n

/-- The function `special` of strconv: an optionally signed "inf" or "infinity",
or an unsigned "nan", at the start of `s`; returns the value and the rest of the
input. -/
def special (s : GoString) : Option (Float64 × GoString) :=
  match s with
  | [] => none
  | c :: cs =>
    if c = '+' ∨ c = '-' then
      (if infLen cs = 3 ∨ infLen cs = 8
        then some (Float64.inf (decide (c = '-')), cs.drop (infLen cs)) else none)
    else if c = 'i' ∨ c = 'I' then
      (if infLen s = 3 ∨ infLen s = 8
        then some (Float64.inf false, s.drop (infLen s)) else none)
    else if c = 'n' ∨ c = 'N' then
      (if commonPrefixLenIgnoreCase s "nan".toList = 3
        then some (Float64.nan, s.drop 3) else none)
    else none

/-- State of the mantissa loop of `readFloat`: the value of the digits read so
far, the number of them after the point, and the flags of the loop. -/
structure Mantissa where
  digits : Nat
  frac : Nat
  sawdot : Bool
  sawdigits : Bool
  underscores : Bool
  deriving DecidableEq, Repr

/-- Hexadecimal letter test (`'a' <= lower(c) && lower(c) <= 'f'`). -/
def isHexLetter (c : Char) : Bool :=
  ('a' ≤ c && c ≤ 'f') || ('A' ≤ c && c ≤ 'F')

/-- Value of a hexadecimal letter. -/
def hexLetterVal (c : Char) : Nat :=
  if 'a' ≤ c then c.toNat - 87 else c.toNat - 55

/-- One more digit of value `v` in base `base`. -/
def Mantissa.push (st : Mantissa) (base v : Nat) : Mantissa :=
  { st with
    digits := st.digits * base + v
    frac := if st.sawdot then st.frac + 1 else st.frac
    sawdigits := true }

/-- The mantissa loop of `readFloat`: digits of the base, underscores and at
most one point; returns the final state and the unread input. All digits are
kept (strconv keeps 19 and a sticky flag, which rounds the same way). -/
def readMantissa (base : Nat) : GoString → Mantissa → Mantissa × GoString
  | [], st => (st, [])
  | c :: cs, st =>
    if c = '_' then readMantissa base cs { st with underscores := true }
    else if c = '.' then
      (if st.sawdot then (st, c :: cs) else readMantissa base cs { st with sawdot := true })
    else if isDigit c then readMantissa base cs (st.push base (digitVal c))
    else if base = 16 ∧ isHexLetter c then readMantissa base cs (st.push base (hexLetterVal c))
    else (st, c :: cs)

/-- The exponent digit loop of `readFloat`: digits and underscores; the value
stops growing once it has reached 10000. Returns the value, whether an
underscore was seen, and the unread input. -/
def readExpDigits : GoString → Nat → Bool → Nat × Bool × GoString
  | [], e, u => (e, u, [])
  | c :: cs, e, u =>
    if c = '_' then readExpDigits cs e true
    else if isDigit c then readExpDigits cs (if e < 10000 then e * 10 + digitVal c else e) u
    else (e, u, c :: cs)

/-- Scan of `underscoreOK`; `saw` is the kind of the previous character: `0` at
the start, `1` after a digit or base prefix, `2` after an underscore, `3` after
anything else. -/
def underscoreScan (hex : Bool) : GoString → Nat → Bool
  | [], saw => saw != 2
  | c :: cs, saw =>
    if isDigit c || (hex && isHexLetter c) then underscoreScan hex cs 1
    else if c = '_' then (if saw != 1 then false else underscoreScan hex cs 2)
    else if saw = 2 then false
    else underscoreScan hex cs 3

/-- The function `underscoreOK` of strconv: underscores only between digits, or
between a base prefix and a digit. -/
def underscoreOK (s : GoString) : Bool :=
  let s := match s with
    | c :: cs => if c = '-' ∨ c = '+' then cs else s
    | [] => s
  match s with
  | '0' :: x :: rest =>
    if x = 'b' ∨ x = 'B' ∨ x = 'o' ∨ x = 'O' ∨ x = 'x' ∨ x = 'X'
    then underscoreScan (decide (x = 'x' ∨ x = 'X')) rest 1
    else underscoreScan false s 0
  | _ => underscoreScan false s 0

/-- The optional exponent of `readFloat`, starting at the exponent character
when there is one: `expChars` are its two spellings and `must` says that it is
mandatory (hexadecimal mantissa). Returns the signed exponent, whether an
underscore was seen, and the unread input; `none` is a syntax error. -/
def readExponent (expChars : Char × Char) (must : Bool) (s : GoString) :
    Option (Int × Bool × GoString) :=
  match s with
  | c :: cs =>
    if c = expChars.1 ∨ c = expChars.2 then
      match cs with
      | [] => none
      | d :: ds =>
        let body := if d = '+' ∨ d = '-' then ds else cs
        match body with
        | [] => none
        | b :: _ =>
          if isDigit b then
            let r := readExpDigits body 0 false
            some (if d = '-' then -(r.1 : Int) else (r.1 : Int), r.2.1, r.2.2)
          else none
    else if must then none else some (0, false, s)
  | [] => if must then none else some (0, false, [])

/-- The test of `readFloat` for a hexadecimal mantissa: "0x" or "0X" at the
start, followed by at least one more character. -/
def hexPrefix : GoString → Bool
  | c :: x :: _ :: _ => c = '0' && (x = 'x' || x = 'X')
  | _ => false

/-- The function `readFloat` of strconv on the whole of `s`: sign, mantissa
and exponent. Returns the sign, the exact magnitude as a fraction, and the
unread input; `none` is a syntax error. -/
def readFloat (s : GoString) : Option (Bool × (Nat × Nat) × GoString) :=
  match s with
  | [] => none
  | c :: cs =>
    let neg := decide (c = '-')
    let body := if c = '+' ∨ c = '-' then cs else s
    let hex := hexPrefix body
    let base := if hex then 16 else 10
    let r := readMantissa base (if hex then body.drop 2 else body) ⟨0, 0, false, false, false⟩
    if r.1.sawdigits = false then none
    else
      match readExponent (if hex then ('p', 'P') else ('e', 'E')) hex r.2 with
      | none => none
      | some (e, u, rest) =>
        if (r.1.underscores || u) && !underscoreOK (s.take (s.length - rest.length)) then none
        else
          let ex : Int := if hex then e - 4 * (r.1.frac : Int) else e - (r.1.frac : Int)
          some (neg, scaled (if hex then 2 else 10) r.1.digits ex, rest)

/-- The call `strconv.ParseFloat(s, 64)`; `none` stands for a non-nil error: a
syntax error, input left unread, or a magnitude that rounds to infinity. -/
def parseFloat (s : GoString) : Option Float64 :=
  match special s with
  | some (v, rest) => if rest = [] then some v else none
  | none =>
    match readFloat s with
    | none => none
    | some (neg, q, rest) =>
      if rest = [] then
        match roundNE neg q.1 q.2 with
        | Float64.inf _ => none
        | v => some v
      else none

/-! ## The data model of `main.go` -/

/-- A `time.Time`, by its civil fields (the values of `Date()` and `Clock()`). -/
structure Time where
  year : Int
  month : Nat
  day : Nat
  hour : Nat
  min : Nat
  sec : Nat
  deriving DecidableEq, Repr

/-- The method `Date()`: year, month and day. -/
def Time.Date (t : Time) : Int × Nat × Nat :=
  (t.year, t.month, t.day)

/-- The method `Clock()`: hour, minute and second. -/
def Time.Clock (t : Time) : Nat × Nat × Nat :=
  (t.hour, t.min, t.sec)

/-- The type `ReceiptTime`, declared as `time.Time`. -/
abbrev ReceiptTime := Time

/-- The type `ReceiptDate`, declared as `time.Time`. -/
abbrev ReceiptDate := Time

/-- A `uuid.UUID`, an array of 16 bytes, read as a number. -/
abbrev UUID := Fin (2 ^ 128)

/-- The struct `Item`. -/
structure Item where
  ShortDescription : GoString
  Price : GoString
  deriving DecidableEq, Repr

/-- The struct `Receipt`. -/
structure Receipt where
  ID : UUID
  Retailer : GoString
  PurchaseDate : ReceiptDate
  PurchaseTime : ReceiptTime
  Total : GoString
  Items : List Item
  deriving DecidableEq, Repr

/-! ## `calcReceiptPoints` -/

/-- The loop over the items of `calcReceiptPoints`, started with the points
accumulated so far; `none` is the `return -1` inside the loop. -/
def itemsLoop : List Item → Int → Option Int
  | [], points => some points
  | it :: rest, points =>
    let l := len (trimSpace it.ShortDescription)
    if l % 3 = 0 then
      match parseFloat it.Price with
      | none => none
      | some price => itemsLoop rest (addInt points ((price.mul pointTwo).ceil.toInt))
    else itemsLoop rest points

/-- The function `calcReceiptPoints`. -/
def calcReceiptPoints (p : Receipt) : Int :=
  let points : Int := 0
  let points := addInt points (len (replaceAllString p.Retailer []))
  match parseInt (sliceFrom p.Total (stringsIndex p.Total '.' + 1).toNat) 32 with
  | none => -1
  | some totalDecimal =>
    let points := if totalDecimal = 0 then addInt points 50 else points
    let points := if totalDecimal.tmod 25 = 0 then addInt points 25 else points
    let points := addInt points (mulInt (p.Items.length / 2 : Nat) 5)
    match itemsLoop p.Items points with
    | none => -1
    | some points =>
      let day := p.PurchaseDate.Date.2.2
      let points := if day % 2 = 1 then addInt points 6 else points
      let hour := p.PurchaseTime.Clock.1
      let min := p.PurchaseTime.Clock.2.1
      let points :=
        if hour = 14 ∨ hour = 15 then
          (if ¬(hour = 14 ∧ min = 0) then addInt points 10 else points)
        else points
      points

/-! ## The rules of the score, one at a time -/

/-- Rule R1 as computed: the byte length of the retailer once every run of
non-alphanumeric characters is deleted. -/
def retailerPoints (retailer : GoString) : Nat :=
  len (replaceAllString retailer [])

/-- The text of the total that is handed to `ParseInt`: what follows the first
point. -/
def totalFraction (total : GoString) : GoString :=
  sliceFrom total (stringsIndex total '.' + 1).toNat

/-- Rules R2 and R3 as computed from the parsed `totalDecimal`. -/
def totalPoints (totalDecimal : Int) : Int :=
  (if totalDecimal = 0 then 50 else 0) + (if totalDecimal.tmod 25 = 0 then 25 else 0)

/-- Rule R4 as computed. -/
def pairPoints (items : List Item) : Int :=
  ((items.length / 2 : Nat) : Int) * 5

/-- The test of the loop on a description: trimmed length a multiple of 3. -/
def qualifies (description : GoString) : Bool :=
  len (trimSpace description) % 3 = 0

/-- The points of one qualifying item: `int(math.Ceil(price * 0.2))`. -/
def pricePoints (price : Float64) : Int :=
  (price.mul pointTwo).ceil.toInt

/-- Rule R5 as computed: the sum over the qualifying items, or `none` when the
price of a qualifying item does not parse. -/
def itemsPoints : List Item → Option Int
  | [] => some 0
  | it :: rest =>
    if qualifies it.ShortDescription then
      match parseFloat it.Price, itemsPoints rest with
      | some price, some s => some (pricePoints price + s)
      | _, _ => none
    else itemsPoints rest

/-- Rule R6 as computed. -/
def dayPoints (d : ReceiptDate) : Int :=
  if d.Date.2.2 % 2 = 1 then 6 else 0

/-- Rule R7 as computed. -/
def timePoints (t : ReceiptTime) : Int :=
  if (t.Clock.1 = 14 ∨ t.Clock.1 = 15) ∧ ¬(t.Clock.1 = 14 ∧ t.Clock.2.1 = 0) then 10 else 0

/-- The sum of the seven rules before reduction to `int`, or `none` when the
total or the price of a qualifying item does not parse. -/
def scoreSum (p : Receipt) : Option Int :=
  match parseInt (totalFraction p.Total) 32, itemsPoints p.Items with
  | some totalDecimal, some s =>
    some ((retailerPoints p.Retailer : Int) + totalPoints totalDecimal + pairPoints p.Items + s
      + dayPoints p.PurchaseDate + timePoints p.PurchaseTime)
  | _, _ => none

/-- A code point in one of the ranges A-Z (65-90), a-z (97-122), 0-9 (48-57). -/
def isAsciiAlnum (c : Char) : Bool :=
  (65 ≤ c.toNat && c.toNat ≤ 90) || (97 ≤ c.toNat && c.toNat ≤ 122) ||
  (48 ≤ c.toNat && c.toNat ≤ 57)

/-- Number of characters of a string in the ranges A-Z, a-z, 0-9. -/
def asciiAlnumCount (s : GoString) : Nat :=
  s.countP isAsciiAlnum

/-- A word with padding inserted: each letter preceded by its own padding, and
a final padding after the last letter. -/
def padded : List (GoString × Char) → GoString → GoString
  | [], tail => tail
  | (pad, c) :: rest, tail => pad ++ c :: padded rest tail

/-- The character of a decimal digit `n < 10`. -/
def digitChar (n : Nat) : Char :=
  Char.ofNat (48 + n)

/-- Rule R2 as the spec words it, on the two fractional digits of the total:
50 when they are 00. -/
def roundDollarPoints (a b : Nat) : Int :=
  if a = 0 ∧ b = 0 then 50 else 0

/-- Rule R3 as the spec words it, on the two fractional digits of the total:
25 when they are 00, 25, 50 or 75. -/
def quarterPoints (a b : Nat) : Int :=
  if (a = 0 ∧ b = 0) ∨ (a = 2 ∧ b = 5) ∨ (a = 5 ∧ b = 0) ∨ (a = 7 ∧ b = 5) then 25 else 0

/-- The minute of the day of a time of day. -/
def minuteOfDay (t : ReceiptTime) : Nat :=
  60 * t.hour + t.min

/-- Rule R7 as the spec words it: 10 when the time is strictly between 14:00
and 16:00. -/
def windowPoints (t : ReceiptTime) : Int :=
  if 14 * 60 < minuteOfDay t ∧ minuteOfDay t < 16 * 60 then 10 else 0

/-- A calendar date as `time.Parse(time.DateOnly, ...)` returns it. -/
def dateOf (year : Int) (month day : Nat) : ReceiptDate :=
  ⟨year, month, day, 0, 0, 0⟩

/-- A time of day as `time.Parse(time.TimeOnly, ...)` returns it. -/
def timeOf (hour min : Nat) : ReceiptTime :=
  ⟨0, 1, 1, hour, min, 0⟩

/-- Scenario A of the spec: the "Target" receipt. -/
def scenarioA : Receipt :=
  { ID := 0
    Retailer := "Target".toList
    PurchaseDate := dateOf 2022 1 1
    PurchaseTime := timeOf 13 1
    Total := "35.35".toList
    Items :=
      [⟨"Mountain Dew 12PK".toList, "6.49".toList⟩,
       ⟨"Emils Cheese Pizza".toList, "12.25".toList⟩,
       ⟨"Knorr Creamy Chicken".toList, "1.26".toList⟩,
       ⟨"Doritos Nacho Cheese".toList, "3.35".toList⟩,
       ⟨"   Klarbrunn 12-PK 12 FL OZ  ".toList, "12.00".toList⟩] }

/-- Scenario B of the spec: the "M&M Corner Market" receipt. -/
def scenarioB : Receipt :=
  { ID := 0
    Retailer := "M&M Corner Market".toList
    PurchaseDate := dateOf 2022 3 20
    PurchaseTime := timeOf 14 33
    Total := "9.00".toList
    Items :=
      [⟨"Gatorade".toList, "2.25".toList⟩, ⟨"Gatorade".toList, "2.25".toList⟩,
       ⟨"Gatorade".toList, "2.25".toList⟩, ⟨"Gatorade".toList, "2.25".toList⟩] }

/-- Scenario C of the spec: odd day, round total, time inside the window. -/
def scenarioC : Receipt :=
  { ID := 0
    Retailer := "A1".toList
    PurchaseDate := dateOf 2023 5 1
    PurchaseTime := timeOf 15 30
    Total := "2.00".toList
    Items := [⟨"abc".toList, "1.00".toList⟩, ⟨"def".toList, "1.00".toList⟩] }

/-- White space as the spec defines it for R5: space, tab, newline, carriage
return. -/
def isAsciiSpace (c : Char) : Bool :=
  c = ' ' || c = '\t' || c = '\n' || c = '\r'

/-- The qualifying test of R5 as the spec words it: the number of code points
of the description, without its leading and trailing spec white space, is a
multiple of 3. -/
def specQualifies (description : GoString) : Bool :=
  ((description.dropWhile isAsciiSpace).rdropWhile isAsciiSpace).length % 3 = 0

/-- Scenario C with the total "2", which has no decimal point. -/
def totalWithoutPoint : Receipt :=
  { scenarioC with Total := "2".toList }

/-- A receipt whose only item has a negative price. -/
def negativePrice : Receipt :=
  { ID := 0
    Retailer := "A".toList
    PurchaseDate := dateOf 2022 3 20
    PurchaseTime := timeOf 13 1
    Total := "0.01".toList
    Items := [⟨"abc".toList, "-10.00".toList⟩] }

/-- The number written by a string of decimal digits. -/
def natOfDigits (ds : GoString) : Nat :=
  ds.foldl (fun acc c => acc * 10 + digitVal c) 0

/-- The amount of the data model: one or more digits, a point and two digits;
the value is the number of cents ("12.25" is 1225), `none` for any other text. -/
def decimalCents (s : GoString) : Option Nat :=
  match s.reverse with
  | b :: a :: p :: sd =>
    if p = '.' ∧ sd ≠ [] ∧ sd.all isDigit = true ∧ isDigit a = true ∧ isDigit b = true then
      some (natOfDigits (sd.reverse ++ [a, b]))
    else none
  | _ => none

/-- The least natural number `n` with `500 * n ≥ c`: the ceiling of `c / 500`,
that is of the exact product of a price of `c` cents and 0.2. -/
def ceilFifth (c : Nat) : Nat :=
  (c + 499) / 500

/-- Rule R5 of the spec on receipts of the data model: the sum, over the items
whose trimmed description length is a multiple of 3, of the ceiling of price
times 0.2; `none` when a price is not an amount of the data model. -/
def specItemsPoints : List Item → Option Int
  | [] => some 0
  | it :: rest =>
    match decimalCents it.Price, specItemsPoints rest with
    | some c, some s =>
      some ((if qualifies it.ShortDescription then (ceilFifth c : Int) else 0) + s)
    | _, _ => none

/-- The score of the spec, R1 + R2 + R3 + R4 + R5 + R6 + R7, for a receipt of
the data model; `none` when the total or a price is not an amount of the data
model. -/
def specScore (p : Receipt) : Option Int :=
  match decimalCents p.Total, specItemsPoints p.Items with
  | some t, some r5 =>
    some ((asciiAlnumCount p.Retailer : Int)
      + (if t % 100 = 0 then 50 else 0)
      + (if t % 100 = 0 ∨ t % 100 = 25 ∨ t % 100 = 50 ∨ t % 100 = 75 then 25 else 0)
      + 5 * ((p.Items.length / 2 : Nat) : Int)
      + r5
      + (if p.PurchaseDate.day % 2 = 1 then 6 else 0)
      + windowPoints p.PurchaseTime)
  | _, _ => none

/-- A receipt of the data model with a price of 175921860444160.01. -/
def hugePrice : Receipt :=
  { ID := 0
    Retailer := "A".toList
    PurchaseDate := dateOf 2022 3 20
    PurchaseTime := timeOf 13 1
    Total := "175921860444160.01".toList
    Items := [⟨"abc".toList, "175921860444160.01".toList⟩] }

/-- A non-negative decimal: one or more digits, optionally followed by a point
and further digits. The value is returned as the number written by all the
digits and the count of digits after the point ("12.5" is `(125, 1)`, that is
125 / 10^1); `none` for any other text. -/
def decimalValue (s : GoString) : Option (Nat × Nat) :=
  if s.takeWhile isDigit = [] then none
  else
    match s.dropWhile isDigit with
    | [] => some (natOfDigits (s.takeWhile isDigit), 0)
    | p :: fs =>
      if p = '.' ∧ fs.all isDigit = true then
        some (natOfDigits (s.takeWhile isDigit ++ fs), fs.length)
      else none

/-- A receipt with two items, each at 23058430092136939520.00 (5 * 2^62). -/
def wrappingPrices : Receipt :=
  { ID := 0
    Retailer := "A".toList
    PurchaseDate := dateOf 2022 3 20
    PurchaseTime := timeOf 13 1
    Total := "0.01".toList
    Items :=
      [⟨"abc".toList, "23058430092136939520.00".toList⟩,
       ⟨"def".toList, "23058430092136939520.00".toList⟩] }

/-! ## Run-time checks of `calcReceiptPoints` -/

/-- The slice expression `s[k:]` with its run-time check: `none` is the panic
"slice bounds out of range", raised unless `0 ≤ k ≤ len(s)`. -/
def sliceFromChecked (s : GoString) (k : Int) : Option GoString :=
  if 0 ≤ k ∧ k ≤ (len s : Int) then some (sliceFrom s k.toNat) else none

/-- The loop `for i := 0; i < len(p.Items); i++` of `calcReceiptPoints` as it is
written, from the counter value `i`, every `p.Items[i]` with its run-time
check. The outer `none` is the panic "index out of range"; `some none` is the
`return -1` inside the loop. -/
def itemsLoopIndexed (items : List Item) (i : Nat) (points : Int) : Option (Option Int) :=
  if i < items.length then
    match items[i]? with
    | none => none
    | some it =>
      let l := len (trimSpace it.ShortDescription)
      if l % 3 = 0 then
        match parseFloat it.Price with
        | none => some none
        | some price => itemsLoopIndexed items (i + 1) (addInt points ((price.mul pointTwo).ceil.toInt))
      else itemsLoopIndexed items (i + 1) points
  else some (some points)
termination_by items.length - i

/-- The function `calcReceiptPoints` with the run-time checks of its slice and
index expressions: `none` is a panic, `some n` the value returned. -/
def calcReceiptPointsChecked (p : Receipt) : Option Int :=
  let points : Int := 0
  let points := addInt points (len (replaceAllString p.Retailer []))
  match sliceFromChecked p.Total (stringsIndex p.Total '.' + 1) with
  | none => none
  | some fraction =>
    match parseInt fraction 32 with
    | none => some (-1)
    | some totalDecimal =>
      let points := if totalDecimal = 0 then addInt points 50 else points
      let points := if totalDecimal.tmod 25 = 0 then addInt points 25 else points
      let points := addInt points (mulInt (p.Items.length / 2 : Nat) 5)
      match itemsLoopIndexed p.Items 0 points with
      | none => none
      | some none => some (-1)
      | some (some points) =>
        let day := p.PurchaseDate.Date.2.2
        let points := if day % 2 = 1 then addInt points 6 else points
        let hour := p.PurchaseTime.Clock.1
        let min := p.PurchaseTime.Clock.2.1
        let points :=
          if hour = 14 ∨ hour = 15 then
            (if ¬(hour = 14 ∧ min = 0) then addInt points 10 else points)
          else points
        some points

/-- Two item lists that differ at most in the prices of the items whose
description does not qualify. -/
def sameUsedPrices (xs ys : List Item) : Prop :=
  List.Forall₂ (fun a b => a.ShortDescription = b.ShortDescription ∧
    (qualifies a.ShortDescription = true → a.Price = b.Price)) xs ys

/-- Scenario A with a price that is not a number on its first item, whose
description (17 bytes) does not qualify. -/
def scenarioAUnpriced : Receipt :=
  { scenarioA with
    Items :=
      [⟨"Mountain Dew 12PK".toList, "free".toList⟩,
       ⟨"Emils Cheese Pizza".toList, "12.25".toList⟩,
       ⟨"Knorr Creamy Chicken".toList, "1.26".toList⟩,
       ⟨"Doritos Nacho Cheese".toList, "3.35".toList⟩,
       ⟨"   Klarbrunn 12-PK 12 FL OZ  ".toList, "12.00".toList⟩] }

/-- Scenario A with its items in the reverse order. -/
def scenarioAReversed : Receipt :=
  { scenarioA with Items := scenarioA.Items.reverse }

/-! ## `strings.Trim` and `time.Parse` -/

/-- The call `strings.Trim(s, cutset)` for a cutset of one character: every
leading and trailing occurrence of it is removed. -/
def stringsTrim (s : GoString) (cut : Char) : GoString :=
  (s.dropWhile (fun c => c = cut)).rdropWhile (fun c => c = cut)

/-- The function `getnum` of package time: the number of one or two digits at
the start of `s`, exactly two when `fixed`; returns the number and the rest of
the input, `none` is an error. -/
def getnum (s : GoString) (fixed : Bool) : Option (Nat × GoString) :=
  match s with
  | [] => none
  | [c1] => if isDigit c1 ∧ fixed = false then some (digitVal c1, []) else none
  | c1 :: c2 :: rest =>
    if isDigit c1 then
      (if isDigit c2 then some (digitVal c1 * 10 + digitVal c2, rest)
       else if fixed then none else some (digitVal c1, c2 :: rest))
    else none

/-- One literal character of a layout: it has to be the next character of the
input; returns the rest. -/
def skipLiteral (c : Char) (s : GoString) : Option GoString :=
  match s with
  | [] => none
  | x :: rest => if x = c then some rest else none

/-- The function `isLeap` of package time. -/
def isLeap (year : Nat) : Bool :=
  year % 4 = 0 ∧ (year % 100 ≠ 0 ∨ year % 400 = 0)

/-- The function `daysIn` of package time: the number of days of a month. -/
def daysIn (month year : Nat) : Nat :=
  if month = 2 ∧ isLeap year = true then 29
  else
    match month with
    | 1 => 31 | 2 => 28 | 3 => 31 | 4 => 30 | 5 => 31 | 6 => 30
    | 7 => 31 | 8 => 31 | 9 => 30 | 10 => 31 | 11 => 30 | 12 => 31
    | _ => 0

/-- The call `time.Parse(time.DateOnly, value)`, the layout being "2006-01-02":
a year of four digits, a hyphen, a month of two digits, a hyphen, a day of two
digits and nothing more; the month has to be in 1..12 and the day has to exist
in that month. The result is that day at 00:00:00 UTC; `none` is an error. -/
def timeParseDateOnly (value : GoString) : Option Time :=
  match value with
  | y1 :: y2 :: y3 :: y4 :: afterYear =>
    if isDigit y1 ∧ isDigit y2 ∧ isDigit y3 ∧ isDigit y4 then
      match skipLiteral '-' afterYear with
      | none => none
      | some atMonth =>
        match getnum atMonth true with
        | none => none
        | some (month, afterMonth) =>
          if month = 0 ∨ 12 < month then none
          else
            match skipLiteral '-' afterMonth with
            | none => none
            | some atDay =>
              match getnum atDay true with
              | none => none
              | some (day, rest) =>
                if rest ≠ [] then none
                else if day < 1 ∨ daysIn month (natOfDigits [y1, y2, y3, y4]) < day then none
                else some ⟨(natOfDigits [y1, y2, y3, y4] : Nat), month, day, 0, 0, 0⟩
    else none
  | _ => none

/-- A fractional second in the input where the layout has none: a period or
comma followed by digits, which `time.Parse` reads after the seconds. Returns
the rest of the input. -/
def skipFraction (s : GoString) : GoString :=
  match s with
  | c :: d :: rest =>
    if (c = '.' ∨ c = ',') ∧ isDigit d = true then rest.dropWhile isDigit else s
  | _ => s

/-- The call `time.Parse(time.TimeOnly, value)`, the layout being "15:04:05":
an hour of one or two digits, a colon, a minute of two digits, a colon, a
second of two digits, possibly a fractional second, and nothing more; hour
below 24, minute and second below 60. The result is that time on January 1 of
the year 0, UTC (the fraction of a second is not kept); `none` is an error. -/
def timeParseTimeOnly (value : GoString) : Option Time :=
  match getnum value false with
  | none => none
  | some (hour, afterHour) =>
    if 24 ≤ hour then none
    else
      match skipLiteral ':' afterHour with
      | none => none
      | some atMinute =>
        match getnum atMinute true with
        | none => none
        | some (min, afterMinute) =>
          if 60 ≤ min then none
          else
            match skipLiteral ':' afterMinute with
            | none => none
            | some atSecond =>
              match getnum atSecond true with
              | none => none
              | some (sec, rest) =>
                if 60 ≤ sec then none
                else if skipFraction rest ≠ [] then none
                else some ⟨0, 1, 1, hour, min, sec⟩

/-! ## The JSON methods of `ReceiptDate` and `ReceiptTime` -/

/-- The method `(r *ReceiptDate) UnmarshalJSON(b)`: `some` is the value of `*r`
after a return of `nil`, `none` is the return of an error. -/
def ReceiptDate.UnmarshalJSON (r : ReceiptDate) (b : GoString) : Option ReceiptDate :=
  let value := stringsTrim b '"'
  if value = [] ∨ value = "null".toList then some r
  else
    match timeParseDateOnly value with
    | none => none
    | some t => some t

/-- The method `(r *ReceiptTime) UnmarshalJSON(b)`: `some` is the value of `*r`
after a return of `nil`, `none` is the return of an error. -/
def ReceiptTime.UnmarshalJSON (r : ReceiptTime) (b : GoString) : Option ReceiptTime :=
  let value := stringsTrim b '"'
  if value = [] ∨ value = "null".toList then some r
  else
    match timeParseTimeOnly (value ++ ":00".toList) with
    | none => none
    | some t => some t

/-! ## `uuid.Parse` -/

/-- The bytes of the UTF-8 encoding of one code point. -/
def utf8Encode (c : Char) : List Nat :=
  if c.toNat < 0x80 then [c.toNat]
  else if c.toNat < 0x800 then [0xC0 + c.toNat / 64, 0x80 + c.toNat % 64]
  else if c.toNat < 0x10000 then
    [0xE0 + c.toNat / 4096, 0x80 + c.toNat / 64 % 64, 0x80 + c.toNat % 64]
  else
    [0xF0 + c.toNat / 262144, 0x80 + c.toNat / 4096 % 64, 0x80 + c.toNat / 64 % 64,
      0x80 + c.toNat % 64]

/-- The bytes of a string. -/
def bytesOf : GoString → List Nat
  | [] => []
  | c :: cs => utf8Encode c ++ bytesOf cs

/-- The table `xvalues` of package uuid: the value of a hexadecimal digit,
`none` (255 in the table) for any other byte. -/
def xvalue (b : Nat) : Option Nat :=
  if 48 ≤ b ∧ b ≤ 57 then some (b - 48)
  else if 97 ≤ b ∧ b ≤ 102 then some (b - 87)
  else if 65 ≤ b ∧ b ≤ 70 then some (b - 55)
  else none

/-- The function `xtob` of package uuid: the byte written by two hexadecimal
digits. -/
def xtob (x1 x2 : Nat) : Option Nat :=
  match xvalue x1, xvalue x2 with
  | some h, some l => some (h * 16 + l)
  | _, _ => none

/-- The byte `s[i]` of a byte string that is long enough. -/
def byteAt (s : List Nat) (i : Nat) : Nat :=
  s.getD i 0

/-- The bytes written by the pairs of hexadecimal digits of `s` that start at
the given positions; `none` when one of them is not a pair of such digits. -/
def hexPairs (s : List Nat) : List Nat → Option (List Nat)
  | [] => some []
  | x :: xs =>
    match xtob (byteAt s x) (byteAt s (x + 1)), hexPairs s xs with
    | some b, some bs => some (b :: bs)
    | _, _ => none

/-- A UUID from its 16 bytes, the first one the most significant. -/
def uuidOfBytes (bs : List Nat) : UUID :=
  ⟨bs.foldl (fun acc b => acc * 256 + b) 0 % 2 ^ 128, Nat.mod_lt _ (Nat.two_pow_pos 128)⟩

/-- The common end of `uuid.Parse` on at least 36 bytes: hyphens at the
positions 8, 13, 18 and 23 and pairs of hexadecimal digits around them. -/
def parseHyphenated (s : List Nat) : Option UUID :=
  if byteAt s 8 ≠ 45 ∨ byteAt s 13 ≠ 45 ∨ byteAt s 18 ≠ 45 ∨ byteAt s 23 ≠ 45 then none
  else
    (hexPairs s [0, 2, 4, 6, 9, 11, 14, 16, 19, 21, 24, 26, 28, 30, 32, 34]).map uuidOfBytes

/-- Lower-casing of the byte of an ASCII capital. -/
def lowerByte (b : Nat) : Nat :=
  if 65 ≤ b ∧ b ≤ 90 then b + 32 else b

/-- The call `uuid.Parse(s)`, by the length of `s`: 36 bytes, the form with
hyphens; 45 bytes, that form after "urn:uuid:" in any case; 38 bytes, that form
between two bytes (meant for braces, which are not checked); 32 bytes, 32
hexadecimal digits; `none` is an error. -/
def uuidParse (s : GoString) : Option UUID :=
  let b := bytesOf s
  if b.length = 36 then parseHyphenated b
  else if b.length = 45 then
    (if (b.take 9).map lowerByte = bytesOf "urn:uuid:".toList then parseHyphenated (b.drop 9)
     else none)
  else if b.length = 38 then parseHyphenated (b.drop 1)
  else if b.length = 32 then
    (hexPairs b [0, 2, 4, 6, 8, 10, 12, 14, 16, 18, 20, 22, 24, 26, 28, 30]).map uuidOfBytes
  else none

/-! ## `json.Unmarshal` into a `Receipt`

The request body is modelled after the JSON scanner: a body is a read error, a
text that is not JSON, or a JSON value. An object is given by the values it has
for the fields of `Receipt` (a key matches a field by its tag, in any case;
other keys are skipped), no field being given twice. -/

/-- A JSON value given for a field. A string carries its text between the
quotes and the string that text denotes; a number, boolean, array or object
carries its text. -/
inductive Value
  | null
  | string (raw value : GoString)
  | other (raw : GoString)
  deriving DecidableEq, Repr

/-- The text of a value in the document, which an `UnmarshalJSON` method
receives. -/
def Value.text : Value → GoString
  | Value.null => "null".toList
  | Value.string raw _ => '"' :: raw ++ ['"']
  | Value.other raw => raw

/-- A JSON string without escapes. -/
def Value.plain (s : GoString) : Value :=
  Value.string s s

/-- Decoding into a field of type `string` that holds `old`: absent and null
leave the field as it is, a string sets it, any other value is an
`UnmarshalTypeError`, here `none`. -/
def decodeString (old : GoString) : Option Value → Option GoString
  | none => some old
  | some Value.null => some old
  | some (Value.string _ value) => some value
  | some (Value.other _) => none

/-- Decoding into the field `ID` of type `uuid.UUID`, which has the method
`UnmarshalText`: a string goes to `uuid.ParseBytes`, which accepts what
`uuid.Parse` accepts. -/
def decodeID (old : UUID) : Option Value → Option UUID
  | none => some old
  | some Value.null => some old
  | some (Value.string _ value) => uuidParse value
  | some (Value.other _) => none

/-- Decoding into the field `PurchaseDate`: whatever value is given, its text
goes to `UnmarshalJSON`. -/
def decodeDate (old : ReceiptDate) : Option Value → Option ReceiptDate
  | none => some old
  | some v => ReceiptDate.UnmarshalJSON old v.text

/-- Decoding into the field `PurchaseTime`: whatever value is given, its text
goes to `UnmarshalJSON`. -/
def decodeTime (old : ReceiptTime) : Option Value → Option ReceiptTime
  | none => some old
  | some v => ReceiptTime.UnmarshalJSON old v.text

/-- An element of the JSON array given for `items`: null, an object by its
values for the two fields of `Item`, or anything else. -/
inductive ItemValue
  | null
  | object (shortDescription price : Option Value)
  | other
  deriving DecidableEq, Repr

/-- Decoding of one element into a new `Item`. -/
def decodeItem : ItemValue → Option Item
  | ItemValue.null => some ⟨[], []⟩
  | ItemValue.object shortDescription price =>
    match decodeString [] shortDescription, decodeString [] price with
    | some d, some p => some ⟨d, p⟩
    | _, _ => none
  | ItemValue.other => none

/-- Decoding of the elements of an array into a slice of `Item`. -/
def decodeItems : List ItemValue → Option (List Item)
  | [] => some []
  | v :: vs =>
    match decodeItem v, decodeItems vs with
    | some it, some its => some (it :: its)
    | _, _ => none

/-- The JSON value given for `items`: null, an array, or anything else. -/
inductive ItemsValue
  | null
  | array (elems : List ItemValue)
  | other
  deriving DecidableEq, Repr

/-- Decoding into the field `Items`. -/
def decodeItemsField (old : List Item) : Option ItemsValue → Option (List Item)
  | none => some old
  | some ItemsValue.null => some []
  | some (ItemsValue.array elems) => decodeItems elems
  | some ItemsValue.other => none

/-- A JSON object, by the values it gives for the fields of `Receipt`. -/
structure Document where
  id : Option Value
  retailer : Option Value
  purchaseDate : Option Value
  purchaseTime : Option Value
  total : Option Value
  items : Option ItemsValue
  deriving DecidableEq, Repr

/-- The text read from the request body, as the JSON scanner sees it: not
JSON, the value null, an object, or any other value. -/
inductive Payload
  | malformed
  | null
  | object (doc : Document)
  | other
  deriving DecidableEq, Repr

/-- The call `json.Unmarshal(body, &p)`: `some` is `p` after a return of `nil`,
`none` is the return of an error. -/
def jsonUnmarshal (body : Payload) (p : Receipt) : Option Receipt :=
  match body with
  | Payload.malformed => none
  | Payload.null => some p
  | Payload.other => none
  | Payload.object doc =>
    match decodeID p.ID doc.id, decodeString p.Retailer doc.retailer,
      decodeDate p.PurchaseDate doc.purchaseDate, decodeTime p.PurchaseTime doc.purchaseTime,
      decodeString p.Total doc.total, decodeItemsField p.Items doc.items with
    | some id, some retailer, some date, some time, some total, some items =>
      some ⟨id, retailer, date, time, total, items⟩
    | _, _, _, _, _, _ => none

/-- The request body: `io.ReadAll` returns an error, or the text read. -/
inductive Body
  | unreadable
  | read (data : Payload)
  deriving DecidableEq, Repr

/-! ## The handlers -/

/-- The struct `ReceiptID`. -/
structure ReceiptID where
  ID : UUID
  deriving DecidableEq, Repr

/-- The struct `ReceiptPoints`. -/
structure ReceiptPoints where
  Points : Int
  deriving DecidableEq, Repr

/-- What a handler writes: a call of `http.Error` with its message and status
code, the status 201 with an encoded `ReceiptID`, or an encoded `ReceiptPoints`
with the status 200 of a first write. -/
inductive Response
  | error (message : String) (code : Nat)
  | created (body : ReceiptID)
  | ok (body : ReceiptPoints)
  deriving DecidableEq, Repr

/-- The HTTP status of a response. -/
def Response.status : Response → Nat
  | Response.error _ code => code
  | Response.created _ => 201
  | Response.ok _ => 200

/-- The variable `receipts`, a map from `uuid.UUID` to `Receipt`. -/
abbrev Registry := UUID → Option Receipt

/-- The map of `make(map[uuid.UUID]Receipt)`. -/
def emptyRegistry : Registry :=
  fun _ => none

/-- The assignment `receipts[id] = p`. -/
def Registry.store (receipts : Registry) (id : UUID) (p : Receipt) : Registry :=
  fun k => if k = id then some p else receipts k

/-- The zero value of `time.Time`: January 1 of the year 1, 00:00:00 UTC. -/
def zeroTime : Time :=
  ⟨1, 1, 1, 0, 0, 0⟩

/-- The value `Receipt{}`. -/
def zeroReceipt : Receipt :=
  ⟨0, [], zeroTime, zeroTime, [], []⟩

/-- The function `handleProcessReceipt`; `newID` is the value that `uuid.New()`
returns. Gives the response and the map after the call. -/
def handleProcessReceipt (receipts : Registry) (newID : UUID) (body : Body) :
    Response × Registry :=
  match body with
  | Body.unreadable => (Response.error "Error reading request body" 500, receipts)
  | Body.read data =>
    match jsonUnmarshal data zeroReceipt with
    | none => (Response.error "Error parsing request body" 400, receipts)
    | some p =>
      (Response.created ⟨newID⟩, receipts.store newID { p with ID := newID })

/-- The function `handleGetPoints`. -/
def handleGetPoints (receipts : Registry) (id : UUID) : Response :=
  match receipts id with
  | none => Response.error "Receipt not found" 404
  | some p =>
    if calcReceiptPoints p = -1 then Response.error "Error calculating receipt points" 500
    else Response.ok ⟨calcReceiptPoints p⟩

/-- The function `receiptsHandler`, for a request with the given method. -/
def receiptsHandler (receipts : Registry) (newID : UUID) (method : GoString) (body : Body) :
    Response × Registry :=
  if method = "POST".toList then handleProcessReceipt receipts newID body
  else (Response.error "Method not allowed" 405, receipts)

/-- The function `pointsHandler`, for a request with the given method and the
path segment that `r.PathValue("id")` returns. -/
def pointsHandler (receipts : Registry) (method : GoString) (idSegment : GoString) : Response :=
  match uuidParse idSegment with
  | none => Response.error "Invalid receipt ID" 400
  | some id =>
    if method = "GET".toList then handleGetPoints receipts id
    else Response.error "Method not allowed" 405

/-! ## Sequences of requests -/

/-- A call of one of the two handlers that touch the map: a submit with the
identifier that `uuid.New()` draws and the body, or a query of the points. -/
inductive Request
  | submit (newID : UUID) (body : Body)
  | points (id : UUID)
  deriving DecidableEq, Repr

/-- The map after one request. -/
def step (receipts : Registry) : Request → Registry
  | Request.submit newID body => (handleProcessReceipt receipts newID body).2
  | Request.points _ => receipts

/-- The map after a sequence of requests. -/
def run (receipts : Registry) : List Request → Registry
  | [] => receipts
  | r :: rs => run (step receipts r) rs

/-- Every submit of the sequence draws an identifier that is not a key of the
map at that moment. -/
def drawsFreshIDs (receipts : Registry) : List Request → Bool
  | [] => true
  | Request.submit newID body :: rs =>
    (receipts newID).isNone && drawsFreshIDs (step receipts (Request.submit newID body)) rs
  | Request.points id :: rs => drawsFreshIDs (step receipts (Request.points id)) rs

/-! ## Documents and requests used as examples -/

/-- The document of scenario C of the spec. -/
def documentC : Document :=
  { id := none
    retailer := some (Value.plain "A1".toList)
    purchaseDate := some (Value.plain "2023-05-01".toList)
    purchaseTime := some (Value.plain "15:30".toList)
    total := some (Value.plain "2.00".toList)
    items := some (ItemsValue.array
      [ItemValue.object (some (Value.plain "abc".toList)) (some (Value.plain "1.00".toList)),
       ItemValue.object (some (Value.plain "def".toList)) (some (Value.plain "1.00".toList))]) }

/-- A request body that holds the given document. -/
def bodyOf (doc : Document) : Body :=
  Body.read (Payload.object doc)

/-- The map after a submit of the given document, drawn the identifier 5, into
the empty map. -/
def afterSubmit (doc : Document) : Registry :=
  (handleProcessReceipt emptyRegistry 5 (bodyOf doc)).2

/-! ## The forms of date and time that the spec names -/

/-- The form YYYY-MM-DD of the spec: four digits, a hyphen, two digits, a
hyphen and two digits. -/
def isDateForm (s : GoString) : Bool :=
  match s with
  | [y1, y2, y3, y4, h1, m1, m2, h2, d1, d2] =>
    isDigit y1 && isDigit y2 && isDigit y3 && isDigit y4 && decide (h1 = '-') &&
      isDigit m1 && isDigit m2 && decide (h2 = '-') && isDigit d1 && isDigit d2
  | _ => false

/-- The form HH:MM of the spec: two digits, a colon and two digits. -/
def isTimeForm (s : GoString) : Bool :=
  match s with
  | [h1, h2, c, m1, m2] =>
    isDigit h1 && isDigit h2 && decide (c = ':') && isDigit m1 && isDigit m2
  | _ => false

/-- The form H:MM, an hour of one digit: a digit, a colon and two digits. -/
def isShortTimeForm (s : GoString) : Bool :=
  match s with
  | [h1, c, m1, m2] => isDigit h1 && decide (c = ':') && isDigit m1 && isDigit m2
  | _ => false

/-- The text of a value with the quotes at its ends cut, as both `UnmarshalJSON`
methods compute it. -/
def trimmedText (v : Value) : GoString :=
  stringsTrim v.text '"'

/-- The document gives for `purchaseDate` a value whose text, the quotes cut,
is not empty, is not null and is not of the form YYYY-MM-DD. -/
def dateOutOfForm (doc : Document) : Bool :=
  match doc.purchaseDate with
  | none => false
  | some v =>
    decide (trimmedText v ≠ []) && decide (trimmedText v ≠ "null".toList) &&
      !isDateForm (trimmedText v)

/-- The document gives for `purchaseTime` a value whose text, the quotes cut,
is not empty, is not null and is neither of the form HH:MM nor H:MM. -/
def timeOutOfForm (doc : Document) : Bool :=
  match doc.purchaseTime with
  | none => false
  | some v =>
    decide (trimmedText v ≠ []) && decide (trimmedText v ≠ "null".toList) &&
      !isTimeForm (trimmedText v) && !isShortTimeForm (trimmedText v)

/-- The document of scenario C with the date written month first. -/
def documentBadDate : Document :=
  { documentC with purchaseDate := some (Value.plain "05/01/2023".toList) }

/-! ## The canonical form of a UUID that the spec names -/

/-- A hexadecimal digit, in either case. -/
def isHexDigit (c : Char) : Bool :=
  isDigit c || isHexLetter c

/-- What the canonical form has at position `i`: a hyphen at the positions 8,
13, 18 and 23, a hexadecimal digit at any other. -/
def canonicalAt (i : Nat) (c : Char) : Bool :=
  if i = 8 ∨ i = 13 ∨ i = 18 ∨ i = 23 then decide (c = '-') else isHexDigit c

/-- The canonical form of the spec: 36 characters, hexadecimal digits in
groups of 8, 4, 4, 4 and 12 with a hyphen between two groups. -/
def isCanonicalForm (s : GoString) : Bool :=
  decide (s.length = 36) && (List.range 36).all (fun i => canonicalAt i (s.getD i ' '))

/-- The identifier that "7fb1377b-b223-49d9-a31a-5a02701dd310" writes. -/
def exampleID : UUID :=
  0x7fb1377bb22349d9a31a5a02701dd310

/-! ## The other forms of a UUID that `uuid.Parse` reads -/

/-- 32 hexadecimal digits without hyphens. -/
def isPlainHexForm (s : GoString) : Bool :=
  decide (s.length = 32) && s.all isHexDigit

/-- The text `s` is `lower`, a text without capitals, in any case of its ASCII
letters. -/
def equalFoldAscii : GoString → GoString → Bool
  | [], [] => true
  | c :: cs, d :: ds => (decide (c = d) || decide (c = d.toUpper)) && equalFoldAscii cs ds
  | _, _ => false

/-- The canonical form after "urn:uuid:", the prefix in any case. -/
def isUrnForm (s : GoString) : Bool :=
  equalFoldAscii (s.take 9) "urn:uuid:".toList && isCanonicalForm (s.drop 9)

/-- The canonical form between two further characters of one byte each, as in
the form with braces. -/
def isWrappedForm (s : GoString) : Bool :=
  match s with
  | [] => false
  | first :: rest =>
    decide (first.toNat < 128) && decide (rest.length = 37) &&
      decide ((rest.getD 36 ' ').toNat < 128) && isCanonicalForm (rest.take 36)

/-! ## Properties -/

set_option maxRecDepth 100000

/-! ### Arithmetic on `int` -/

theorem wrap64_add_left (a b : Int) : wrap64 (wrap64 a + b) = wrap64 (a + b) := by
  unfold wrap64; omega

theorem wrap64_add_right (a b : Int) : wrap64 (a + wrap64 b) = wrap64 (a + b) := by
  unfold wrap64; omega

theorem wrap64_of_range (a : Int) (h1 : -2 ^ 63 ≤ a) (h2 : a < 2 ^ 63) : wrap64 a = a := by
  unfold wrap64; omega

/-! ### The score as a sum of rules -/

theorem itemsLoop_eq (items : List Item) (points : Int) :
    itemsLoop items (wrap64 points) =
      (itemsPoints items).map (fun s => wrap64 (points + s)) := by
  induction items generalizing points with
  | nil => simp [itemsLoop, itemsPoints]
  | cons it rest ih =>
    unfold itemsLoop itemsPoints
    by_cases hq : len (trimSpace it.ShortDescription) % 3 = 0
    · have hq2 : qualifies it.ShortDescription = true := by simp [qualifies, hq]
      simp only [hq, hq2, if_true]
      cases hp : parseFloat it.Price with
      | none => simp
      | some price =>
        simp only [addInt, wrap64_add_left]
        rw [ih]
        cases hr : itemsPoints rest with
        | none => simp
        | some s => simp [pricePoints, add_assoc]
    · have hq2 : qualifies it.ShortDescription = false := by simp [qualifies, hq]
      simp only [hq, hq2, if_false]
      exact ih points

theorem calcReceiptPoints_eq (p : Receipt) :
    calcReceiptPoints p =
      match scoreSum p with
      | none => -1
      | some z => wrap64 z := by
  unfold calcReceiptPoints scoreSum
  simp only [totalFraction]
  cases ht : parseInt (sliceFrom p.Total (stringsIndex p.Total '.' + 1).toNat) 32 with
  | none => simp
  | some td =>
    have key : ∀ (a : Int),
        itemsLoop p.Items (addInt
          (if td.tmod 25 = 0 then addInt (if td = 0 then addInt (addInt 0 a) 50 else addInt 0 a) 25
           else (if td = 0 then addInt (addInt 0 a) 50 else addInt 0 a))
          (mulInt ((p.Items.length / 2 : Nat) : Int) 5)) =
        (itemsPoints p.Items).map (fun s => wrap64 (a + totalPoints td + pairPoints p.Items + s)) := by
      intro a
      have : (addInt
          (if td.tmod 25 = 0 then addInt (if td = 0 then addInt (addInt 0 a) 50 else addInt 0 a) 25
           else (if td = 0 then addInt (addInt 0 a) 50 else addInt 0 a))
          (mulInt ((p.Items.length / 2 : Nat) : Int) 5)) =
          wrap64 (a + totalPoints td + pairPoints p.Items) := by
        unfold totalPoints pairPoints addInt mulInt
        split_ifs <;>
          (simp only [wrap64_add_left, wrap64_add_right, zero_add, add_zero]; try ring_nf)
      rw [this, itemsLoop_eq]
    simp only [key]
    cases hi : itemsPoints p.Items with
    | none => simp
    | some s =>
      simp only [Option.map_some']
      unfold dayPoints timePoints addInt
      split_ifs <;> simp_all [wrap64_add_left, retailerPoints]

/-! ### Characters -/

theorem char_le_iff (a c : Char) : a ≤ c ↔ a.toNat ≤ c.toNat := by
  rw [Char.le_def]; rfl

theorem nonAlphaNumeric_eq (c : Char) : nonAlphaNumeric c = !isAsciiAlnum c := by
  unfold nonAlphaNumeric isAsciiAlnum
  simp only [char_le_iff]
  have h1 : ('a' : Char).toNat = 97 := rfl
  have h2 : ('z' : Char).toNat = 122 := rfl
  have h3 : ('A' : Char).toNat = 65 := rfl
  have h4 : ('Z' : Char).toNat = 90 := rfl
  have h5 : ('0' : Char).toNat = 48 := rfl
  have h6 : ('9' : Char).toNat = 57 := rfl
  rw [h1, h2, h3, h4, h5, h6]
  congr 1
  rw [Bool.or_comm (decide (97 ≤ c.toNat) && decide (c.toNat ≤ 122))]

theorem runeLen_of_isAsciiAlnum {c : Char} (h : isAsciiAlnum c = true) : runeLen c = 1 := by
  unfold isAsciiAlnum at h
  simp only [Bool.or_eq_true, Bool.and_eq_true, decide_eq_true_eq] at h
  unfold runeLen
  have : c.toNat < 128 := by omega
  simp [this]

/-! ### The retailer rule -/

theorem replaceRuns_nil (cls : Char → Bool) (b : Bool) (s : GoString) :
    replaceRuns cls [] b s = s.filter (fun c => !cls c) := by
  induction s generalizing b with
  | nil => simp [replaceRuns]
  | cons c cs ih =>
    unfold replaceRuns
    by_cases h : cls c = true
    · simp [h, ih]
    · simp [h, ih]

theorem len_filter_isAsciiAlnum (s : GoString) :
    len (s.filter isAsciiAlnum) = s.countP isAsciiAlnum := by
  induction s with
  | nil => simp [len]
  | cons c cs ih =>
    by_cases h : isAsciiAlnum c = true
    · simp [List.filter_cons, h, len, ih, runeLen_of_isAsciiAlnum h, Nat.add_comm]
    · simp [List.filter_cons, h, ih]

theorem retailerPoints_eq_count (s : GoString) : retailerPoints s = asciiAlnumCount s := by
  unfold retailerPoints replaceAllString asciiAlnumCount
  rw [replaceRuns_nil]
  have : (fun c => !nonAlphaNumeric c) = isAsciiAlnum := by
    funext c; simp [nonAlphaNumeric_eq]
  rw [this, len_filter_isAsciiAlnum]

theorem asciiAlnumCount_padded (w : List (GoString × Char)) (tail : GoString)
    (hw : ∀ x ∈ w, (∀ c ∈ x.1, isAsciiAlnum c = false) ∧ isAsciiAlnum x.2 = true)
    (ht : ∀ c ∈ tail, isAsciiAlnum c = false) :
    asciiAlnumCount (padded w tail) = w.length := by
  unfold asciiAlnumCount
  induction w with
  | nil =>
    simp only [padded, List.length_nil, List.countP_eq_zero]
    intro c hc; simp [ht c hc]
  | cons x rest ih =>
    obtain ⟨pad, c⟩ := x
    have hx := hw (pad, c) (List.mem_cons_self _ _)
    have hrest := ih (fun y hy => hw y (List.mem_cons_of_mem _ hy))
    have hpad : List.countP isAsciiAlnum pad = 0 := by
      rw [List.countP_eq_zero]; intro a ha; simp [hx.1 a ha]
    simp only [padded, List.countP_append, List.countP_cons, hpad, hrest, hx.2, if_true,
      List.length_cons, zero_add]

/-- C5: the retailer contribution computed by calcReceiptPoints (the byte length
of the retailer after every run matching the class of non-alphanumeric
characters is deleted) equals the number of characters of the retailer in the
ASCII ranges A-Z, a-z, 0-9; in particular a word of N such characters, with
padding made of other characters inserted before, between and after its
letters, contributes exactly N. -/
theorem retailer_contribution_counts_ascii_alnum :
    (∀ s : GoString, retailerPoints s = asciiAlnumCount s) ∧
    (∀ (w : List (GoString × Char)) (tail : GoString),
      (∀ x ∈ w, (∀ c ∈ x.1, isAsciiAlnum c = false) ∧ isAsciiAlnum x.2 = true) →
      (∀ c ∈ tail, isAsciiAlnum c = false) →
      retailerPoints (padded w tail) = w.length) := by
  refine ⟨retailerPoints_eq_count, ?_⟩
  intro w tail hw ht
  rw [retailerPoints_eq_count, asciiAlnumCount_padded w tail hw ht]

/-- The padded retailer "M&M Corner Market" (14 letters) contributes 14. -/
theorem retailer_contribution_counts_ascii_alnum_witness :
    retailerPoints "M&M Corner Market".toList = asciiAlnumCount "M&M Corner Market".toList ∧
    retailerPoints (padded [([], 'M'), (['&'], 'M'), ([' '], 'C'), (['é', '-'], 'o')] ['!']) = 4 :=
  ⟨retailer_contribution_counts_ascii_alnum.1 _,
   retailer_contribution_counts_ascii_alnum.2 [([], 'M'), (['&'], 'M'), ([' '], 'C'), (['é', '-'], 'o')]
     ['!'] (by decide) (by decide)⟩

/-! ### The total rules -/

theorem runeLen_pos (c : Char) : 0 < runeLen c := by
  unfold runeLen; split_ifs <;> omega

theorem isDigit_iff (c : Char) : isDigit c = true ↔ 48 ≤ c.toNat ∧ c.toNat ≤ 57 := by
  unfold isDigit
  simp only [Bool.and_eq_true, decide_eq_true_eq, char_le_iff]
  exact Iff.rfl

theorem ne_of_isDigit {c d : Char} (h : isDigit c = true) (hd : d.toNat < 48 ∨ 57 < d.toNat) :
    c ≠ d := by
  rw [isDigit_iff] at h
  intro hcd; subst hcd; omega

theorem indexFrom_append (sep : Char) (pre rest : GoString) (off : Nat)
    (h : ∀ c ∈ pre, c ≠ sep) :
    indexFrom sep (pre ++ sep :: rest) off = ((off + len pre : Nat) : Int) := by
  induction pre generalizing off with
  | nil => simp [indexFrom, len]
  | cons c cs ih =>
    have hc : c ≠ sep := h c (List.mem_cons_self _ _)
    have ih2 := ih (off + runeLen c) (fun x hx => h x (List.mem_cons_of_mem _ hx))
    show indexFrom sep (c :: (cs ++ sep :: rest)) off = _
    simp only [indexFrom, hc, if_false]
    rw [ih2]
    simp only [len]; congr 1; omega

theorem sliceFrom_append (pre rest : GoString) (k : Nat) :
    sliceFrom (pre ++ rest) (len pre + k) = sliceFrom rest k := by
  induction pre with
  | nil => simp [len]
  | cons c cs ih =>
    have hpos := runeLen_pos c
    obtain ⟨j, hj⟩ : ∃ j, len (c :: cs) + k = j + 1 := ⟨runeLen c + len cs + k - 1, by
      simp only [len]; omega⟩
    rw [hj, List.cons_append, sliceFrom]
    have : j + 1 - runeLen c = len cs + k := by simp only [len] at hj; omega
    rw [this, ih]

theorem sliceFrom_zero (s : GoString) : sliceFrom s 0 = s := by
  cases s <;> rfl

theorem totalFraction_of_point (pre rest : GoString) (h : ∀ c ∈ pre, c ≠ '.') :
    totalFraction (pre ++ '.' :: rest) = rest := by
  unfold totalFraction stringsIndex
  rw [indexFrom_append _ _ _ _ h]
  have h1 : ((((0 + len pre : Nat) : Int) + 1).toNat) = len pre + 1 := by omega
  rw [h1]
  have h2 := sliceFrom_append pre ('.' :: rest) 1
  rw [h2]
  show sliceFrom rest (0 + 1 - runeLen '.') = rest
  exact sliceFrom_zero rest

theorem parseInt_two_digits (a b : Nat) (ha : a < 10) (hb : b < 10) :
    parseInt [digitChar a, digitChar b] 32 = some ((10 * a + b : Nat) : Int) := by
  interval_cases a <;> interval_cases b <;> rfl

theorem totalPoints_two_digits (a b : Nat) (ha : a < 10) (hb : b < 10) :
    totalPoints ((10 * a + b : Nat) : Int) = roundDollarPoints a b + quarterPoints a b := by
  interval_cases a <;> interval_cases b <;> rfl

/-- C4: for a total made of digits, a point and the two decimal digits a and b,
calcReceiptPoints awards the 50 points of R2 exactly when ab is 00 and the 25
points of R3 exactly when ab is 00, 25, 50 or 75 (every other part of the sum
being what the other rules give); so what the total contributes is 0, 25 or 75
and never exactly 50. -/
theorem total_rules_on_two_decimals (p : Receipt) (ds : GoString) (a b : Nat)
    (hds : ∀ c ∈ ds, isDigit c = true) (ha : a < 10) (hb : b < 10)
    (hT : p.Total = ds ++ ['.', digitChar a, digitChar b]) :
    calcReceiptPoints p =
      (match itemsPoints p.Items with
        | none => -1
        | some s =>
          wrap64 ((retailerPoints p.Retailer : Int) +
            (roundDollarPoints a b + quarterPoints a b) + pairPoints p.Items + s
            + dayPoints p.PurchaseDate + timePoints p.PurchaseTime)) ∧
    (roundDollarPoints a b = 50 ↔ (a = 0 ∧ b = 0)) ∧
    (quarterPoints a b = 25 ↔ ((a = 0 ∧ b = 0) ∨ (a = 2 ∧ b = 5) ∨ (a = 5 ∧ b = 0) ∨ (a = 7 ∧ b = 5))) ∧
    (roundDollarPoints a b = 50 → quarterPoints a b = 25) ∧
    (roundDollarPoints a b + quarterPoints a b = 0 ∨ roundDollarPoints a b + quarterPoints a b = 25 ∨
      roundDollarPoints a b + quarterPoints a b = 75) ∧
    roundDollarPoints a b + quarterPoints a b ≠ 50 := by
  have hfrac : totalFraction p.Total = [digitChar a, digitChar b] := by
    rw [hT]
    exact totalFraction_of_point ds _ (fun c hc => ne_of_isDigit (hds c hc) (Or.inl (by decide)))
  refine ⟨?_, ?_, ?_, ?_, ?_, ?_⟩
  · rw [calcReceiptPoints_eq]
    unfold scoreSum
    rw [hfrac, parseInt_two_digits a b ha hb]
    cases itemsPoints p.Items with
    | none => rfl
    | some s => simp only [totalPoints_two_digits a b ha hb]
  · unfold roundDollarPoints; split_ifs with h <;> simp [h]
  · unfold quarterPoints; split_ifs with h <;> simp [h]
  · unfold roundDollarPoints quarterPoints
    intro h
    split_ifs at h with h1
    · simp [h1]
    · simp at h
  · unfold roundDollarPoints quarterPoints
    split_ifs with h1 h2 h2
    · right; right; rfl
    · exact absurd (Or.inl h1) h2
    · right; left; rfl
    · left; rfl
  · unfold roundDollarPoints quarterPoints
    split_ifs <;> omega

/-- The total "9.00" of scenario B earns the 50 and the 25 points. -/
theorem total_rules_on_two_decimals_witness :
    calcReceiptPoints scenarioB =
      (match itemsPoints scenarioB.Items with
        | none => -1
        | some s =>
          wrap64 ((retailerPoints scenarioB.Retailer : Int) +
            (roundDollarPoints 0 0 + quarterPoints 0 0) + pairPoints scenarioB.Items + s
            + dayPoints scenarioB.PurchaseDate + timePoints scenarioB.PurchaseTime)) :=
  (total_rules_on_two_decimals scenarioB ['9'] 0 0 (by decide) (by decide) (by decide) rfl).1

/-! ### The time rule -/

theorem timePoints_eq_windowPoints (t : ReceiptTime) (hm : t.min < 60) :
    timePoints t = windowPoints t := by
  unfold timePoints windowPoints minuteOfDay Time.Clock
  simp only
  split_ifs with h1 h2 h2
  · rfl
  · exfalso; apply h2; omega
  · exfalso; apply h1
    have : t.hour = 14 ∨ t.hour = 15 := by omega
    refine ⟨this, ?_⟩
    rintro ⟨h14, h0⟩; omega
  · rfl

/-- C6: for a purchase time with hour in 0..23 and minute in 0..59,
calcReceiptPoints adds the 10 points of R7 exactly when the time is strictly
between 14:00 and 16:00 (840 < 60*hour + minute < 960), every other part of the
sum being what the other rules give; so two receipts that differ only in a time
inside and a time outside the window differ by exactly 10 (on the 64-bit int). -/
theorem time_rule_strict_window (p : Receipt)
    (_hh : p.PurchaseTime.hour < 24) (hm : p.PurchaseTime.min < 60) :
    calcReceiptPoints p =
      (match parseInt (totalFraction p.Total) 32, itemsPoints p.Items with
        | some totalDecimal, some s =>
          wrap64 ((retailerPoints p.Retailer : Int) + totalPoints totalDecimal
            + pairPoints p.Items + s + dayPoints p.PurchaseDate
            + (if 14 * 60 < 60 * p.PurchaseTime.hour + p.PurchaseTime.min ∧
                  60 * p.PurchaseTime.hour + p.PurchaseTime.min < 16 * 60 then 10 else 0))
        | _, _ => -1) ∧
    (∀ q : Receipt, q.ID = p.ID → q.Retailer = p.Retailer → q.PurchaseDate = p.PurchaseDate →
      q.Total = p.Total → q.Items = p.Items →
      q.PurchaseTime.hour < 24 → q.PurchaseTime.min < 60 →
      (14 * 60 < minuteOfDay p.PurchaseTime ∧ minuteOfDay p.PurchaseTime < 16 * 60) →
      ¬(14 * 60 < minuteOfDay q.PurchaseTime ∧ minuteOfDay q.PurchaseTime < 16 * 60) →
      scoreSum q ≠ none →
      calcReceiptPoints p = wrap64 (calcReceiptPoints q + 10)) := by
  constructor
  · rw [calcReceiptPoints_eq]
    unfold scoreSum
    rw [timePoints_eq_windowPoints _ hm]
    unfold windowPoints minuteOfDay
    cases parseInt (totalFraction p.Total) 32 <;> cases itemsPoints p.Items <;> rfl
  · intro q _ hR hD hT hI _ hqm hin hout hq
    rw [calcReceiptPoints_eq, calcReceiptPoints_eq]
    unfold scoreSum at hq ⊢
    rw [hR, hD, hT, hI] at *
    rw [timePoints_eq_windowPoints _ hm, timePoints_eq_windowPoints _ hqm]
    unfold windowPoints
    rw [if_pos hin, if_neg hout]
    cases h1 : parseInt (totalFraction p.Total) 32 with
    | none => simp [h1] at hq
    | some td =>
      cases h2 : itemsPoints p.Items with
      | none => simp [h1, h2] at hq
      | some s => simp only [wrap64_add_left, add_zero]

/-- Scenario C at 15:30 scores 10 more than the same receipt at 16:00. -/
theorem time_rule_strict_window_witness :
    calcReceiptPoints scenarioC =
      wrap64 (calcReceiptPoints { scenarioC with PurchaseTime := timeOf 16 0 } + 10) :=
  (time_rule_strict_window scenarioC (by decide) (by decide)).2
    { scenarioC with PurchaseTime := timeOf 16 0 } rfl rfl rfl rfl rfl (by decide) (by decide)
    (by decide) (by decide) (by decide)

/-! ### The scenarios of the spec -/

/-- C7: calcReceiptPoints returns 28 on the "Target" receipt of scenario A and
109 on the "M&M Corner Market" receipt of scenario B. -/
theorem scenario_scores :
    calcReceiptPoints scenarioA = 28 ∧ calcReceiptPoints scenarioB = 109 := by
  decide

/-! ### The qualifying test of the item rule -/

theorem dropWhile_eq_of_agree (P Q : Char → Bool) (s : GoString) (h : ∀ c ∈ s, P c = Q c) :
    s.dropWhile P = s.dropWhile Q := by
  induction s with
  | nil => rfl
  | cons c cs ih =>
    have hc := h c (List.mem_cons_self _ _)
    simp only [List.dropWhile_cons, hc]
    split_ifs
    · exact ih (fun x hx => h x (List.mem_cons_of_mem _ hx))
    · rfl

theorem rdropWhile_eq_of_agree (P Q : Char → Bool) (s : GoString) (h : ∀ c ∈ s, P c = Q c) :
    s.rdropWhile P = s.rdropWhile Q := by
  unfold List.rdropWhile
  rw [dropWhile_eq_of_agree P Q s.reverse (fun c hc => h c (List.mem_reverse.mp hc))]

theorem mem_of_mem_rdropWhile (P : Char → Bool) (s : GoString) {c : Char}
    (h : c ∈ s.rdropWhile P) : c ∈ s := by
  unfold List.rdropWhile at h
  exact List.mem_reverse.mp ((List.dropWhile_sublist P).subset (List.mem_reverse.mp h))

theorem len_eq_length_of_ascii (s : GoString) (h : ∀ c ∈ s, c.toNat < 128) :
    len s = s.length := by
  induction s with
  | nil => rfl
  | cons c cs ih =>
    have hc := h c (List.mem_cons_self _ _)
    simp only [len, List.length_cons, ih (fun x hx => h x (List.mem_cons_of_mem _ hx)), runeLen,
      hc, if_true]
    omega

theorem isSpace_eq_isAsciiSpace (c : Char) (h : c.toNat < 128) (h11 : c.toNat ≠ 11)
    (h12 : c.toNat ≠ 12) : isSpace c = isAsciiSpace c := by
  have key : ∀ n : Nat, n < 128 → n ≠ 11 → n ≠ 12 →
      isSpace (Char.ofNat n) = isAsciiSpace (Char.ofNat n) := by decide
  have := key c.toNat h h11 h12
  rwa [Char.ofNat_toNat] at this

theorem qualifies_eq_specQualifies (d : GoString)
    (h : ∀ c ∈ d, c.toNat < 128 ∧ c.toNat ≠ 11 ∧ c.toNat ≠ 12) :
    qualifies d = specQualifies d := by
  unfold qualifies specQualifies trimSpace
  have h1 : d.dropWhile isSpace = d.dropWhile isAsciiSpace :=
    dropWhile_eq_of_agree _ _ d
      (fun c hc => isSpace_eq_isAsciiSpace c (h c hc).1 (h c hc).2.1 (h c hc).2.2)
  have hsub : ∀ c ∈ d.dropWhile isAsciiSpace, c ∈ d :=
    fun c hc => (List.dropWhile_sublist _).subset hc
  have h2 : (d.dropWhile isAsciiSpace).rdropWhile isSpace =
      (d.dropWhile isAsciiSpace).rdropWhile isAsciiSpace :=
    rdropWhile_eq_of_agree _ _ _ (fun c hc =>
      isSpace_eq_isAsciiSpace c (h c (hsub c hc)).1 (h c (hsub c hc)).2.1 (h c (hsub c hc)).2.2)
  rw [h1, h2, len_eq_length_of_ascii]
  intro c hc
  exact (h c (hsub c (mem_of_mem_rdropWhile _ _ hc))).1

/-- C3, as the claim states it, fails: the description "éa" has two code points
but three bytes, and the description made of a no-break space and "ab" has three
code points under the spec's white space but is trimmed to two bytes; the loop
of calcReceiptPoints counts the first (its price earns points) and skips the
second, the reverse of the spec's test. -/
theorem qualifying_test_not_code_points :
    (specQualifies ['é', 'a'] = false ∧
      itemsLoop [⟨['é', 'a'], "5.00".toList⟩] 0 = some 1) ∧
    (specQualifies [Char.ofNat 0xA0, 'a', 'b'] = true ∧
      itemsLoop [⟨[Char.ofNat 0xA0, 'a', 'b'], "5.00".toList⟩] 0 = some 0) := by
  decide

/-- C3, amended: the loop of calcReceiptPoints treats an item as qualifying
exactly when the UTF-8 byte length of the description, after removal of leading
and trailing Unicode white space, is a multiple of 3; for a description of ASCII
characters other than vertical tab and form feed this is the spec's test, the
number of code points after trimming space, tab, newline and carriage return
being a multiple of 3. -/
theorem qualifying_test_on_ascii (it : Item) (rest : List Item) (points : Int)
    (h : ∀ c ∈ it.ShortDescription, c.toNat < 128 ∧ c.toNat ≠ 11 ∧ c.toNat ≠ 12) :
    itemsLoop (it :: rest) points =
      (if specQualifies it.ShortDescription = true then
        (match parseFloat it.Price with
          | none => none
          | some price => itemsLoop rest (addInt points (pricePoints price)))
       else itemsLoop rest points) ∧
    (∀ (jt : Item), itemsLoop (jt :: rest) points =
      (if len (trimSpace jt.ShortDescription) % 3 = 0 then
        (match parseFloat jt.Price with
          | none => none
          | some price => itemsLoop rest (addInt points (pricePoints price)))
       else itemsLoop rest points)) := by
  constructor
  · rw [← qualifies_eq_specQualifies _ h]
    unfold qualifies
    simp only [itemsLoop, decide_eq_true_eq, pricePoints]
  · intro jt
    simp only [itemsLoop, pricePoints]

/-- The padded description of scenario A qualifies by the spec's test. -/
theorem qualifying_test_on_ascii_witness :
    itemsLoop [⟨"   Klarbrunn 12-PK 12 FL OZ  ".toList, "12.00".toList⟩] 0 =
      (if specQualifies "   Klarbrunn 12-PK 12 FL OZ  ".toList = true then
        (match parseFloat "12.00".toList with
          | none => none
          | some price => itemsLoop [] (addInt 0 (pricePoints price)))
       else itemsLoop [] 0) :=
  (qualifying_test_on_ascii ⟨"   Klarbrunn 12-PK 12 FL OZ  ".toList, "12.00".toList⟩ [] 0
    (by decide)).1

/-! ### Totals without a decimal point, and the error value -/

/-- C9: on a total without a point (here "2", "25" and "0" in the receipt of
scenario C) calcReceiptPoints does not return the error value: it parses the
whole total as the fraction and returns a score. -/
theorem total_without_point_is_scored :
    calcReceiptPoints totalWithoutPoint = 25 ∧
    calcReceiptPoints { scenarioC with Total := "25".toList } = 50 ∧
    calcReceiptPoints { scenarioC with Total := "0".toList } = 100 := by
  decide

/-- C10: calcReceiptPoints returns -1 on a receipt whose numeric fields all
parse: the fraction "01" of the total parses to 1, the price "-10.00" of the
only item parses to a float64, and the rules sum to 1 - 2 = -1. -/
theorem error_value_without_parse_failure :
    calcReceiptPoints negativePrice = -1 ∧
    parseInt (totalFraction negativePrice.Total) 32 = some 1 ∧
    parseFloat "-10.00".toList = some (Float64.finite true 5629499534213120 (-49)) ∧
    scoreSum negativePrice = some (-1) := by
  decide


/-! ### Rounding to float64 -/

theorem bitLenAux_spec (fuel n : Nat) (h : n ≤ fuel) :
    n < 2 ^ bitLenAux fuel n ∧ (n ≠ 0 → 2 ^ bitLenAux fuel n ≤ 2 * n) := by
  induction fuel generalizing n with
  | zero =>
    have : n = 0 := by omega
    subst this; simp [bitLenAux]
  | succ f ih =>
    unfold bitLenAux
    by_cases h0 : n = 0
    · subst h0; simp
    · simp only [h0, if_false]
      have hle : n / 2 ≤ f := by omega
      obtain ⟨h1, h2⟩ := ih (n / 2) hle
      rw [pow_succ]
      constructor
      · omega
      · intro _
        by_cases h3 : n / 2 = 0
        · have hn1 : n = 1 := by omega
          subst hn1
          simp [bitLenAux] at *
          cases f <;> simp [bitLenAux]
        · have := h2 h3
          omega

theorem bitLen_spec (n : Nat) (h : n ≠ 0) : n < 2 ^ bitLen n ∧ 2 ^ bitLen n ≤ 2 * n :=
  ⟨(bitLenAux_spec n n le_rfl).1, (bitLenAux_spec n n le_rfl).2 h⟩

theorem roundHalfEven_spec (n d : Nat) (hd : 0 < d) :
    (2 * n ≤ 2 * roundHalfEven n d * d + d ∧ 2 * roundHalfEven n d * d ≤ 2 * n + d) ∧
    (∀ M : Nat, 2 * n < 2 * M * d + d → 2 * M * d < 2 * n + d → roundHalfEven n d = M) := by
  have hdm := Nat.div_add_mod n d
  have hlt := Nat.mod_lt n hd
  set q := n / d with hq
  set r := n % d with hr
  have hqd : d * q = q * d := Nat.mul_comm _ _
  constructor
  · unfold roundHalfEven
    simp only [← hq, ← hr]
    split_ifs
    · constructor <;> nlinarith
    · constructor <;> nlinarith
    · constructor <;> nlinarith
    · constructor <;> nlinarith
  · intro M h1 h2
    have hM : M = q ∨ M = q + 1 ∨ M < q ∨ q + 1 < M := by omega
    unfold roundHalfEven
    simp only [← hq, ← hr]
    rcases hM with hM | hM | hM | hM
    · subst hM
      have : 2 * r < d := by nlinarith
      simp [this]
    · subst hM
      have h3 : d < 2 * r := by nlinarith
      have h4 : ¬ 2 * r < d := by omega
      simp [h3, h4]
    · exfalso
      have : (M + 1) * d ≤ q * d := Nat.mul_le_mul_right d hM
      nlinarith
    · exfalso
      have : (q + 2) * d ≤ M * d := Nat.mul_le_mul_right d hM
      nlinarith

theorem abs_sub_div_le_half (m n D : Nat) (hD : 0 < D) (h1 : 2 * n ≤ 2 * m * D + D)
    (h2 : 2 * m * D ≤ 2 * n + D) : |(m : ℚ) - (n : ℚ) / D| ≤ 1 / 2 := by
  have hDq : (0 : ℚ) < D := by exact_mod_cast hD
  have h1q : (2 : ℚ) * n ≤ 2 * m * D + D := by exact_mod_cast h1
  have h2q : (2 : ℚ) * m * D ≤ 2 * n + D := by exact_mod_cast h2
  have hx : (n : ℚ) / D * D = n := div_mul_cancel₀ _ (ne_of_gt hDq)
  set x : ℚ := (n : ℚ) / D with hxdef
  rw [abs_le]
  constructor
  · by_contra hcon
    push_neg at hcon
    nlinarith
  · by_contra hcon
    push_neg at hcon
    nlinarith

theorem nat_bounds_of_abs_lt_half (M n D : Nat) (hD : 0 < D)
    (h : |(n : ℚ) / D - (M : ℚ)| < 1 / 2) :
    2 * n < 2 * M * D + D ∧ 2 * M * D < 2 * n + D := by
  have hDq : (0 : ℚ) < D := by exact_mod_cast hD
  have hx : (n : ℚ) / D * D = n := div_mul_cancel₀ _ (ne_of_gt hDq)
  set x : ℚ := (n : ℚ) / D with hxdef
  rw [abs_lt] at h
  constructor
  · have : (2 : ℚ) * n < 2 * M * D + D := by nlinarith
    exact_mod_cast this
  · have : (2 : ℚ) * M * D < 2 * n + D := by nlinarith
    exact_mod_cast this

theorem scaleRound_quot (n d : Nat) (e : Int) :
    ∃ N D : Nat, (0 < d → 0 < D) ∧ scaleRound n d e = roundHalfEven N D ∧
      (n : ℚ) / d / (2 : ℚ) ^ e = (N : ℚ) / D := by
  cases e with
  | ofNat k =>
    refine ⟨n, d * 2 ^ k, fun hd => Nat.mul_pos hd (by positivity), rfl, ?_⟩
    simp only [Int.ofNat_eq_coe, zpow_natCast, Nat.cast_mul, Nat.cast_pow, Nat.cast_ofNat,
      div_div]
  | negSucc k =>
    refine ⟨n * 2 ^ (k + 1), d, fun hd => hd, rfl, ?_⟩
    rw [zpow_negSucc]
    simp only [Nat.cast_mul, Nat.cast_pow, Nat.cast_ofNat, div_inv_eq_mul]
    ring

theorem scaleRound_spec (n d : Nat) (e : Int) (hd : 0 < d) :
    |(scaleRound n d e : ℚ) - (n : ℚ) / d / (2 : ℚ) ^ e| ≤ 1 / 2 ∧
    (∀ M : Nat, |(n : ℚ) / d / (2 : ℚ) ^ e - (M : ℚ)| < 1 / 2 → scaleRound n d e = M) := by
  obtain ⟨N, D, hD, hm, hq⟩ := scaleRound_quot n d e
  have hDpos := hD hd
  obtain ⟨⟨h1, h2⟩, h3⟩ := roundHalfEven_spec N D hDpos
  rw [hm, hq]
  refine ⟨abs_sub_div_le_half _ N D hDpos h1 h2, ?_⟩
  intro M hM
  obtain ⟨h4, h5⟩ := nat_bounds_of_abs_lt_half M N D hDpos hM
  exact h3 M h4 h5

theorem binadeExp_spec (n d : Nat) (hn : 0 < n) (hd : 0 < d) :
    ∃ e0 : Int, binadeExp n d = max e0 (-1074) ∧
      (2 : ℚ) ^ (e0 + 52) ≤ (n : ℚ) / d ∧ (n : ℚ) / d < (2 : ℚ) ^ (e0 + 53) := by
  obtain ⟨ha1, ha2⟩ := bitLen_spec n (by omega)
  obtain ⟨hb1, hb2⟩ := bitLen_spec d (by omega)
  have hdq : (0 : ℚ) < d := by exact_mod_cast hd
  have hpa : (0 : ℚ) < 2 ^ bitLen n := by positivity
  have hpb : (0 : ℚ) < 2 ^ bitLen d := by positivity
  have ha1q : (n : ℚ) < 2 ^ bitLen n := by exact_mod_cast ha1
  have ha2q : (2 : ℚ) ^ bitLen n ≤ 2 * n := by exact_mod_cast ha2
  have hb1q : (d : ℚ) < 2 ^ bitLen d := by exact_mod_cast hb1
  have hb2q : (2 : ℚ) ^ bitLen d ≤ 2 * d := by exact_mod_cast hb2
  have hsub : ∀ j : Int, (2 : ℚ) ^ ((bitLen n : Int) - (bitLen d : Int) + j) =
      2 ^ bitLen n / 2 ^ bitLen d * 2 ^ j := by
    intro j
    rw [zpow_add₀ (two_ne_zero), zpow_sub₀ (two_ne_zero), zpow_natCast, zpow_natCast]
  by_cases hc : d * 2 ^ bitLen n ≤ n * 2 ^ bitLen d
  · have hcq : (d : ℚ) * 2 ^ bitLen n ≤ n * 2 ^ bitLen d := by exact_mod_cast hc
    refine ⟨(bitLen n : Int) - (bitLen d : Int) - 52, ?_, ?_, ?_⟩
    · simp only [binadeExp, hc, if_true]
    · have : (bitLen n : Int) - (bitLen d : Int) - 52 + 52 = (bitLen n : Int) - (bitLen d : Int) + 0 := by
        ring
      rw [this, hsub, zpow_zero, mul_one, div_le_div_iff₀ hpb hdq]
      linarith
    · have : (bitLen n : Int) - (bitLen d : Int) - 52 + 53 = (bitLen n : Int) - (bitLen d : Int) + 1 := by
        ring
      rw [this, hsub, zpow_one, div_mul_eq_mul_div, div_lt_div_iff₀ hdq hpb]
      nlinarith
  · have hcq : (n : ℚ) * 2 ^ bitLen d < d * 2 ^ bitLen n := by
      have := Nat.lt_of_not_le hc
      exact_mod_cast this
    refine ⟨(bitLen n : Int) - (bitLen d : Int) - 52 - 1, ?_, ?_, ?_⟩
    · simp only [binadeExp, hc, if_false]
    · have : (bitLen n : Int) - (bitLen d : Int) - 52 - 1 + 52 =
          (bitLen n : Int) - (bitLen d : Int) + (-1) := by ring
      rw [this, hsub, zpow_neg_one, ← div_eq_mul_inv, div_div, div_le_div_iff₀ (by positivity) hdq]
      nlinarith
    · have : (bitLen n : Int) - (bitLen d : Int) - 52 - 1 + 53 =
          (bitLen n : Int) - (bitLen d : Int) + 0 := by ring
      rw [this, hsub, zpow_zero, mul_one, div_lt_div_iff₀ hdq hpb]
      linarith

theorem roundNE_normal (neg : Bool) (n d : Nat) (hn : 0 < n) (hd : 0 < d)
    (hlo : (2 : ℚ) ^ (-1022 : Int) ≤ (n : ℚ) / d) (hhi : (n : ℚ) / d < (2 : ℚ) ^ (1023 : Int)) :
    ∃ e : Int, roundNE neg n d = Float64.finite neg (scaleRound n d e) e ∧
      (2 : ℚ) ^ (e + 52) ≤ (n : ℚ) / d ∧ (n : ℚ) / d < (2 : ℚ) ^ (e + 53) ∧
      -1074 ≤ e ∧ e ≤ 970 := by
  obtain ⟨e0, he, h1, h2⟩ := binadeExp_spec n d hn hd
  have hlt : (2 : ℚ) ^ (-1022 : Int) < (2 : ℚ) ^ (e0 + 53) := lt_of_le_of_lt hlo h2
  rw [zpow_lt_zpow_iff_right₀ (by norm_num : (1 : ℚ) < 2)] at hlt
  have hlt2 : (2 : ℚ) ^ (e0 + 52) < (2 : ℚ) ^ (1023 : Int) := lt_of_le_of_lt h1 hhi
  rw [zpow_lt_zpow_iff_right₀ (by norm_num : (1 : ℚ) < 2)] at hlt2
  have hmax : binadeExp n d = e0 := by rw [he]; omega
  refine ⟨e0, ?_, h1, h2, by omega, by omega⟩
  unfold roundNE
  have hn0 : n ≠ 0 := by omega
  simp only [hn0, if_false, hmax]
  have hc : ¬(971 < e0 ∨ e0 = 971 ∧ scaleRound n d e0 = 2 ^ 53) := by
    rintro (h | ⟨h, _⟩) <;> omega
  simp only [hc, if_false]

theorem scaled_spec (m : Nat) (e : Int) :
    0 < (scaled 2 m e).2 ∧ ((scaled 2 m e).1 : ℚ) / (scaled 2 m e).2 = (m : ℚ) * (2 : ℚ) ^ e ∧
    (0 < m → 0 < (scaled 2 m e).1) := by
  cases e with
  | ofNat k =>
    refine ⟨by simp [scaled], ?_, fun hm => ?_⟩
    · simp [scaled, zpow_natCast]
    · simp only [scaled]; positivity
  | negSucc k =>
    refine ⟨by simp only [scaled]; positivity, ?_, fun hm => hm⟩
    simp only [scaled, zpow_negSucc, Nat.cast_pow, Nat.cast_ofNat]
    rw [div_eq_mul_inv]

theorem ceil_nat_div (m D : Nat) (hD : 0 < D) :
    ⌈(m : ℚ) / (D : ℚ)⌉ = (((m + D - 1) / D : Nat) : Int) := by
  have hDq : (0 : ℚ) < D := by exact_mod_cast hD
  have hdm := Nat.div_add_mod (m + D - 1) D
  have hlt := Nat.mod_lt (m + D - 1) hD
  set k := (m + D - 1) / D with hk
  set r := (m + D - 1) % D with hr
  rw [Int.ceil_eq_iff]
  have hx : (m : ℚ) / D * D = m := div_mul_cancel₀ _ (ne_of_gt hDq)
  have hm : (m : ℚ) + D = D * k + r + 1 := by
    have : m + D = D * k + r + 1 := by omega
    exact_mod_cast this
  have hrq : (r : ℚ) + 1 ≤ D := by exact_mod_cast hlt
  have hr0 : (0 : ℚ) ≤ r := by positivity
  set x : ℚ := (m : ℚ) / D with hxdef
  have hkq : ((k : Int) : ℚ) = (k : ℚ) := by norm_cast
  rw [hkq]
  constructor
  · by_contra hcon
    push_neg at hcon
    nlinarith
  · by_contra hcon
    push_neg at hcon
    nlinarith

theorem ceil_toInt_spec (m : Nat) (e : Int) (h : ⌈(m : ℚ) * (2 : ℚ) ^ e⌉ < 2 ^ 63) :
    (Float64.finite false m e).ceil.toInt = ⌈(m : ℚ) * (2 : ℚ) ^ e⌉ := by
  cases e with
  | ofNat k =>
    have hv : (m : ℚ) * (2 : ℚ) ^ (Int.ofNat k) = ((m * 2 ^ k : Nat) : ℚ) := by
      simp [zpow_natCast]
    rw [hv, Int.ceil_natCast] at h ⊢
    simp only [Float64.ceil, Float64.toInt]
    have h1 : (-2 ^ 63 : Int) ≤ ((m * 2 ^ k : Nat) : Int) := by
      have : (0 : Int) ≤ ((m * 2 ^ k : Nat) : Int) := Int.ofNat_nonneg _
      omega
    simp only [Bool.false_eq_true, if_false]
    show (if (-2 ^ 63 : Int) ≤ ((m * 2 ^ k : Nat) : Int) ∧ ((m * 2 ^ k : Nat) : Int) < 2 ^ 63
      then _ else _) = _
    rw [if_pos ⟨h1, h⟩]
  | negSucc k =>
    have hv : (m : ℚ) * (2 : ℚ) ^ (Int.negSucc k) = (m : ℚ) / ((2 ^ (k + 1) : Nat) : ℚ) := by
      rw [zpow_negSucc, div_eq_mul_inv]; simp
    rw [hv, ceil_nat_div m (2 ^ (k + 1)) (by positivity)] at h ⊢
    simp only [Float64.ceil, Float64.toInt]
    have h1 : (-2 ^ 63 : Int) ≤ (((m + 2 ^ (k + 1) - 1) / 2 ^ (k + 1) : Nat) : Int) := by
      have : (0 : Int) ≤ (((m + 2 ^ (k + 1) - 1) / 2 ^ (k + 1) : Nat) : Int) := Int.ofNat_nonneg _
      omega
    simp only [Bool.false_eq_true, if_false]
    have h2 : ((((m + 2 ^ (k + 1) - 1) / 2 ^ (k + 1)) * 2 ^ 0 : Nat) : Int) =
        (((m + 2 ^ (k + 1) - 1) / 2 ^ (k + 1) : Nat) : Int) := by simp
    show (if (-2 ^ 63 : Int) ≤ ((((m + 2 ^ (k + 1) - 1) / 2 ^ (k + 1)) * 2 ^ 0 : Nat) : Int) ∧
        ((((m + 2 ^ (k + 1) - 1) / 2 ^ (k + 1)) * 2 ^ 0 : Nat) : Int) < 2 ^ 63 then _ else _) = _
    rw [h2, if_pos ⟨h1, h⟩]

theorem roundNE_rel (neg : Bool) (n d : Nat) (hn : 0 < n) (hd : 0 < d)
    (hlo : (2 : ℚ) ^ (-1022 : Int) ≤ (n : ℚ) / d) (hhi : (n : ℚ) / d < (2 : ℚ) ^ (1023 : Int)) :
    ∃ (m : Nat) (e : Int), roundNE neg n d = Float64.finite neg m e ∧
      |(m : ℚ) * (2 : ℚ) ^ e - (n : ℚ) / d| ≤ (n : ℚ) / d / 2 ^ 53 ∧
      (∀ A : Nat, e ≤ 0 → |(n : ℚ) / d - (A : ℚ)| < (2 : ℚ) ^ e / 2 → (m : ℚ) * (2 : ℚ) ^ e = A) ∧
      (2 : ℚ) ^ (e + 52) ≤ (n : ℚ) / d ∧ (n : ℚ) / d < (2 : ℚ) ^ (e + 53) := by
  obtain ⟨e, hr, h1, h2, _, _⟩ := roundNE_normal neg n d hn hd hlo hhi
  obtain ⟨h3, h4⟩ := scaleRound_spec n d e hd
  have hP : (0 : ℚ) < (2 : ℚ) ^ e := by positivity
  set P : ℚ := (2 : ℚ) ^ e with hPdef
  set x : ℚ := (n : ℚ) / d with hxdef
  set m := scaleRound n d e with hmdef
  have h52 : (2 : ℚ) ^ (e + 52) = P * 2 ^ 52 := by
    rw [zpow_add₀ (two_ne_zero)]; norm_cast
  refine ⟨m, e, hr, ?_, ?_, h1, h2⟩
  · have hq : x / P * P = x := div_mul_cancel₀ _ (ne_of_gt hP)
    have : (m : ℚ) * P - x = ((m : ℚ) - x / P) * P := by rw [sub_mul, hq]
    rw [this, abs_mul, abs_of_pos hP]
    have hb : |(m : ℚ) - x / P| * P ≤ 1 / 2 * P := mul_le_mul_of_nonneg_right h3 (le_of_lt hP)
    have hx52 : P * 2 ^ 52 ≤ x := by rw [← h52]; exact h1
    have : x / 2 ^ 53 = x * (1 / 2 ^ 53) := by ring
    rw [this]
    nlinarith
  · intro A he hA
    obtain ⟨j, hj⟩ : ∃ j : Nat, e = -(j : Int) := ⟨(-e).toNat, by omega⟩
    have hPj : P * 2 ^ j = 1 := by
      rw [hPdef, hj, zpow_neg, zpow_natCast]
      exact inv_mul_cancel₀ (by positivity)
    have hAP : (A : ℚ) / P = ((A * 2 ^ j : Nat) : ℚ) := by
      rw [div_eq_iff (ne_of_gt hP)]
      push_cast
      rw [mul_assoc, mul_comm ((2 : ℚ) ^ j) P, hPj, mul_one]
    have hM := h4 (A * 2 ^ j) (by
      rw [← hAP, ← sub_div, abs_div, abs_of_pos hP, div_lt_iff₀ hP]
      linarith)
    rw [hM, ← hAP, div_mul_cancel₀ _ (ne_of_gt hP)]

theorem pointTwo_eq : pointTwo = Float64.finite false 7205759403792794 (-55) := by
  decide

theorem two_zpow_pos (e : Int) : (0 : ℚ) < (2 : ℚ) ^ e := by positivity

theorem exp_lt_of_bounds {e : Int} {x : ℚ} {t : Int} (h1 : (2 : ℚ) ^ (e + 52) ≤ x)
    (h2 : x < (2 : ℚ) ^ t) : e + 52 < t := by
  have := lt_of_le_of_lt h1 h2
  rwa [zpow_lt_zpow_iff_right₀ (by norm_num : (1 : ℚ) < 2)] at this

theorem pricePoints_of_cents (c : Nat) (hc : c < 2 ^ 51) :
    ∃ (m : Nat) (e : Int), roundNE false c 100 = Float64.finite false m e ∧
      pricePoints (Float64.finite false m e) = (((c + 499) / 500 : Nat) : Int) := by
  by_cases hc0 : c = 0
  · subst hc0
    exact ⟨0, 0, by decide, by decide⟩
  have hcpos : 0 < c := Nat.pos_of_ne_zero hc0
  have hcq1 : (1 : ℚ) ≤ c := by exact_mod_cast hcpos
  have hcq2 : (c : ℚ) < 2 ^ 51 := by exact_mod_cast hc
  have hlo1 : (2 : ℚ) ^ (-1022 : Int) ≤ ((c : Nat) : ℚ) / ((100 : Nat) : ℚ) := by
    have h1 : (2 : ℚ) ^ (-1022 : Int) ≤ (2 : ℚ) ^ (-7 : Int) :=
      zpow_le_zpow_right₀ (by norm_num) (by norm_num)
    have h2 : (2 : ℚ) ^ (-7 : Int) = 1 / 128 := by norm_num [zpow_neg]
    rw [h2] at h1
    have h3 : (1 : ℚ) / 128 ≤ (c : ℚ) / 100 := by
      rw [div_le_div_iff₀ (by norm_num) (by norm_num)]; linarith
    push_cast
    linarith
  have hhi1 : ((c : Nat) : ℚ) / ((100 : Nat) : ℚ) < (2 : ℚ) ^ (51 : Int) := by
    have h2 : (2 : ℚ) ^ (51 : Int) = 2 ^ 51 := by norm_cast
    rw [h2]; push_cast
    rw [div_lt_iff₀ (by norm_num)]; linarith
  have hhi1b : ((c : Nat) : ℚ) / ((100 : Nat) : ℚ) < (2 : ℚ) ^ (1023 : Int) :=
    lt_of_lt_of_le hhi1 (zpow_le_zpow_right₀ (by norm_num) (by norm_num))
  obtain ⟨m1, e1, hr1, hrel1, hex1, hb1, hb1b⟩ :=
    roundNE_rel false c 100 hcpos (by norm_num) hlo1 hhi1b
  have he1 : e1 + 52 < 51 := exp_lt_of_bounds hb1 hhi1
  refine ⟨m1, e1, hr1, ?_⟩
  -- the exact quantities
  have hx : ((c : Nat) : ℚ) / ((100 : Nat) : ℚ) = (c : ℚ) / 100 := by push_cast; rfl
  rw [hx] at hrel1 hex1 hb1 hb1b
  set x : ℚ := (c : ℚ) / 100 with hxdef
  set x1 : ℚ := (m1 : ℚ) * (2 : ℚ) ^ e1 with hx1def
  have hxpos : (1 : ℚ) / 100 ≤ x := by
    rw [hxdef, div_le_div_iff₀ (by norm_num) (by norm_num)]; linarith
  have hxlt : x < 2 ^ 51 / 100 := by
    rw [hxdef, div_lt_div_iff₀ (by norm_num) (by norm_num)]; linarith
  rw [abs_le] at hrel1
  obtain ⟨hrel1a, hrel1b⟩ := hrel1
  have hx1pos : 0 < x1 := by
    have : x / 2 ^ 53 = x * (1 / 2 ^ 53) := by ring
    rw [this] at hrel1a
    linarith
  have hm1pos : 0 < m1 := by
    rcases Nat.eq_zero_or_pos m1 with h0 | h0
    · rw [hx1def, h0] at hx1pos; simp at hx1pos
    · exact h0
  -- the product
  unfold pricePoints
  rw [pointTwo_eq]
  simp only [Float64.mul, Bool.xor_false]
  obtain ⟨hD, hND, hN⟩ := scaled_spec (m1 * 7205759403792794) (e1 + -55)
  have hNpos := hN (Nat.mul_pos hm1pos (by norm_num))
  set N := (scaled 2 (m1 * 7205759403792794) (e1 + -55)).1 with hNdef
  set D := (scaled 2 (m1 * 7205759403792794) (e1 + -55)).2 with hDdef
  have hy : (N : ℚ) / D = x1 * (7205759403792794 / 2 ^ 55) := by
    rw [hND, hx1def, zpow_add₀ (two_ne_zero)]
    have : (2 : ℚ) ^ (-55 : Int) = 1 / 2 ^ 55 := by
      rw [zpow_neg]; norm_cast; simp
    rw [this]; push_cast; ring
  set y : ℚ := (N : ℚ) / D with hydef
  have hx1lo : x * (1 - 1 / 2 ^ 53) ≤ x1 := by linarith
  have hx1hi : x1 ≤ x * (1 + 1 / 2 ^ 53) := by linarith
  have hlo2 : (2 : ℚ) ^ (-1022 : Int) ≤ y := by
    have h1 : (2 : ℚ) ^ (-1022 : Int) ≤ (2 : ℚ) ^ (-10 : Int) :=
      zpow_le_zpow_right₀ (by norm_num) (by norm_num)
    have h2 : (2 : ℚ) ^ (-10 : Int) = 1 / 1024 := by norm_num [zpow_neg]
    rw [h2] at h1
    rw [hy]
    linarith
  have hhi2 : y < (2 : ℚ) ^ (51 : Int) := by
    have h2 : (2 : ℚ) ^ (51 : Int) = 2 ^ 51 := by norm_cast
    rw [h2, hy]
    linarith
  have hhi2b : y < (2 : ℚ) ^ (1023 : Int) :=
    lt_of_lt_of_le hhi2 (zpow_le_zpow_right₀ (by norm_num) (by norm_num))
  obtain ⟨m2, e2, hr2, hrel2, hex2, hb2, hb2b⟩ := roundNE_rel false N D hNpos hD hlo2 hhi2b
  have he2 : e2 + 52 < 51 := exp_lt_of_bounds hb2 hhi2
  rw [hr2]
  set z : ℚ := (m2 : ℚ) * (2 : ℚ) ^ e2 with hzdef
  rw [abs_le] at hrel2
  obtain ⟨hrel2a, hrel2b⟩ := hrel2
  -- the ceiling
  have hdm := Nat.div_add_mod c 500
  have hrlt := Nat.mod_lt c (by norm_num : 0 < 500)
  set k := c / 500 with hkdef
  set r := c % 500 with hrdef
  have hcq : (c : ℚ) = 500 * k + r := by exact_mod_cast hdm.symm
  have hkq : (0 : ℚ) ≤ k := by positivity
  have hceil : ⌈z⌉ = (((c + 499) / 500 : Nat) : Int) := by
    by_cases hr0 : r = 0
    · -- the price is a multiple of 5.00: both roundings are exact
      have hxk : x = ((5 * k : Nat) : ℚ) := by
        rw [hxdef, hcq, hr0]; push_cast; ring
      have hx1k : x1 = ((5 * k : Nat) : ℚ) := by
        apply hex1 (5 * k) (by omega)
        rw [hxk, sub_self, abs_zero]
        exact div_pos (two_zpow_pos e1) (by norm_num)
      have hyk : y = k + k / 2 ^ 54 := by
        rw [hy, hx1k]; push_cast; ring
      have hzk : z = ((k : Nat) : ℚ) := by
        apply hex2 k (by omega)
        have h53 : (2 : ℚ) ^ (e2 + 53) = (2 : ℚ) ^ e2 * 2 ^ 53 := by
          rw [zpow_add₀ (two_ne_zero)]; norm_cast
        rw [h53] at hb2b
        have hkk : y - k = k / 2 ^ 54 := by rw [hyk]; ring
        rw [hkk, abs_of_nonneg (by positivity)]
        have : (k : ℚ) ≤ y := by rw [hyk]; linarith [show (0 : ℚ) ≤ k / 2 ^ 54 by positivity]
        have hP := two_zpow_pos e2
        rw [div_lt_div_iff₀ (by norm_num) (by norm_num)]
        linarith
      rw [hzk, Int.ceil_natCast]
      have : (c + 499) / 500 = k := by omega
      rw [this]
    · -- otherwise the rounding errors are far smaller than the distance to an integer
      have hr1 : (1 : ℚ) ≤ r := by
        have : 1 ≤ r := Nat.one_le_iff_ne_zero.mpr hr0
        exact_mod_cast this
      have hr499 : (r : ℚ) ≤ 499 := by
        have : r ≤ 499 := by omega
        exact_mod_cast this
      have hxk : x = 5 * k + r / 100 := by rw [hxdef, hcq]; ring
      have hk51 : (500 : ℚ) * k < 2 ^ 51 := by linarith
      have : (c + 499) / 500 = k + 1 := by omega
      rw [this, Int.ceil_eq_iff]
      push_cast
      have hylo : x * (1 - 1 / 2 ^ 53) * (7205759403792794 / 2 ^ 55) ≤ y := by
        rw [hy]; exact mul_le_mul_of_nonneg_right hx1lo (by norm_num)
      have hyhi : y ≤ x * (1 + 1 / 2 ^ 53) * (7205759403792794 / 2 ^ 55) := by
        rw [hy]; exact mul_le_mul_of_nonneg_right hx1hi (by norm_num)
      have hy53 : y / 2 ^ 53 = y * (1 / 2 ^ 53) := by ring
      rw [hy53] at hrel2a hrel2b
      constructor
      · rw [hxk] at hylo
        linarith
      · rw [hxk] at hyhi
        linarith
  have hrange : ⌈z⌉ < 2 ^ 63 := by
    rw [hceil]
    have : (c + 499) / 500 < 2 ^ 63 := by omega
    exact_mod_cast this
  rw [ceil_toInt_spec m2 e2 hrange, hceil]


/-! ### Parsing an amount of the data model -/

theorem decimalCents_inv {s : GoString} {c : Nat} (h : decimalCents s = some c) :
    ∃ (ds : GoString) (a b : Char), s = ds ++ ['.', a, b] ∧ ds ≠ [] ∧
      (∀ x ∈ ds, isDigit x = true) ∧ isDigit a = true ∧ isDigit b = true ∧
      c = natOfDigits (ds ++ [a, b]) := by
  unfold decimalCents at h
  split at h
  · rename_i b a p sd hrev
    split_ifs at h with hc
    obtain ⟨hp, hne, hall, ha, hb⟩ := hc
    subst hp
    refine ⟨sd.reverse, a, b, ?_, ?_, ?_, ha, hb, ?_⟩
    · have : s = (b :: a :: '.' :: sd).reverse := by rw [← hrev, List.reverse_reverse]
      rw [this]; simp
    · simpa using hne
    · intro x hx
      rw [List.all_eq_true] at hall
      exact hall x (List.mem_reverse.mp hx)
    · simpa using h.symm
  · simp at h

theorem readMantissa_digits (ds rest : GoString) (n f : Nat) (sd u : Bool)
    (h : ∀ x ∈ ds, isDigit x = true) :
    readMantissa 10 (ds ++ rest) ⟨n, f, false, sd, u⟩ =
      readMantissa 10 rest
        ⟨ds.foldl (fun acc c => acc * 10 + digitVal c) n, f, false, sd || !ds.isEmpty, u⟩ := by
  induction ds generalizing n sd with
  | nil => simp
  | cons c cs ih =>
    have hc := h c (List.mem_cons_self _ _)
    have h1 : c ≠ '_' := ne_of_isDigit hc (Or.inr (by decide))
    have h2 : c ≠ '.' := ne_of_isDigit hc (Or.inl (by decide))
    show readMantissa 10 (c :: (cs ++ rest)) _ = _
    simp only [readMantissa, h1, h2, hc, if_true, if_false, Mantissa.push, Bool.false_eq_true]
    rw [ih _ _ (fun x hx => h x (List.mem_cons_of_mem _ hx))]
    simp

theorem readFloat_decimal (ds : GoString) (a b : Char) (hne : ds ≠ [])
    (hds : ∀ x ∈ ds, isDigit x = true) (ha : isDigit a = true) (hb : isDigit b = true) :
    readFloat (ds ++ ['.', a, b]) = some (false, (natOfDigits (ds ++ [a, b]), 100), []) := by
  obtain ⟨d0, ds1, rfl⟩ := List.exists_cons_of_ne_nil hne
  have hd0 := hds d0 (List.mem_cons_self _ _)
  have h1 : d0 ≠ '-' := ne_of_isDigit hd0 (Or.inl (by decide))
  have h2 : d0 ≠ '+' := ne_of_isDigit hd0 (Or.inl (by decide))
  have hhex : hexPrefix (d0 :: ds1 ++ ['.', a, b]) = false := by
    cases ds1 with
    | nil => simp [hexPrefix]
    | cons d1 ds2 =>
      have hd1 := hds d1 (List.mem_cons_of_mem _ (List.mem_cons_self _ _))
      have h3 : d1 ≠ 'x' := ne_of_isDigit hd1 (Or.inr (by decide))
      have h4 : d1 ≠ 'X' := ne_of_isDigit hd1 (Or.inr (by decide))
      cases ds2 <;> simp [hexPrefix, h3, h4]
  have ha1 : a ≠ '_' := ne_of_isDigit ha (Or.inr (by decide))
  have ha2 : a ≠ '.' := ne_of_isDigit ha (Or.inl (by decide))
  have hb1 : b ≠ '_' := ne_of_isDigit hb (Or.inr (by decide))
  have hb2 : b ≠ '.' := ne_of_isDigit hb (Or.inl (by decide))
  have hm : readMantissa 10 (d0 :: ds1 ++ ['.', a, b]) ⟨0, 0, false, false, false⟩ =
      (⟨natOfDigits (d0 :: ds1 ++ [a, b]), 2, true, true, false⟩, []) := by
    rw [readMantissa_digits _ _ _ _ _ _ hds]
    have hdot : ('.' : Char) ≠ '_' := by decide
    simp only [readMantissa, hdot, ha1, ha2, hb1, hb2, ha, hb, if_true, if_false, Mantissa.push,
      natOfDigits, List.foldl_append, List.foldl_cons, List.foldl_nil]
    simp
  have hhex2 : hexPrefix (d0 :: (ds1 ++ ['.', a, b])) = false := hhex
  have hm2 : readMantissa 10 (d0 :: (ds1 ++ ['.', a, b])) ⟨0, 0, false, false, false⟩ =
      (⟨natOfDigits (d0 :: ds1 ++ [a, b]), 2, true, true, false⟩, []) := hm
  rw [List.cons_append]
  unfold readFloat
  simp only [h1, h2, or_self, if_false, hhex2, Bool.false_eq_true, hm2, readExponent]
  rfl

theorem special_of_digit (d0 : Char) (rest : GoString) (h : isDigit d0 = true) :
    special (d0 :: rest) = none := by
  have h1 : d0 ≠ '-' := ne_of_isDigit h (Or.inl (by decide))
  have h2 : d0 ≠ '+' := ne_of_isDigit h (Or.inl (by decide))
  have h3 : d0 ≠ 'i' := ne_of_isDigit h (Or.inr (by decide))
  have h4 : d0 ≠ 'I' := ne_of_isDigit h (Or.inr (by decide))
  have h5 : d0 ≠ 'n' := ne_of_isDigit h (Or.inr (by decide))
  have h6 : d0 ≠ 'N' := ne_of_isDigit h (Or.inr (by decide))
  simp [special, h1, h2, h3, h4, h5, h6]

theorem parseFloat_decimal (ds : GoString) (a b : Char) (hne : ds ≠ [])
    (hds : ∀ x ∈ ds, isDigit x = true) (ha : isDigit a = true) (hb : isDigit b = true) :
    parseFloat (ds ++ ['.', a, b]) =
      (match roundNE false (natOfDigits (ds ++ [a, b])) 100 with
        | Float64.inf _ => none
        | v => some v) := by
  unfold parseFloat
  rw [readFloat_decimal ds a b hne hds ha hb]
  obtain ⟨d0, ds1, rfl⟩ := List.exists_cons_of_ne_nil hne
  have hs : special (d0 :: ds1 ++ ['.', a, b]) = none :=
    special_of_digit d0 _ (hds d0 (List.mem_cons_self _ _))
  rw [hs]
  simp

theorem parseFloat_of_decimalCents {s : GoString} {c : Nat} (h : decimalCents s = some c)
    (hc : c < 2 ^ 51) :
    ∃ price, parseFloat s = some price ∧ pricePoints price = (ceilFifth c : Int) := by
  obtain ⟨ds, a, b, rfl, hne, hds, ha, hb, rfl⟩ := decimalCents_inv h
  obtain ⟨m, e, hr, hp⟩ := pricePoints_of_cents _ hc
  refine ⟨Float64.finite false m e, ?_, hp⟩
  rw [parseFloat_decimal ds a b hne hds ha hb, hr]

/-! ### The item rule on amounts of the data model -/

theorem ceilFifth_least (c : Nat) :
    c ≤ 500 * ceilFifth c ∧ ∀ n : Nat, c ≤ 500 * n → ceilFifth c ≤ n := by
  unfold ceilFifth
  constructor
  · omega
  · intro n hn; omega

theorem ceilFifth_eq_ceil (c : Nat) : (ceilFifth c : Int) = ⌈(c : ℚ) / 100 * (2 / 10)⌉ := by
  have h : (c : ℚ) / 100 * (2 / 10) = (c : ℚ) / ((500 : Nat) : ℚ) := by push_cast; ring
  rw [h, ceil_nat_div c 500 (by norm_num)]
  rfl

/-- C2, as the claim states it, fails: for the price 175921860444160.01 the
float64 computation int(math.Ceil(price * 0.2)) gives 35184372088832, while the
ceiling of the exact product is 35184372088833 (500 * 35184372088832 is less
than the 17592186044416001 cents of the price). -/
theorem float_product_misses_exact_ceiling :
    decimalCents "175921860444160.01".toList = some 17592186044416001 ∧
    (parseFloat "175921860444160.01".toList).map pricePoints = some 35184372088832 ∧
    itemsLoop [⟨"abc".toList, "175921860444160.01".toList⟩] 0 = some 35184372088832 ∧
    ¬(17592186044416001 ≤ 500 * 35184372088832) ∧
    ceilFifth 17592186044416001 = 35184372088833 := by
  decide

/-- C2, amended: for every item whose trimmed description length is a multiple
of 3 and whose price is an amount of the data model (digits, a point, two
digits) below 2^51 cents, the points calcReceiptPoints adds for that item,
int(math.Ceil(price * 0.2)) in float64, equal the ceiling of the exact product
price × 0.2: for a price of c cents, the least n with 500 * n ≥ c. This
includes the prices that are exact multiples of 5.00. -/
theorem item_points_are_exact_ceiling (it : Item) (rest : List Item) (points : Int) (c : Nat)
    (hq : qualifies it.ShortDescription = true) (hp : decimalCents it.Price = some c)
    (hc : c < 2 ^ 51) :
    itemsLoop (it :: rest) points = itemsLoop rest (addInt points (ceilFifth c : Int)) ∧
    (parseFloat it.Price).map pricePoints = some (ceilFifth c : Int) ∧
    (c ≤ 500 * ceilFifth c ∧ ∀ n : Nat, c ≤ 500 * n → ceilFifth c ≤ n) ∧
    (ceilFifth c : Int) = ⌈(c : ℚ) / 100 * (2 / 10)⌉ := by
  obtain ⟨price, hprice, hpts⟩ := parseFloat_of_decimalCents hp hc
  refine ⟨?_, ?_, ceilFifth_least c, ceilFifth_eq_ceil c⟩
  · have hq2 : len (trimSpace it.ShortDescription) % 3 = 0 := by
      simpa [qualifies] using hq
    simp only [itemsLoop, hq2, if_true, hprice]
    rw [← hpts]; rfl
  · rw [hprice, Option.map_some', hpts]

/-- The item "Emils Cheese Pizza" at 12.25 of scenario A earns 3 points. -/
theorem item_points_are_exact_ceiling_witness :
    itemsLoop [⟨"Emils Cheese Pizza".toList, "12.25".toList⟩] 0 =
      itemsLoop [] (addInt 0 (ceilFifth 1225 : Int)) :=
  (item_points_are_exact_ceiling ⟨"Emils Cheese Pizza".toList, "12.25".toList⟩ [] 0 1225
    (by decide) (by decide) (by decide)).1


/-! ### The score of a receipt of the data model -/

theorem digitChar_digitVal {a : Char} (h : isDigit a = true) :
    digitChar (digitVal a) = a ∧ digitVal a < 10 := by
  rw [isDigit_iff] at h
  unfold digitChar digitVal
  constructor
  · have : 48 + (a.toNat - 48) = a.toNat := by omega
    rw [this, Char.ofNat_toNat]
  · omega

theorem natOfDigits_two (ds : GoString) (a b : Char) :
    natOfDigits (ds ++ [a, b]) = natOfDigits ds * 100 + (10 * digitVal a + digitVal b) := by
  unfold natOfDigits
  rw [List.foldl_append]
  simp only [List.foldl_cons, List.foldl_nil]
  ring

theorem totalPoints_lt_hundred (w : Nat) (h : w < 100) :
    totalPoints ((w : Nat) : Int) =
      (if w = 0 then 50 else 0) +
      (if w = 0 ∨ w = 25 ∨ w = 50 ∨ w = 75 then 25 else 0) := by
  interval_cases w <;> rfl

theorem specItemsPoints_nonneg (items : List Item) (s : Int)
    (h : specItemsPoints items = some s) : 0 ≤ s := by
  induction items generalizing s with
  | nil => simp [specItemsPoints] at h; omega
  | cons it rest ih =>
    unfold specItemsPoints at h
    cases hc : decimalCents it.Price with
    | none => simp [hc] at h
    | some c =>
      cases hr : specItemsPoints rest with
      | none => simp [hc, hr] at h
      | some r =>
        simp only [hc, hr, Option.some.injEq] at h
        have := ih r hr
        split_ifs at h <;> omega

theorem itemsPoints_of_spec (items : List Item) (s : Int)
    (h : specItemsPoints items = some s)
    (hprice : ∀ it ∈ items, qualifies it.ShortDescription = true →
      ∀ c, decimalCents it.Price = some c → c < 2 ^ 51) :
    itemsPoints items = some s := by
  induction items generalizing s with
  | nil => simpa [specItemsPoints, itemsPoints] using h
  | cons it rest ih =>
    unfold specItemsPoints at h
    cases hc : decimalCents it.Price with
    | none => simp [hc] at h
    | some c =>
      cases hr : specItemsPoints rest with
      | none => simp [hc, hr] at h
      | some r =>
        simp only [hc, hr, Option.some.injEq] at h
        have hrest := ih r hr (fun jt hj => hprice jt (List.mem_cons_of_mem _ hj))
        unfold itemsPoints
        by_cases hq : qualifies it.ShortDescription = true
        · obtain ⟨price, hp1, hp2⟩ :=
            parseFloat_of_decimalCents hc (hprice it (List.mem_cons_self _ _) hq c hc)
          simp only [hq, if_true] at h ⊢
          rw [hp1, hrest]
          simp only [hp2, h]
        · simp only [hq, if_false, Bool.false_eq_true] at h ⊢
          rw [hrest, ← h]; simp

/-- C1, as the claim states it, fails: the receipt with retailer "A", an even
day, a time outside the window, total 175921860444160.01 and one item "abc" at
175921860444160.01 conforms to the data model; its rules sum to
1 + 35184372088833, but calcReceiptPoints returns 1 + 35184372088832. -/
theorem score_differs_from_rule_sum :
    specScore hugePrice = some 35184372088834 ∧
    calcReceiptPoints hugePrice = 35184372088833 := by
  decide

/-- C1, amended: for every receipt that conforms to the data model (total and
prices written as digits, a point and two digits, hour below 24, minute below
60) in which the price of every item with a qualifying description is below
2^51 cents and the sum of the rules is below 2^63, calcReceiptPoints returns
exactly R1+R2+R3+R4+R5+R6+R7. -/
theorem score_is_sum_of_rules (p : Receipt) (z : Int) (hs : specScore p = some z)
    (hprice : ∀ it ∈ p.Items, qualifies it.ShortDescription = true →
      ∀ c, decimalCents it.Price = some c → c < 2 ^ 51)
    (_hh : p.PurchaseTime.hour < 24) (hm : p.PurchaseTime.min < 60) (hz : z < 2 ^ 63) :
    calcReceiptPoints p = z := by
  unfold specScore at hs
  cases ht : decimalCents p.Total with
  | none => simp [ht] at hs
  | some t =>
    cases hi : specItemsPoints p.Items with
    | none => simp [ht, hi] at hs
    | some r5 =>
      simp only [ht, hi, Option.some.injEq] at hs
      obtain ⟨ds, a, b, hT, _, hds, ha, hb, htv⟩ := decimalCents_inv ht
      obtain ⟨ha1, ha2⟩ := digitChar_digitVal ha
      obtain ⟨hb1, hb2⟩ := digitChar_digitVal hb
      have hfrac : totalFraction p.Total = [digitChar (digitVal a), digitChar (digitVal b)] := by
        rw [hT, ha1, hb1]
        exact totalFraction_of_point ds _
          (fun c hc => ne_of_isDigit (hds c hc) (Or.inl (by decide)))
      have hmod : t % 100 = 10 * digitVal a + digitVal b := by
        rw [htv, natOfDigits_two]; omega
      have hparse := parseInt_two_digits (digitVal a) (digitVal b) ha2 hb2
      have hitems := itemsPoints_of_spec p.Items r5 hi hprice
      have hr5 := specItemsPoints_nonneg p.Items r5 hi
      have hsum : scoreSum p = some z := by
        unfold scoreSum
        rw [hfrac, hparse, hitems]
        simp only [Option.some.injEq]
        rw [totalPoints_lt_hundred _ (by omega), retailerPoints_eq_count,
          timePoints_eq_windowPoints _ hm, ← hs, hmod]
        unfold pairPoints dayPoints Time.Date
        simp only
        ring
      rw [calcReceiptPoints_eq, hsum]
      apply wrap64_of_range _ _ hz
      rw [← hs]
      have h1 : (0 : Int) ≤ (asciiAlnumCount p.Retailer : Int) := Int.ofNat_nonneg _
      have h2 : (0 : Int) ≤ 5 * ((p.Items.length / 2 : Nat) : Int) := by positivity
      have h3 : (0 : Int) ≤ windowPoints p.PurchaseTime := by
        unfold windowPoints; split_ifs <;> omega
      split_ifs <;> omega

/-- Scenario A conforms to the data model and its rules sum to 28. -/
theorem score_is_sum_of_rules_witness : calcReceiptPoints scenarioA = 28 :=
  score_is_sum_of_rules scenarioA 28 (by decide) (by decide) (by decide) (by decide) (by decide)


/-! ### Non-negative scores -/

theorem roundNE_crude (neg : Bool) (n d : Nat) (hn : 0 < n) (hd : 0 < d)
    (hhi : (n : ℚ) / d < (2 : ℚ) ^ (1023 : Int)) :
    ∃ (m : Nat) (e : Int), roundNE neg n d = Float64.finite neg m e ∧
      (m : ℚ) * (2 : ℚ) ^ e ≤ 2 * ((n : ℚ) / d) := by
  obtain ⟨e0, he, h1, _⟩ := binadeExp_spec n d hn hd
  have he0 : e0 + 52 < 1023 := exp_lt_of_bounds h1 hhi
  have hle : binadeExp n d ≤ 970 := by rw [he]; omega
  set e := binadeExp n d with hedef
  obtain ⟨h3, h4⟩ := scaleRound_spec n d e hd
  refine ⟨scaleRound n d e, e, ?_, ?_⟩
  · unfold roundNE
    have hn0 : n ≠ 0 := by omega
    simp only [hn0, if_false, ← hedef]
    have hc : ¬(971 < e ∨ e = 971 ∧ scaleRound n d e = 2 ^ 53) := by
      rintro (h | ⟨h, _⟩) <;> omega
    simp only [hc, if_false]
  · have hP : (0 : ℚ) < (2 : ℚ) ^ e := two_zpow_pos e
    have hxpos : (0 : ℚ) < (n : ℚ) / d := by positivity
    set P : ℚ := (2 : ℚ) ^ e with hPdef
    set x : ℚ := (n : ℚ) / d with hxdef
    have hq : x / P * P = x := div_mul_cancel₀ _ (ne_of_gt hP)
    have hqpos : 0 < x / P := div_pos hxpos hP
    by_cases hhalf : x / P < 1 / 2
    · have hM := h4 0 (by
        rw [Nat.cast_zero, sub_zero, abs_of_pos hqpos]; exact hhalf)
      rw [hM]; simp only [Nat.cast_zero, zero_mul]; linarith
    · push_neg at hhalf
      rw [abs_le] at h3
      have hm : (scaleRound n d e : ℚ) ≤ 2 * (x / P) := by linarith
      calc (scaleRound n d e : ℚ) * P ≤ 2 * (x / P) * P :=
            mul_le_mul_of_nonneg_right hm (le_of_lt hP)
        _ = 2 * x := by rw [mul_assoc, hq]

theorem pricePoints_zero (e : Int) : pricePoints (Float64.finite false 0 e) = 0 := by
  unfold pricePoints
  rw [pointTwo_eq]
  simp only [Float64.mul, Bool.xor_false]
  have h0 : (scaled 2 (0 * 7205759403792794) (e + -55)).1 = 0 := by
    cases h : e + -55 <;> simp [scaled]
  rw [h0]
  rfl

theorem pricePoints_nonneg_of_round (n d : Nat) (hd : 0 < d)
    (hx : (n : ℚ) / d < 2 ^ 63) :
    ∃ (m : Nat) (e : Int), roundNE false n d = Float64.finite false m e ∧
      0 ≤ pricePoints (Float64.finite false m e) := by
  by_cases hn0 : n = 0
  · subst hn0
    exact ⟨0, 0, by simp [roundNE], by rw [pricePoints_zero]⟩
  have hn : 0 < n := Nat.pos_of_ne_zero hn0
  have h63 : ((2 : ℚ) ^ 63) ≤ (2 : ℚ) ^ (1023 : Int) := by
    have : (2 : ℚ) ^ (63 : Int) = 2 ^ 63 := by norm_cast
    rw [← this]
    exact zpow_le_zpow_right₀ (by norm_num) (by norm_num)
  obtain ⟨m1, e1, hr1, hb1⟩ := roundNE_crude false n d hn hd (lt_of_lt_of_le hx h63)
  refine ⟨m1, e1, hr1, ?_⟩
  by_cases hm0 : m1 = 0
  · subst hm0; rw [pricePoints_zero]
  have hm1 : 0 < m1 := Nat.pos_of_ne_zero hm0
  unfold pricePoints
  rw [pointTwo_eq]
  simp only [Float64.mul, Bool.xor_false]
  obtain ⟨hD, hND, hN⟩ := scaled_spec (m1 * 7205759403792794) (e1 + -55)
  have hNpos := hN (Nat.mul_pos hm1 (by norm_num))
  set N := (scaled 2 (m1 * 7205759403792794) (e1 + -55)).1 with hNdef
  set D := (scaled 2 (m1 * 7205759403792794) (e1 + -55)).2 with hDdef
  set x1 : ℚ := (m1 : ℚ) * (2 : ℚ) ^ e1 with hx1def
  have hy : (N : ℚ) / D = x1 * (7205759403792794 / 2 ^ 55) := by
    rw [hND, hx1def, zpow_add₀ (two_ne_zero)]
    have : (2 : ℚ) ^ (-55 : Int) = 1 / 2 ^ 55 := by
      rw [zpow_neg]; norm_cast; simp
    rw [this]; push_cast; ring
  have hx1pos : 0 < x1 := mul_pos (by exact_mod_cast hm1) (two_zpow_pos e1)
  have hylt : (N : ℚ) / D < (2 : ℚ) ^ (1023 : Int) := by
    rw [hy]
    have : x1 * (7205759403792794 / 2 ^ 55) ≤ x1 := by
      have : (7205759403792794 / 2 ^ 55 : ℚ) ≤ 1 := by norm_num
      nlinarith
    linarith
  obtain ⟨m2, e2, hr2, hb2⟩ := roundNE_crude false N D hNpos hD hylt
  rw [hr2]
  have hzle : (m2 : ℚ) * (2 : ℚ) ^ e2 ≤ ((2 ^ 63 - 1 : Int) : ℚ) := by
    rw [hy] at hb2
    push_cast
    have hk : (7205759403792794 / 2 ^ 55 : ℚ) ≤ 201 / 1000 := by norm_num
    have : x1 * (7205759403792794 / 2 ^ 55) ≤ x1 * (201 / 1000) :=
      mul_le_mul_of_nonneg_left hk (le_of_lt hx1pos)
    linarith
  have hrange : ⌈(m2 : ℚ) * (2 : ℚ) ^ e2⌉ < 2 ^ 63 := by
    have := Int.ceil_le.mpr hzle
    omega
  rw [ceil_toInt_spec m2 e2 hrange]
  exact Int.ceil_nonneg (mul_nonneg (by positivity) (le_of_lt (two_zpow_pos e2)))

theorem decimalValue_inv {s : GoString} {n f : Nat} (h : decimalValue s = some (n, f)) :
    ∃ (ds tail : GoString), s = ds ++ tail ∧ ds ≠ [] ∧ (∀ x ∈ ds, isDigit x = true) ∧
      ((tail = [] ∧ f = 0 ∧ n = natOfDigits ds) ∨
       (∃ fs, tail = '.' :: fs ∧ (∀ x ∈ fs, isDigit x = true) ∧ f = fs.length ∧
          n = natOfDigits (ds ++ fs))) := by
  unfold decimalValue at h
  have hsplit : s = s.takeWhile isDigit ++ s.dropWhile isDigit :=
    (List.takeWhile_append_dropWhile isDigit s).symm
  have hdig : ∀ x ∈ s.takeWhile isDigit, isDigit x = true :=
    fun x hx => List.mem_takeWhile_imp hx
  split_ifs at h with hne
  refine ⟨s.takeWhile isDigit, s.dropWhile isDigit, hsplit, hne, hdig, ?_⟩
  split at h
  · rename_i hd
    simp only [Option.some.injEq, Prod.mk.injEq] at h
    exact Or.inl ⟨hd, h.2.symm, h.1.symm⟩
  · rename_i p fs hd
    split_ifs at h with hc
    obtain ⟨hp, hall⟩ := hc
    simp only [Option.some.injEq, Prod.mk.injEq] at h
    subst hp
    refine Or.inr ⟨fs, hd, ?_, h.2.symm, h.1.symm⟩
    intro x hx
    rw [List.all_eq_true] at hall
    exact hall x hx

theorem readMantissa_frac (fs : GoString) (n f : Nat) (sd u : Bool)
    (h : ∀ x ∈ fs, isDigit x = true) :
    readMantissa 10 fs ⟨n, f, true, sd, u⟩ =
      (⟨fs.foldl (fun acc c => acc * 10 + digitVal c) n, f + fs.length, true,
        sd || !fs.isEmpty, u⟩, []) := by
  induction fs generalizing n f sd with
  | nil => simp [readMantissa]
  | cons c cs ih =>
    have hc := h c (List.mem_cons_self _ _)
    have h1 : c ≠ '_' := ne_of_isDigit hc (Or.inr (by decide))
    have h2 : c ≠ '.' := ne_of_isDigit hc (Or.inl (by decide))
    simp only [readMantissa, h1, h2, hc, if_true, if_false, Mantissa.push]
    rw [ih _ _ _ (fun x hx => h x (List.mem_cons_of_mem _ hx))]
    simp only [List.foldl_cons, List.length_cons, List.isEmpty_cons, Bool.not_false,
      Bool.or_true, Bool.true_or, Prod.mk.injEq, Mantissa.mk.injEq, and_true, true_and]
    omega

theorem hexPrefix_false (s : GoString) (h : ∀ x ∈ s, x ≠ 'x' ∧ x ≠ 'X') :
    hexPrefix s = false := by
  match s with
  | [] => rfl
  | [_] => rfl
  | [_, _] => rfl
  | c :: x :: y :: rest =>
    have hx := h x (List.mem_cons_of_mem _ (List.mem_cons_self _ _))
    simp [hexPrefix, hx.1, hx.2]

theorem readFloat_of_decimalValue {s : GoString} {n f : Nat}
    (h : decimalValue s = some (n, f)) :
    readFloat s = some (false, scaled 10 n (0 - (f : Int)), []) := by
  obtain ⟨ds, tail, rfl, hne, hds, htail⟩ := decimalValue_inv h
  obtain ⟨d0, ds1, rfl⟩ := List.exists_cons_of_ne_nil hne
  have hd0 := hds d0 (List.mem_cons_self _ _)
  have h1 : d0 ≠ '-' := ne_of_isDigit hd0 (Or.inl (by decide))
  have h2 : d0 ≠ '+' := ne_of_isDigit hd0 (Or.inl (by decide))
  have hxX : ∀ x : Char, isDigit x = true ∨ x = '.' → x ≠ 'x' ∧ x ≠ 'X' := by
    intro x hx
    rcases hx with hx | hx
    · exact ⟨ne_of_isDigit hx (Or.inr (by decide)), ne_of_isDigit hx (Or.inr (by decide))⟩
    · subst hx; exact ⟨by decide, by decide⟩
  rcases htail with ⟨rfl, rfl, rfl⟩ | ⟨fs, rfl, hfs, rfl, rfl⟩
  · have hhex : hexPrefix (d0 :: (ds1 ++ [])) = false :=
      hexPrefix_false _ (fun x hx => hxX x (Or.inl (hds x (by simpa using hx))))
    have hm : readMantissa 10 (d0 :: (ds1 ++ [])) ⟨0, 0, false, false, false⟩ =
        (⟨natOfDigits (d0 :: ds1), 0, false, true, false⟩, []) := by
      have := readMantissa_digits (d0 :: ds1) [] 0 0 false false hds
      rw [List.cons_append] at this
      rw [this]
      simp [readMantissa, natOfDigits]
    rw [List.cons_append]
    unfold readFloat
    simp only [h1, h2, or_self, if_false, hhex, Bool.false_eq_true, hm, readExponent]
    rfl
  · have hhex : hexPrefix (d0 :: (ds1 ++ '.' :: fs)) = false := by
      apply hexPrefix_false
      intro x hx
      apply hxX
      have : x ∈ (d0 :: ds1) ++ '.' :: fs := by simpa using hx
      rcases List.mem_append.mp this with h | h
      · exact Or.inl (hds x h)
      · rcases List.mem_cons.mp h with h | h
        · exact Or.inr h
        · exact Or.inl (hfs x h)
    have hm : readMantissa 10 (d0 :: (ds1 ++ '.' :: fs)) ⟨0, 0, false, false, false⟩ =
        (⟨natOfDigits (d0 :: ds1 ++ fs), fs.length, true, true, false⟩, []) := by
      have := readMantissa_digits (d0 :: ds1) ('.' :: fs) 0 0 false false hds
      rw [List.cons_append] at this
      rw [this]
      have hdot : ('.' : Char) ≠ '_' := by decide
      simp only [readMantissa, hdot, if_true, if_false, Bool.false_eq_true]
      rw [readMantissa_frac _ _ _ _ _ hfs]
      simp [natOfDigits, List.foldl_append]
    rw [List.cons_append]
    unfold readFloat
    simp only [h1, h2, or_self, if_false, hhex, Bool.false_eq_true, hm, readExponent]
    rfl

theorem scaled_ten_neg (n f : Nat) :
    0 < (scaled 10 n (0 - (f : Int))).2 ∧
    ((scaled 10 n (0 - (f : Int))).1 : ℚ) / (scaled 10 n (0 - (f : Int))).2 = (n : ℚ) / 10 ^ f := by
  cases f with
  | zero => simp [scaled]
  | succ k =>
    have : (0 : Int) - ((k + 1 : Nat) : Int) = Int.negSucc k := by
      rw [Int.negSucc_eq]; push_cast; ring
    rw [this]
    simp only [scaled]
    refine ⟨by positivity, by push_cast; rfl⟩

theorem parseFloat_of_decimalValue {s : GoString} {n f : Nat}
    (h : decimalValue s = some (n, f)) (hb : n < 2 ^ 63 * 10 ^ f) :
    ∃ price, parseFloat s = some price ∧ 0 ≤ pricePoints price := by
  obtain ⟨hD, hND⟩ := scaled_ten_neg n f
  have hx : ((scaled 10 n (0 - (f : Int))).1 : ℚ) / (scaled 10 n (0 - (f : Int))).2 < 2 ^ 63 := by
    rw [hND, div_lt_iff₀ (by positivity)]
    exact_mod_cast hb
  obtain ⟨m, e, hr, hp⟩ := pricePoints_nonneg_of_round _ _ hD hx
  refine ⟨Float64.finite false m e, ?_, hp⟩
  have hrf := readFloat_of_decimalValue h
  obtain ⟨ds, tail, rfl, hne, hds, _⟩ := decimalValue_inv h
  obtain ⟨d0, ds1, rfl⟩ := List.exists_cons_of_ne_nil hne
  have hs : special (d0 :: ds1 ++ tail) = none :=
    special_of_digit d0 _ (hds d0 (List.mem_cons_self _ _))
  unfold parseFloat
  rw [hs, hrf]
  simp only [if_true, hr]

theorem itemsPoints_nonneg (items : List Item)
    (hP : ∀ it ∈ items, qualifies it.ShortDescription = true →
      ∃ n f, decimalValue it.Price = some (n, f) ∧ n < 2 ^ 63 * 10 ^ f) :
    ∃ s, itemsPoints items = some s ∧ 0 ≤ s := by
  induction items with
  | nil => exact ⟨0, rfl, le_rfl⟩
  | cons it rest ih =>
    obtain ⟨r, hr, hr0⟩ := ih (fun jt hj => hP jt (List.mem_cons_of_mem _ hj))
    unfold itemsPoints
    by_cases hq : qualifies it.ShortDescription = true
    · obtain ⟨n, f, hv, hb⟩ := hP it (List.mem_cons_self _ _) hq
      obtain ⟨price, hp1, hp2⟩ := parseFloat_of_decimalValue hv hb
      refine ⟨pricePoints price + r, ?_, by omega⟩
      simp only [hq, if_true, hp1, hr]
    · refine ⟨r, ?_, hr0⟩
      simp only [hq, if_false, Bool.false_eq_true, hr]

theorem totalPoints_nonneg (td : Int) : 0 ≤ totalPoints td := by
  unfold totalPoints; split_ifs <;> omega

/-- C8, as the claim states it, fails: in the receipt with total "0.01" and two
qualifying items at 23058430092136939520.00 each, the total and both prices
parse and each item earns 2^62 points; the sum 1 + 5 + 2^62 + 2^62 wraps around
on the 64-bit int and calcReceiptPoints returns a negative score. -/
theorem score_negative_by_wrap_around :
    parseInt (totalFraction wrappingPrices.Total) 32 = some 1 ∧
    decimalValue "23058430092136939520.00".toList = some (2305843009213693952000, 2) ∧
    (parseFloat "23058430092136939520.00".toList).map pricePoints = some (2 ^ 62) ∧
    scoreSum wrappingPrices = some (2 ^ 63 + 6) ∧
    calcReceiptPoints wrappingPrices = -9223372036854775802 ∧
    calcReceiptPoints wrappingPrices < 0 := by
  decide

/-- C8, amended: for every receipt whose total has a parsable fractional part,
in which the price of every item with a qualifying description is a
non-negative decimal (digits, optionally a point and further digits) of value
below 2^63, and whose rule contributions sum to less than 2^63,
the score returned by calcReceiptPoints is ≥ 0, and so is not the value -1. -/
theorem score_nonneg_below_wrap_around (p : Receipt) (totalDecimal : Int)
    (hT : parseInt (totalFraction p.Total) 32 = some totalDecimal)
    (hP : ∀ it ∈ p.Items, qualifies it.ShortDescription = true →
      ∃ n f, decimalValue it.Price = some (n, f) ∧ n < 2 ^ 63 * 10 ^ f)
    (hS : ∀ z, scoreSum p = some z → z < 2 ^ 63) :
    0 ≤ calcReceiptPoints p ∧ calcReceiptPoints p ≠ -1 := by
  obtain ⟨s, hs, hs0⟩ := itemsPoints_nonneg p.Items hP
  have hsum : scoreSum p = some ((retailerPoints p.Retailer : Int) + totalPoints totalDecimal
      + pairPoints p.Items + s + dayPoints p.PurchaseDate + timePoints p.PurchaseTime) := by
    unfold scoreSum; rw [hT, hs]
  have hlt := hS _ hsum
  have h1 : (0 : Int) ≤ (retailerPoints p.Retailer : Int) := Int.ofNat_nonneg _
  have h2 := totalPoints_nonneg totalDecimal
  have h3 : (0 : Int) ≤ pairPoints p.Items := by unfold pairPoints; positivity
  have h4 : (0 : Int) ≤ dayPoints p.PurchaseDate := by unfold dayPoints; split_ifs <;> omega
  have h5 : (0 : Int) ≤ timePoints p.PurchaseTime := by unfold timePoints; split_ifs <;> omega
  rw [calcReceiptPoints_eq, hsum]
  simp only
  rw [wrap64_of_range _ (by omega) hlt]
  constructor <;> omega

/-- Scenario A meets the conditions: its score is not negative. -/
theorem score_nonneg_below_wrap_around_witness :
    0 ≤ calcReceiptPoints scenarioA ∧ calcReceiptPoints scenarioA ≠ -1 :=
  score_nonneg_below_wrap_around scenarioA 35 (by decide)
    (by
      intro it hit hq
      simp only [scenarioA, List.mem_cons, List.mem_singleton, List.not_mem_nil, or_false] at hit
      rcases hit with h | h | h | h | h <;> subst h
      · exact absurd hq (by decide)
      · exact ⟨1225, 2, by decide, by decide⟩
      · exact absurd hq (by decide)
      · exact absurd hq (by decide)
      · exact ⟨1200, 2, by decide, by decide⟩)
    (by
      intro z hz
      have h28 : scoreSum scenarioA = some 28 := by decide
      rw [h28] at hz
      cases hz
      decide)

/-! ### Index safety -/

theorem indexFrom_bounds (sep : Char) (s : GoString) (off : Nat) :
    indexFrom sep s off = -1 ∨
      ((off : Int) ≤ indexFrom sep s off ∧ indexFrom sep s off + 1 ≤ ((off + len s : Nat) : Int)) := by
  induction s generalizing off with
  | nil => left; rfl
  | cons c cs ih =>
    unfold indexFrom
    by_cases h : c = sep
    · right
      have := runeLen_pos c
      simp only [h, if_true, len]
      constructor
      · omega
      · have := runeLen_pos sep; push_cast; omega
    · simp only [h, if_false]
      rcases ih (off + runeLen c) with h1 | ⟨h1, h2⟩
      · left; exact h1
      · right
        simp only [len]
        constructor
        · push_cast at h1; omega
        · push_cast at h2 ⊢; omega

theorem slice_start_in_bounds (s : GoString) :
    0 ≤ stringsIndex s '.' + 1 ∧ stringsIndex s '.' + 1 ≤ (len s : Int) := by
  unfold stringsIndex
  rcases indexFrom_bounds '.' s 0 with h | ⟨h1, h2⟩
  · rw [h]; constructor
    · omega
    · have : (0 : Int) ≤ (len s : Int) := Int.ofNat_nonneg _
      omega
  · constructor
    · push_cast at h1; omega
    · simpa using h2

theorem itemsLoopIndexed_eq (items : List Item) (n i : Nat) (points : Int)
    (hn : items.length - i = n) :
    itemsLoopIndexed items i points = some (itemsLoop (items.drop i) points) := by
  induction n generalizing i points with
  | zero =>
    have hlen : ¬ i < items.length := by omega
    rw [itemsLoopIndexed, if_neg hlen, List.drop_eq_nil_of_le (by omega)]
    rfl
  | succ n ih =>
    have hlt : i < items.length := by omega
    rw [itemsLoopIndexed, if_pos hlt]
    have hget : items[i]? = some items[i] := List.getElem?_eq_getElem hlt
    have hdrop : items.drop i = items[i] :: items.drop (i + 1) := List.drop_eq_getElem_cons hlt
    rw [hget, hdrop]
    simp only [itemsLoop]
    by_cases hq : len (trimSpace items[i].ShortDescription) % 3 = 0
    · simp only [hq, if_true]
      cases hp : parseFloat items[i].Price with
      | none => rfl
      | some price => exact ih (i + 1) _ (by omega)
    · simp only [hq, if_false]
      exact ih (i + 1) _ (by omega)

/-- C18: calcReceiptPoints is total. For every receipt (whatever its total:
empty, without a point, ending in a point; whatever its items: none, one or
many) the start index of the slice of the total lies between 0 and the length
of the total, every access to an item in the loop is in range, and so the
function with its run-time checks never panics: it returns the integer that
calcReceiptPoints gives. -/
theorem calcReceiptPoints_never_panics (p : Receipt) :
    (0 ≤ stringsIndex p.Total '.' + 1 ∧ stringsIndex p.Total '.' + 1 ≤ (len p.Total : Int)) ∧
    (∀ points, itemsLoopIndexed p.Items 0 points ≠ none) ∧
    calcReceiptPointsChecked p = some (calcReceiptPoints p) := by
  have hb := slice_start_in_bounds p.Total
  have hloop : ∀ points, itemsLoopIndexed p.Items 0 points = some (itemsLoop p.Items points) := by
    intro points
    have := itemsLoopIndexed_eq p.Items p.Items.length 0 points (by omega)
    simpa using this
  refine ⟨hb, fun points => by rw [hloop]; simp, ?_⟩
  unfold calcReceiptPointsChecked calcReceiptPoints sliceFromChecked
  simp only [hb, and_self, if_true, hloop]
  cases parseInt (sliceFrom p.Total (stringsIndex p.Total '.' + 1).toNat) 32 with
  | none => rfl
  | some td =>
    simp only
    cases itemsLoop p.Items _ <;> rfl

/-! ### Prices that are not used, and the order of the items -/

theorem itemsPoints_of_sameUsedPrices (xs ys : List Item) (h : sameUsedPrices xs ys) :
    itemsPoints xs = itemsPoints ys := by
  unfold sameUsedPrices at h
  induction h with
  | nil => rfl
  | @cons a b l1 l2 hab _ ih =>
    unfold itemsPoints
    rw [← hab.1]
    by_cases hq : qualifies a.ShortDescription = true
    · simp only [hq, if_true, ← hab.2 hq, ih]
    · simp only [hq, if_false, Bool.false_eq_true, ih]

theorem length_of_sameUsedPrices (xs ys : List Item) (h : sameUsedPrices xs ys) :
    xs.length = ys.length :=
  List.Forall₂.length_eq h

/-- C19: two receipts that are identical except for the price strings of items
whose trimmed description length is not a multiple of 3 get the same result
from calcReceiptPoints; a price that does not parse on such an item is not
detected and does not produce the error value. -/
theorem unused_prices_do_not_interfere (p q : Receipt)
    (hR : p.Retailer = q.Retailer) (hD : p.PurchaseDate = q.PurchaseDate)
    (hT : p.PurchaseTime = q.PurchaseTime) (hTotal : p.Total = q.Total)
    (hItems : sameUsedPrices p.Items q.Items) :
    calcReceiptPoints p = calcReceiptPoints q := by
  rw [calcReceiptPoints_eq, calcReceiptPoints_eq]
  unfold scoreSum pairPoints
  rw [hR, hD, hT, hTotal, itemsPoints_of_sameUsedPrices _ _ hItems,
    length_of_sameUsedPrices _ _ hItems]

theorem itemsPoints_perm (xs ys : List Item) (h : xs.Perm ys) :
    itemsPoints xs = itemsPoints ys := by
  induction h with
  | nil => rfl
  | cons a _ ih =>
    unfold itemsPoints
    rw [ih]
  | swap a b l =>
    simp only [itemsPoints]
    cases qualifies a.ShortDescription <;> cases qualifies b.ShortDescription <;>
      cases parseFloat a.Price <;> cases parseFloat b.Price <;> cases itemsPoints l <;>
      simp [add_left_comm]
  | trans _ _ ih1 ih2 => rw [ih1, ih2]

/-- C20: calcReceiptPoints does not depend on the order of the items. For every
receipt and every permutation of its items list the result is the same, the
ordinary scores and the error value -1 alike. -/
theorem item_order_does_not_matter (r s : Receipt)
    (hR : r.Retailer = s.Retailer) (hD : r.PurchaseDate = s.PurchaseDate)
    (hT : r.PurchaseTime = s.PurchaseTime) (hTotal : r.Total = s.Total)
    (hItems : r.Items.Perm s.Items) :
    calcReceiptPoints r = calcReceiptPoints s := by
  rw [calcReceiptPoints_eq, calcReceiptPoints_eq]
  unfold scoreSum pairPoints
  rw [hR, hD, hT, hTotal, itemsPoints_perm _ _ hItems, hItems.length_eq]

/-- Scenario A keeps its score when the price of "Mountain Dew 12PK", which
does not qualify, is replaced by "free". -/
theorem unused_prices_do_not_interfere_witness :
    calcReceiptPoints scenarioA = calcReceiptPoints scenarioAUnpriced :=
  unused_prices_do_not_interfere scenarioA scenarioAUnpriced rfl rfl rfl rfl
    (by unfold sameUsedPrices; decide)

/-- Scenario A keeps its score when its items are reversed. -/
theorem item_order_does_not_matter_witness :
    calcReceiptPoints scenarioA = calcReceiptPoints scenarioAReversed :=
  item_order_does_not_matter scenarioA scenarioAReversed rfl rfl rfl rfl
    (List.reverse_perm scenarioA.Items).symm

/-! ### Submit and query -/

theorem handleProcessReceipt_cases (receipts : Registry) (newID : UUID) (body : Body) :
    (body = Body.unreadable ∧
      handleProcessReceipt receipts newID body =
        (Response.error "Error reading request body" 500, receipts)) ∨
    (∃ data, body = Body.read data ∧ jsonUnmarshal data zeroReceipt = none ∧
      handleProcessReceipt receipts newID body =
        (Response.error "Error parsing request body" 400, receipts)) ∨
    (∃ data p, body = Body.read data ∧ jsonUnmarshal data zeroReceipt = some p ∧
      handleProcessReceipt receipts newID body =
        (Response.created ⟨newID⟩, receipts.store newID { p with ID := newID })) := by
  cases body with
  | unreadable => left; exact ⟨rfl, rfl⟩
  | read data =>
    right
    cases h : jsonUnmarshal data zeroReceipt with
    | none => left; exact ⟨data, rfl, h, by simp [handleProcessReceipt, h]⟩
    | some p => right; exact ⟨data, p, rfl, h, by simp [handleProcessReceipt, h]⟩

theorem store_same (receipts : Registry) (id : UUID) (p : Receipt) :
    receipts.store id p id = some p := by
  simp [Registry.store]

theorem store_other (receipts : Registry) (id k : UUID) (p : Receipt) (h : k ≠ id) :
    receipts.store id p k = receipts k := by
  simp [Registry.store, h]

/-- C11, as the claim states it, fails: the document of scenario C with the
total "abc" is accepted by handleProcessReceipt, which answers 201 with the id
drawn, and the following handleGetPoints for that id answers 500, not 200:
the score of the stored receipt is -1. -/
theorem round_trip_can_answer_500 :
    (handleProcessReceipt emptyRegistry 5
      (bodyOf { documentC with total := some (Value.plain "abc".toList) })).1 =
        Response.created ⟨5⟩ ∧
    handleGetPoints (afterSubmit { documentC with total := some (Value.plain "abc".toList) }) 5 =
      Response.error "Error calculating receipt points" 500 := by
  decide

/-- C11, amended: if handleProcessReceipt on a body succeeds and returns the id
I, then the body decodes to a receipt p, the id stamped into the stored copy
does not change the score, and a following handleGetPoints for I answers 200
with points equal to calcReceiptPoints p, unless that value is -1, in which
case it answers 500. -/
theorem round_trip (receipts receipts2 : Registry) (newID id : UUID) (body : Body)
    (h : handleProcessReceipt receipts newID body = (Response.created ⟨id⟩, receipts2)) :
    ∃ data p, body = Body.read data ∧ jsonUnmarshal data zeroReceipt = some p ∧
      calcReceiptPoints { p with ID := id } = calcReceiptPoints p ∧
      handleGetPoints receipts2 id =
        (if calcReceiptPoints p = -1 then Response.error "Error calculating receipt points" 500
         else Response.ok ⟨calcReceiptPoints p⟩) := by
  rcases handleProcessReceipt_cases receipts newID body with
    ⟨_, h1⟩ | ⟨data, _, _, h1⟩ | ⟨data, p, hb, hp, h1⟩
  · rw [h1] at h; simp at h
  · rw [h1] at h; simp at h
  · rw [h1] at h
    simp only [Prod.mk.injEq, Response.created.injEq, ReceiptID.mk.injEq] at h
    obtain ⟨hid, hreg⟩ := h
    subst hid
    refine ⟨data, p, hb, hp, rfl, ?_⟩
    rw [← hreg]
    unfold handleGetPoints
    rw [store_same]
    rfl

/-- The document of scenario C, submitted and queried, gives 200 and 100 points. -/
theorem round_trip_witness :
    ∃ data p, bodyOf documentC = Body.read data ∧ jsonUnmarshal data zeroReceipt = some p ∧
      calcReceiptPoints { p with ID := 5 } = calcReceiptPoints p ∧
      handleGetPoints (afterSubmit documentC) 5 =
        (if calcReceiptPoints p = -1 then Response.error "Error calculating receipt points" 500
         else Response.ok ⟨calcReceiptPoints p⟩) :=
  round_trip emptyRegistry (afterSubmit documentC) 5 5 (bodyOf documentC) (by rfl)

/-! ### What a submit validates -/

theorem decodeString_string (old raw value : GoString) :
    decodeString old (some (Value.string raw value)) = some value := rfl

/-- C12, as the claim states it, fails: the document of scenario C with the
total "2", the same document with an empty items array, and the one with no
items at all are each answered 201 with the id drawn, not 400. -/
theorem submit_accepts_any_total_and_items :
    (handleProcessReceipt emptyRegistry 5
      (bodyOf { documentC with total := some (Value.plain "2".toList) })).1 =
        Response.created ⟨5⟩ ∧
    (handleProcessReceipt emptyRegistry 5
      (bodyOf { documentC with items := some (ItemsValue.array []) })).1 =
        Response.created ⟨5⟩ ∧
    (handleProcessReceipt emptyRegistry 5 (bodyOf { documentC with items := none })).1 =
        Response.created ⟨5⟩ := by
  decide

/-- C12, amended: handleProcessReceipt answers 400 exactly when json.Unmarshal
returns an error, and json.Unmarshal looks neither for a decimal point in the
total nor for an item: a document that decodes still decodes when its total is
replaced by any string or its items by the empty array, and it is then answered
201 with the id drawn. -/
theorem submit_rejects_only_decode_errors (receipts : Registry) (newID : UUID) :
    (∀ data, (handleProcessReceipt receipts newID (Body.read data)).1.status = 400 ↔
      jsonUnmarshal data zeroReceipt = none) ∧
    (∀ (doc : Document) (raw total : GoString),
      jsonUnmarshal (Payload.object doc) zeroReceipt ≠ none →
      (handleProcessReceipt receipts newID
        (bodyOf { doc with total := some (Value.string raw total) })).1 = Response.created ⟨newID⟩ ∧
      (handleProcessReceipt receipts newID
        (bodyOf { doc with items := some (ItemsValue.array []) })).1 = Response.created ⟨newID⟩) := by
  constructor
  · intro data
    cases h : jsonUnmarshal data zeroReceipt with
    | none => simp [handleProcessReceipt, h, Response.status]
    | some p => simp [handleProcessReceipt, h, Response.status]
  · intro doc raw total hdoc
    simp only [jsonUnmarshal] at hdoc
    cases h1 : decodeID zeroReceipt.ID doc.id with
    | none => simp [h1] at hdoc
    | some v1 =>
    cases h2 : decodeString zeroReceipt.Retailer doc.retailer with
    | none => simp [h1, h2] at hdoc
    | some v2 =>
    cases h3 : decodeDate zeroReceipt.PurchaseDate doc.purchaseDate with
    | none => simp [h1, h2, h3] at hdoc
    | some v3 =>
    cases h4 : decodeTime zeroReceipt.PurchaseTime doc.purchaseTime with
    | none => simp [h1, h2, h3, h4] at hdoc
    | some v4 =>
    cases h5 : decodeString zeroReceipt.Total doc.total with
    | none => simp [h1, h2, h3, h4, h5] at hdoc
    | some v5 =>
    cases h6 : decodeItemsField zeroReceipt.Items doc.items with
    | none => simp [h1, h2, h3, h4, h5, h6] at hdoc
    | some v6 =>
      constructor
      · simp only [handleProcessReceipt, bodyOf, jsonUnmarshal, h1, h2, h3, h4, h6,
          decodeString_string]
      · simp only [handleProcessReceipt, bodyOf, jsonUnmarshal, h1, h2, h3, h4, h5,
          decodeItemsField, decodeItems]

/-- The document of scenario C decodes, so it is accepted with the total "2"
and with no item. -/
theorem submit_rejects_only_decode_errors_witness :
    (handleProcessReceipt emptyRegistry 5
      (bodyOf { documentC with total := some (Value.string "2".toList "2".toList) })).1 =
        Response.created ⟨5⟩ ∧
    (handleProcessReceipt emptyRegistry 5
      (bodyOf { documentC with items := some (ItemsValue.array []) })).1 = Response.created ⟨5⟩ :=
  (submit_rejects_only_decode_errors emptyRegistry 5).2 documentC "2".toList "2".toList (by decide)

/-! ### Methods -/

/-- C14, as the claim states it, fails: a POST to the points route with the id
segment "not-a-uuid" is answered 400, not 405. -/
theorem malformed_id_precedes_method :
    pointsHandler emptyRegistry "POST".toList "not-a-uuid".toList =
      Response.error "Invalid receipt ID" 400 := by
  decide

/-- C14, amended: for every request to /receipts/process whose method is not
POST, receiptsHandler answers 405 and leaves the map as it is; for every
request to /receipts/(id)/points whose method is not GET, pointsHandler answers
405 when uuid.Parse accepts the id segment and 400 when it does not. -/
theorem method_gating (receipts : Registry) :
    (∀ (newID : UUID) (method : GoString) (body : Body), method ≠ "POST".toList →
      receiptsHandler receipts newID method body =
        (Response.error "Method not allowed" 405, receipts)) ∧
    (∀ (method idSegment : GoString), method ≠ "GET".toList →
      pointsHandler receipts method idSegment =
        (if uuidParse idSegment = none then Response.error "Invalid receipt ID" 400
         else Response.error "Method not allowed" 405)) := by
  constructor
  · intro newID method body h
    rw [receiptsHandler, if_neg h]
  · intro method idSegment h
    unfold pointsHandler
    cases uuidParse idSegment with
    | none => rfl
    | some id =>
      simp only [if_neg h]
      rfl

/-- A PUT to the submit route, and a DELETE to the points route with a
well-formed id, are answered 405. -/
theorem method_gating_witness :
    receiptsHandler emptyRegistry 5 "PUT".toList (bodyOf documentC) =
      (Response.error "Method not allowed" 405, emptyRegistry) ∧
    pointsHandler emptyRegistry "DELETE".toList "7fb1377b-b223-49d9-a31a-5a02701dd310".toList =
      (if uuidParse "7fb1377b-b223-49d9-a31a-5a02701dd310".toList = none
       then Response.error "Invalid receipt ID" 400
       else Response.error "Method not allowed" 405) :=
  ⟨(method_gating emptyRegistry).1 5 "PUT".toList (bodyOf documentC) (by decide),
   (method_gating emptyRegistry).2 "DELETE".toList "7fb1377b-b223-49d9-a31a-5a02701dd310".toList
     (by decide)⟩

/-! ### The map of receipts over a sequence of requests -/

theorem step_keeps (receipts : Registry) (r : Request) (id : UUID) (p : Receipt)
    (hf : drawsFreshIDs receipts [r] = true) (h : receipts id = some p) :
    step receipts r id = some p := by
  cases r with
  | points _ => exact h
  | submit newID body =>
    simp only [drawsFreshIDs, Bool.and_true, Option.isNone_iff_eq_none] at hf
    have hne : id ≠ newID := by
      intro heq; rw [heq, hf] at h; cases h
    show (handleProcessReceipt receipts newID body).2 id = some p
    rcases handleProcessReceipt_cases receipts newID body with
      ⟨_, h1⟩ | ⟨_, _, _, h1⟩ | ⟨_, q, _, _, h1⟩
    · rw [h1]; exact h
    · rw [h1]; exact h
    · rw [h1]; simp only; rw [store_other _ _ _ _ hne]; exact h

theorem run_keeps (receipts : Registry) (reqs : List Request) (id : UUID) (p : Receipt)
    (hf : drawsFreshIDs receipts reqs = true) (h : receipts id = some p) :
    run receipts reqs id = some p := by
  induction reqs generalizing receipts with
  | nil => exact h
  | cons r rs ih =>
    have hr : drawsFreshIDs receipts [r] = true ∧ drawsFreshIDs (step receipts r) rs = true := by
      cases r with
      | points _ => exact ⟨rfl, hf⟩
      | submit newID body =>
        simp only [drawsFreshIDs, Bool.and_eq_true, Bool.and_true] at hf ⊢
        exact hf
    exact ih (step receipts r) hr.2 (step_keeps receipts r id p hr.1 h)

/-- C16: stored receipts are immutable and nothing leaves the state 'stored'.
With the map as explicit state and every submit drawing an id that is not yet a
key, after any sequence of handleProcessReceipt and handleGetPoints calls every
key of the map is still mapped to the same receipt, so handleGetPoints answers
for it as before; one submit leaves the map as it is or adds the one new key,
and a query leaves it as it is. -/
theorem stored_receipts_never_change (receipts : Registry) (reqs : List Request)
    (hf : drawsFreshIDs receipts reqs = true) :
    (∀ id p, receipts id = some p → run receipts reqs id = some p) ∧
    (∀ id, receipts id ≠ none →
      handleGetPoints (run receipts reqs) id = handleGetPoints receipts id) ∧
    (∀ newID body, step receipts (Request.submit newID body) = receipts ∨
      ∃ p, step receipts (Request.submit newID body) = receipts.store newID p) ∧
    (∀ id, step receipts (Request.points id) = receipts) := by
  refine ⟨fun id p h => run_keeps receipts reqs id p hf h, ?_, ?_, fun _ => rfl⟩
  · intro id h
    cases hp : receipts id with
    | none => exact absurd hp h
    | some p =>
      unfold handleGetPoints
      rw [run_keeps receipts reqs id p hf hp, hp]
  · intro newID body
    show (handleProcessReceipt receipts newID body).2 = receipts ∨
      ∃ p, (handleProcessReceipt receipts newID body).2 = receipts.store newID p
    rcases handleProcessReceipt_cases receipts newID body with
      ⟨_, h1⟩ | ⟨_, _, _, h1⟩ | ⟨_, q, _, _, h1⟩
    · left; rw [h1]
    · left; rw [h1]
    · right; exact ⟨_, by rw [h1]⟩

/-- After a submit drawn the id 5, a query, a second submit drawn the id 7 and
another query, the receipt stored under 5 is the one stored first. -/
theorem stored_receipts_never_change_witness :
    run (afterSubmit documentC)
      [Request.points 5, Request.submit 7 (bodyOf documentC), Request.points 5] 5 =
      some { scenarioC with ID := 5 } :=
  (stored_receipts_never_change (afterSubmit documentC)
    [Request.points 5, Request.submit 7 (bodyOf documentC), Request.points 5] (by decide)).1
    5 { scenarioC with ID := 5 } (by decide)

/-! ### Date and time at submit -/

theorem skipLiteral_some {c : Char} {s r : GoString} (h : skipLiteral c s = some r) :
    s = c :: r := by
  cases s with
  | nil => simp [skipLiteral] at h
  | cons x rest =>
    simp only [skipLiteral] at h
    split at h
    · rename_i hx; simp at h; rw [hx, h]
    · simp at h

theorem getnum_fixed_some {s r : GoString} {n : Nat} (h : getnum s true = some (n, r)) :
    ∃ c1 c2, s = c1 :: c2 :: r ∧ isDigit c1 = true ∧ isDigit c2 = true := by
  match s with
  | [] => simp [getnum] at h
  | [c1] => simp [getnum] at h
  | c1 :: c2 :: rest =>
    simp only [getnum] at h
    split at h
    · rename_i h1
      split at h
      · rename_i h2
        simp at h
        exact ⟨c1, c2, by rw [h.2], h1, h2⟩
      · simp at h
    · simp at h

theorem getnum_free_some {s r : GoString} {n : Nat} (h : getnum s false = some (n, r)) :
    (∃ c1 c2, s = c1 :: c2 :: r ∧ isDigit c1 = true ∧ isDigit c2 = true) ∨
    (∃ c1, s = c1 :: r ∧ isDigit c1 = true) := by
  match s with
  | [] => simp [getnum] at h
  | [c1] =>
    simp only [getnum] at h
    split at h
    · rename_i h1
      simp at h
      exact Or.inr ⟨c1, by rw [h.2], h1.1⟩
    · simp at h
  | c1 :: c2 :: rest =>
    simp only [getnum] at h
    split at h
    · rename_i h1
      split at h
      · rename_i h2
        simp at h
        exact Or.inl ⟨c1, c2, by rw [h.2], h1, h2⟩
      · simp at h
        exact Or.inr ⟨c1, by rw [h.2], h1⟩
    · simp at h

theorem isDateForm_of_parse {t : GoString} {x : Time} (h : timeParseDateOnly t = some x) :
    isDateForm t = true := by
  unfold timeParseDateOnly at h
  split at h
  · rename_i y1 y2 y3 y4 afterYear
    split at h
    · rename_i hy
      split at h
      · simp at h
      · rename_i atMonth h1
        split at h
        · simp at h
        · rename_i month afterMonth h2
          split at h
          · simp at h
          · split at h
            · simp at h
            · rename_i atDay h3
              split at h
              · simp at h
              · rename_i day rest h4
                split at h
                · simp at h
                · rename_i hrest
                  have hr : rest = [] := by simpa using hrest
                  obtain ⟨m1, m2, hm, hm1, hm2⟩ := getnum_fixed_some h2
                  obtain ⟨d1, d2, hd, hd1, hd2⟩ := getnum_fixed_some h4
                  rw [skipLiteral_some h1, hm, skipLiteral_some h3, hd, hr]
                  simp [isDateForm, hy.1, hy.2.1, hy.2.2.1, hy.2.2.2, hm1, hm2, hd1, hd2]
    · simp at h
  · simp at h

theorem dropWhile_append_ne_nil (p : Char → Bool) (l r : GoString) (x : Char)
    (hx : p x = false) : (l ++ x :: r).dropWhile p ≠ [] := by
  induction l with
  | nil => simp [List.dropWhile, hx]
  | cons a l ih =>
    simp only [List.cons_append, List.dropWhile]
    cases p a with
    | true => exact ih
    | false => simp

theorem skipFraction_append_ne_nil (l : GoString) :
    skipFraction (l ++ [':', '0', '0']) ≠ [] := by
  match l with
  | [] => decide
  | [c] =>
    simp only [skipFraction, List.cons_append, List.nil_append]
    split
    · rename_i h; exact absurd h.2 (by decide)
    · simp
  | c :: d :: rest =>
    simp only [skipFraction, List.cons_append]
    split
    · exact dropWhile_append_ne_nil isDigit rest ['0', '0'] ':' (by decide)
    · simp
theorem time_suffix {t H rest : GoString} {m1 m2 s1 s2 : Char} (hs2 : isDigit s2 = true)
    (hfrac : skipFraction rest = [])
    (heq : t ++ [':', '0', '0'] = H ++ ':' :: m1 :: m2 :: ':' :: s1 :: s2 :: rest) :
    t = H ++ [':', m1, m2] := by
  have hcolon : s2 ≠ ':' := ne_of_isDigit hs2 (by decide)
  have heq2 : t ++ [':', '0', '0'] = (H ++ [':', m1, m2, ':', s1]) ++ (s2 :: rest) := by
    simpa using heq
  rcases List.append_eq_append_iff.mp heq2 with ⟨a, hP, hu⟩ | ⟨c, _, hu⟩
  · match a, hP, hu with
    | [], _, hu =>
      simp only [List.nil_append, List.cons.injEq] at hu
      exact absurd hu.1.symm hcolon
    | [x], _, hu =>
      simp only [List.cons_append, List.nil_append, List.cons.injEq] at hu
      rw [← hu.2.2] at hfrac
      exact absurd hfrac (by decide)
    | [x, y], hP, hu =>
      simp only [List.cons_append, List.nil_append, List.cons.injEq] at hu
      have hP2 : (H ++ [':', m1, m2]) ++ [':', s1] = t ++ [x, y] := by simpa using hP
      exact ((List.append_inj' hP2 rfl).1).symm
    | x :: y :: z :: w, _, hu =>
      simp at hu
  · match c, hu with
    | [], hu =>
      simp only [List.nil_append, List.cons.injEq] at hu
      exact absurd hu.1 hcolon
    | x :: c2, hu =>
      simp only [List.cons_append, List.cons.injEq] at hu
      rw [hu.2] at hfrac
      exact absurd hfrac (skipFraction_append_ne_nil c2)

theorem isTimeForm_of_parse {t : GoString} {x : Time}
    (h : timeParseTimeOnly (t ++ ":00".toList) = some x) :
    isTimeForm t = true ∨ isShortTimeForm t = true := by
  unfold timeParseTimeOnly at h
  split at h
  · simp at h
  · rename_i hour afterHour h0
    split at h
    · simp at h
    · split at h
      · simp at h
      · rename_i atMinute h1
        split at h
        · simp at h
        · rename_i min afterMinute h2
          split at h
          · simp at h
          · split at h
            · simp at h
            · rename_i atSecond h3
              split at h
              · simp at h
              · rename_i sec rest h4
                split at h
                · simp at h
                · split at h
                  · simp at h
                  · rename_i hfrac
                    have hf : skipFraction rest = [] := by simpa using hfrac
                    obtain ⟨m1, m2, hm, hm1, hm2⟩ := getnum_fixed_some h2
                    obtain ⟨s1, s2, hs, _, hs2⟩ := getnum_fixed_some h4
                    have h1b := skipLiteral_some h1
                    have h3b := skipLiteral_some h3
                    rcases getnum_free_some h0 with ⟨c1, c2, hc, hc1, hc2⟩ | ⟨c1, hc, hc1⟩
                    · left
                      have ht : t = [c1, c2] ++ [':', m1, m2] := by
                        apply time_suffix hs2 hf
                        rw [show t ++ [':', '0', '0'] = t ++ ":00".toList from rfl, hc, h1b, hm,
                          h3b, hs]
                        rfl
                      rw [ht]
                      simp [isTimeForm, hc1, hc2, hm1, hm2]
                    · right
                      have ht : t = [c1] ++ [':', m1, m2] := by
                        apply time_suffix hs2 hf
                        rw [show t ++ [':', '0', '0'] = t ++ ":00".toList from rfl, hc, h1b, hm,
                          h3b, hs]
                        rfl
                      rw [ht]
                      simp [isShortTimeForm, hc1, hm1, hm2]

theorem dateUnmarshalJSON_none (r : ReceiptDate) (b : GoString)
    (h1 : stringsTrim b '"' ≠ []) (h2 : stringsTrim b '"' ≠ "null".toList)
    (h3 : isDateForm (stringsTrim b '"') = false) : ReceiptDate.UnmarshalJSON r b = none := by
  unfold ReceiptDate.UnmarshalJSON
  simp only [h1, h2, or_self, if_false]
  cases h : timeParseDateOnly (stringsTrim b '"') with
  | none => rfl
  | some x => rw [isDateForm_of_parse h] at h3; cases h3

theorem timeUnmarshalJSON_none (r : ReceiptTime) (b : GoString)
    (h1 : stringsTrim b '"' ≠ []) (h2 : stringsTrim b '"' ≠ "null".toList)
    (h3 : isTimeForm (stringsTrim b '"') = false)
    (h4 : isShortTimeForm (stringsTrim b '"') = false) :
    ReceiptTime.UnmarshalJSON r b = none := by
  unfold ReceiptTime.UnmarshalJSON
  simp only [h1, h2, or_self, if_false]
  cases h : timeParseTimeOnly (stringsTrim b '"' ++ ":00".toList) with
  | none => rfl
  | some x =>
    rcases isTimeForm_of_parse h with h5 | h5
    · rw [h5] at h3; cases h3
    · rw [h5] at h4; cases h4

theorem jsonUnmarshal_none_of_date (doc : Document) (p : Receipt)
    (h : decodeDate p.PurchaseDate doc.purchaseDate = none) :
    jsonUnmarshal (Payload.object doc) p = none := by
  unfold jsonUnmarshal
  simp only
  split
  · rename_i h1 h2 h3 h4 h5 h6
    rw [h] at h3; cases h3
  · rfl

theorem jsonUnmarshal_none_of_time (doc : Document) (p : Receipt)
    (h : decodeTime p.PurchaseTime doc.purchaseTime = none) :
    jsonUnmarshal (Payload.object doc) p = none := by
  unfold jsonUnmarshal
  simp only
  split
  · rename_i h1 h2 h3 h4 h5 h6
    rw [h] at h4; cases h4
  · rfl

/-- C13, as the claim states it, fails: the empty string and null are not of
the form YYYY-MM-DD or HH:MM, and "9:30" is not of the form HH:MM, yet both
UnmarshalJSON methods return nil for the empty string and for null and leave
the field as it is, ReceiptTime.UnmarshalJSON accepts "9:30", and
handleProcessReceipt answers 201 for the document of scenario C with such a
purchaseDate or purchaseTime. -/
theorem empty_null_and_short_time_are_accepted :
    (isDateForm "".toList = false ∧ isDateForm "null".toList = false ∧
      isTimeForm "".toList = false ∧ isTimeForm "null".toList = false ∧
      isTimeForm "9:30".toList = false) ∧
    (ReceiptDate.UnmarshalJSON zeroTime (Value.plain "".toList).text = some zeroTime ∧
      ReceiptDate.UnmarshalJSON zeroTime Value.null.text = some zeroTime ∧
      ReceiptTime.UnmarshalJSON zeroTime (Value.plain "".toList).text = some zeroTime ∧
      ReceiptTime.UnmarshalJSON zeroTime Value.null.text = some zeroTime ∧
      ReceiptTime.UnmarshalJSON zeroTime (Value.plain "9:30".toList).text =
        some ⟨0, 1, 1, 9, 30, 0⟩) ∧
    ((handleProcessReceipt emptyRegistry 5
        (bodyOf { documentC with purchaseDate := some (Value.plain "".toList) })).1 =
          Response.created ⟨5⟩ ∧
      (handleProcessReceipt emptyRegistry 5
        (bodyOf { documentC with purchaseDate := some Value.null })).1 = Response.created ⟨5⟩ ∧
      (handleProcessReceipt emptyRegistry 5
        (bodyOf { documentC with purchaseTime := some (Value.plain "".toList) })).1 =
          Response.created ⟨5⟩ ∧
      (handleProcessReceipt emptyRegistry 5
        (bodyOf { documentC with purchaseTime := some Value.null })).1 = Response.created ⟨5⟩ ∧
      (handleProcessReceipt emptyRegistry 5
        (bodyOf { documentC with purchaseTime := some (Value.plain "9:30".toList) })).1 =
          Response.created ⟨5⟩) := by
  decide

/-- C13, amended: for every submitted document that gives for purchaseDate a
value whose text, the quotes at its ends cut, is not empty, is not null and is
not of the form YYYY-MM-DD, or gives for purchaseTime a value whose text, the
quotes cut, is not empty, is not null and is neither of the form HH:MM nor
H:MM, the UnmarshalJSON method of that field returns an error and
handleProcessReceipt answers 400 and leaves the map as it is. For a value
whose text, the quotes cut, is empty or null, both methods return nil and
leave the field as it is. -/
theorem malformed_date_or_time_is_rejected (receipts : Registry) (newID : UUID) (doc : Document)
    (h : dateOutOfForm doc = true ∨ timeOutOfForm doc = true) :
    ((∃ v, doc.purchaseDate = some v ∧ dateOutOfForm doc = true ∧
        ∀ r, ReceiptDate.UnmarshalJSON r v.text = none) ∨
      (∃ v, doc.purchaseTime = some v ∧ timeOutOfForm doc = true ∧
        ∀ r, ReceiptTime.UnmarshalJSON r v.text = none)) ∧
    handleProcessReceipt receipts newID (bodyOf doc) =
      (Response.error "Error parsing request body" 400, receipts) ∧
    (∀ (v : Value) (r : Time), trimmedText v = [] ∨ trimmedText v = "null".toList →
      ReceiptDate.UnmarshalJSON r v.text = some r ∧
      ReceiptTime.UnmarshalJSON r v.text = some r) := by
  have hdate : dateOutOfForm doc = true →
      ∃ v, doc.purchaseDate = some v ∧ ∀ r, ReceiptDate.UnmarshalJSON r v.text = none := by
    intro hd
    unfold dateOutOfForm at hd
    cases hv : doc.purchaseDate with
    | none => rw [hv] at hd; simp at hd
    | some v =>
      rw [hv] at hd
      simp only [Bool.and_eq_true, decide_eq_true_eq, Bool.not_eq_true'] at hd
      exact ⟨v, rfl, fun r => dateUnmarshalJSON_none r v.text hd.1.1 hd.1.2 hd.2⟩
  have htime : timeOutOfForm doc = true →
      ∃ v, doc.purchaseTime = some v ∧ ∀ r, ReceiptTime.UnmarshalJSON r v.text = none := by
    intro hd
    unfold timeOutOfForm at hd
    cases hv : doc.purchaseTime with
    | none => rw [hv] at hd; simp at hd
    | some v =>
      rw [hv] at hd
      simp only [Bool.and_eq_true, decide_eq_true_eq, Bool.not_eq_true'] at hd
      exact ⟨v, rfl, fun r =>
        timeUnmarshalJSON_none r v.text hd.1.1.1 hd.1.1.2 hd.1.2 hd.2⟩
  refine ⟨?_, ?_, ?_⟩
  · rcases h with h | h
    · obtain ⟨v, hv, hr⟩ := hdate h
      exact Or.inl ⟨v, hv, h, hr⟩
    · obtain ⟨v, hv, hr⟩ := htime h
      exact Or.inr ⟨v, hv, h, hr⟩
  · have hnone : jsonUnmarshal (Payload.object doc) zeroReceipt = none := by
      rcases h with h | h
      · obtain ⟨v, hv, hr⟩ := hdate h
        apply jsonUnmarshal_none_of_date
        rw [hv]
        exact hr _
      · obtain ⟨v, hv, hr⟩ := htime h
        apply jsonUnmarshal_none_of_time
        rw [hv]
        exact hr _
    simp only [handleProcessReceipt, bodyOf, hnone]
  · intro v r hv
    unfold trimmedText at hv
    constructor
    · unfold ReceiptDate.UnmarshalJSON
      simp only [hv, if_true]
    · unfold ReceiptTime.UnmarshalJSON
      simp only [hv, if_true]

/-- The document of scenario C with the date "05/01/2023" is answered 400. -/
theorem malformed_date_or_time_is_rejected_witness :
    (dateOutOfForm documentBadDate = true ∨ timeOutOfForm documentBadDate = true) ∧
    handleProcessReceipt emptyRegistry 5 (bodyOf documentBadDate) =
      (Response.error "Error parsing request body" 400, emptyRegistry) :=
  ⟨Or.inl (by decide),
    (malformed_date_or_time_is_rejected emptyRegistry 5 documentBadDate (Or.inl (by decide))).2.1⟩

/-! ### The id segment of the points route -/

theorem xvalue_isSome (c : Char) : (xvalue c.toNat).isSome = isHexDigit c := by
  have h0 : ('0' : Char).toNat = 48 := rfl
  have h9 : ('9' : Char).toNat = 57 := rfl
  have h1 : ('a' : Char).toNat = 97 := rfl
  have h2 : ('f' : Char).toNat = 102 := rfl
  have h3 : ('A' : Char).toNat = 65 := rfl
  have h4 : ('F' : Char).toNat = 70 := rfl
  unfold xvalue isHexDigit isDigit isHexLetter
  simp only [char_le_iff, h0, h9, h1, h2, h3, h4]
  by_cases ha : 48 ≤ c.toNat ∧ c.toNat ≤ 57
  · simp [ha]
  · by_cases hb : 97 ≤ c.toNat ∧ c.toNat ≤ 102
    · simp [ha, hb]
    · by_cases hc : 65 ≤ c.toNat ∧ c.toNat ≤ 70
      · simp [ha, hb, hc]
      · simp [ha, hb, hc]
        omega

theorem xvalue_lt (b : Nat) (h : (xvalue b).isSome = true) : b < 128 := by
  unfold xvalue at h
  split at h
  · omega
  · split at h
    · omega
    · split at h
      · omega
      · simp at h

theorem isHexDigit_lt (c : Char) (h : isHexDigit c = true) : c.toNat < 128 := by
  rw [← xvalue_isSome] at h
  exact xvalue_lt _ h

theorem bytesOf_ascii (s : GoString) (h : ∀ c ∈ s, c.toNat < 128) :
    bytesOf s = s.map Char.toNat := by
  induction s with
  | nil => rfl
  | cons c cs ih =>
    have hc : c.toNat < 128 := h c (List.mem_cons_self _ _)
    simp only [bytesOf, utf8Encode, hc, if_true, List.map_cons, List.singleton_append]
    rw [ih (fun d hd => h d (List.mem_cons_of_mem _ hd))]

theorem canonicalAt_of_form {s : GoString} (h : isCanonicalForm s = true) :
    s.length = 36 ∧ ∀ i, i < 36 → canonicalAt i (s.getD i ' ') = true := by
  unfold isCanonicalForm at h
  simp only [Bool.and_eq_true, decide_eq_true_eq, List.all_eq_true, List.mem_range] at h
  exact h

theorem canonicalAt_lt {i : Nat} {c : Char} (h : canonicalAt i c = true) : c.toNat < 128 := by
  unfold canonicalAt at h
  split at h
  · have hc : c = '-' := by simpa using h
    rw [hc]; decide
  · exact isHexDigit_lt c h

theorem ascii_of_form {s : GoString} (h : isCanonicalForm s = true) :
    ∀ c ∈ s, c.toNat < 128 := by
  obtain ⟨hlen, hat⟩ := canonicalAt_of_form h
  intro c hc
  obtain ⟨i, hi, rfl⟩ := List.getElem_of_mem hc
  have h2 := hat i (by omega)
  rw [List.getD_eq_getElem _ _ hi] at h2
  exact canonicalAt_lt h2

theorem byteAt_map (s : GoString) (i : Nat) (hi : i < s.length) :
    byteAt (s.map Char.toNat) i = (s.getD i ' ').toNat := by
  unfold byteAt
  rw [List.getD_eq_getElem _ _ (by simpa using hi), List.getD_eq_getElem _ _ hi]
  simp

theorem hexPairs_isSome (b : List Nat) (l : List Nat)
    (h : ∀ x ∈ l, (xvalue (byteAt b x)).isSome = true ∧ (xvalue (byteAt b (x + 1))).isSome = true) :
    (hexPairs b l).isSome = true := by
  induction l with
  | nil => rfl
  | cons x xs ih =>
    have hx := h x (List.mem_cons_self _ _)
    have hxs := ih (fun y hy => h y (List.mem_cons_of_mem _ hy))
    unfold hexPairs xtob
    cases h1 : xvalue (byteAt b x) with
    | none => rw [h1] at hx; simp at hx
    | some v1 =>
      cases h2 : xvalue (byteAt b (x + 1)) with
      | none => rw [h2] at hx; simp at hx
      | some v2 =>
        cases h3 : hexPairs b xs with
        | none => rw [h3] at hxs; simp at hxs
        | some bs => rfl

theorem uuidParse_of_form {s : GoString} (h : isCanonicalForm s = true) :
    (uuidParse s).isSome = true := by
  obtain ⟨hlen, hat⟩ := canonicalAt_of_form h
  have hb : bytesOf s = s.map Char.toNat := bytesOf_ascii s (ascii_of_form h)
  have hyphen : ∀ i, i < 36 → (i = 8 ∨ i = 13 ∨ i = 18 ∨ i = 23) →
      byteAt (s.map Char.toNat) i = 45 := by
    intro i hi hp
    have h2 := hat i hi
    unfold canonicalAt at h2
    rw [if_pos hp] at h2
    have hc : s.getD i ' ' = '-' := by simpa using h2
    rw [byteAt_map s i (by omega), hc]
    rfl
  have hexAt : ∀ i, i < 36 → ¬ (i = 8 ∨ i = 13 ∨ i = 18 ∨ i = 23) →
      (xvalue (byteAt (s.map Char.toNat) i)).isSome = true := by
    intro i hi hp
    have h2 := hat i hi
    unfold canonicalAt at h2
    rw [if_neg hp] at h2
    rw [byteAt_map s i (by omega), xvalue_isSome]
    exact h2
  unfold uuidParse
  simp only [hb, List.length_map, hlen, if_true]
  unfold parseHyphenated
  rw [hyphen 8 (by decide) (by decide), hyphen 13 (by decide) (by decide),
    hyphen 18 (by decide) (by decide), hyphen 23 (by decide) (by decide)]
  simp only [ne_eq, not_true_eq_false, or_self, if_false, Option.isSome_map']
  apply hexPairs_isSome
  intro x hx
  simp only [List.mem_cons, List.mem_singleton, List.not_mem_nil, or_false] at hx
  rcases hx with rfl | rfl | rfl | rfl | rfl | rfl | rfl | rfl | rfl | rfl | rfl | rfl | rfl |
    rfl | rfl | rfl <;>
  exact ⟨hexAt _ (by decide) (by decide), hexAt _ (by decide) (by decide)⟩

theorem hexPairs_some_inv (b : List Nat) (l bs : List Nat) (h : hexPairs b l = some bs) :
    ∀ x ∈ l, (xvalue (byteAt b x)).isSome = true ∧ (xvalue (byteAt b (x + 1))).isSome = true := by
  induction l generalizing bs with
  | nil => intro x hx; cases hx
  | cons y ys ih =>
    unfold hexPairs xtob at h
    cases h1 : xvalue (byteAt b y) with
    | none => rw [h1] at h; simp at h
    | some v1 =>
      cases h2 : xvalue (byteAt b (y + 1)) with
      | none => rw [h1, h2] at h; simp at h
      | some v2 =>
        cases h3 : hexPairs b ys with
        | none => rw [h1, h2, h3] at h; simp at h
        | some bs2 =>
          intro x hx
          rcases List.mem_cons.mp hx with rfl | hx2
          · rw [h1, h2]; exact ⟨rfl, rfl⟩
          · exact ih bs2 h3 x hx2

theorem ascii_of_bytes (s : GoString) (h : ∀ n ∈ bytesOf s, n < 128) :
    ∀ c ∈ s, c.toNat < 128 := by
  induction s with
  | nil => intro c hc; cases hc
  | cons d ds ih =>
    have hd : d.toNat < 128 := by
      by_contra hge
      have hmem : ∃ n, n ∈ utf8Encode d ∧ 128 ≤ n := by
        unfold utf8Encode
        rw [if_neg hge]
        split
        · exact ⟨_, List.mem_cons_self _ _, by omega⟩
        · split
          · exact ⟨_, List.mem_cons_self _ _, by omega⟩
          · exact ⟨_, List.mem_cons_self _ _, by omega⟩
      obtain ⟨n, hn, hn2⟩ := hmem
      have := h n (by simp only [bytesOf, List.mem_append]; exact Or.inl hn)
      omega
    intro c hc
    rcases List.mem_cons.mp hc with rfl | hc2
    · exact hd
    · exact ih (fun n hn => h n (by simp only [bytesOf, List.mem_append]; exact Or.inr hn)) c hc2

theorem form_of_uuidParse {s : GoString} {id : UUID} (hlen : (bytesOf s).length = 36)
    (h : uuidParse s = some id) : isCanonicalForm s = true := by
  unfold uuidParse at h
  simp only [hlen, if_true] at h
  unfold parseHyphenated at h
  split at h
  · cases h
  · rename_i hyph
    simp only [ne_eq, not_or, not_not] at hyph
    cases hp : hexPairs (bytesOf s) [0, 2, 4, 6, 9, 11, 14, 16, 19, 21, 24, 26, 28, 30, 32, 34] with
    | none => rw [hp] at h; cases h
    | some bs =>
      have hx := hexPairs_some_inv _ _ _ hp
      simp only [List.mem_cons, List.mem_singleton, List.not_mem_nil, or_false,
        forall_eq_or_imp, forall_eq] at hx
      have hat : ∀ i, i < 36 →
          (if i = 8 ∨ i = 13 ∨ i = 18 ∨ i = 23 then byteAt (bytesOf s) i = 45
           else (xvalue (byteAt (bytesOf s) i)).isSome = true) := by
        intro i hi
        interval_cases i <;> simp [hyph, hx]
      have hbyte : ∀ n ∈ bytesOf s, n < 128 := by
        intro n hn
        obtain ⟨i, hi, rfl⟩ := List.getElem_of_mem hn
        have h2 := hat i (by omega)
        have h3 : byteAt (bytesOf s) i = (bytesOf s)[i] := by
          unfold byteAt
          exact List.getD_eq_getElem _ _ hi
        rw [h3] at h2
        split at h2
        · omega
        · exact xvalue_lt _ h2
      have hb : bytesOf s = s.map Char.toNat := bytesOf_ascii s (ascii_of_bytes s hbyte)
      have hl : s.length = 36 := by rw [hb] at hlen; simpa using hlen
      unfold isCanonicalForm
      simp only [hl, decide_True, Bool.true_and, List.all_eq_true, List.mem_range]
      intro i hi
      have h2 := hat i hi
      rw [hb, byteAt_map s i (by omega)] at h2
      unfold canonicalAt
      split
      · rename_i hpos
        rw [if_pos hpos] at h2
        have hc : s.getD i ' ' = Char.ofNat 45 := by
          rw [← h2, Char.ofNat_toNat]
        rw [hc]; rfl
      · rename_i hneg
        rw [if_neg hneg, xvalue_isSome] at h2
        exact h2

theorem uuidParse_other_length (s : GoString) (h32 : (bytesOf s).length ≠ 32)
    (h36 : (bytesOf s).length ≠ 36) (h38 : (bytesOf s).length ≠ 38)
    (h45 : (bytesOf s).length ≠ 45) : uuidParse s = none := by
  unfold uuidParse
  simp only [h32, h36, h38, h45, if_false]

theorem parseHyphenated_isSome_iff (b : List Nat) :
    (parseHyphenated b).isSome = true ↔
      ∀ i, i < 36 →
        (if i = 8 ∨ i = 13 ∨ i = 18 ∨ i = 23 then byteAt b i = 45
         else (xvalue (byteAt b i)).isSome = true) := by
  constructor
  · intro h
    unfold parseHyphenated at h
    split at h
    · cases h
    · rename_i hyph
      simp only [ne_eq, not_or, not_not] at hyph
      cases hp : hexPairs b [0, 2, 4, 6, 9, 11, 14, 16, 19, 21, 24, 26, 28, 30, 32, 34] with
      | none => rw [hp] at h; cases h
      | some bs =>
        have hx := hexPairs_some_inv _ _ _ hp
        simp only [List.mem_cons, List.mem_singleton, List.not_mem_nil, or_false,
          forall_eq_or_imp, forall_eq] at hx
        intro i hi
        interval_cases i <;> simp [hyph, hx]
  · intro h
    have hyphen : ∀ i, i < 36 → (i = 8 ∨ i = 13 ∨ i = 18 ∨ i = 23) → byteAt b i = 45 := by
      intro i hi hp
      have h2 := h i hi
      rwa [if_pos hp] at h2
    have hexAt : ∀ i, i < 36 → ¬ (i = 8 ∨ i = 13 ∨ i = 18 ∨ i = 23) →
        (xvalue (byteAt b i)).isSome = true := by
      intro i hi hp
      have h2 := h i hi
      rwa [if_neg hp] at h2
    unfold parseHyphenated
    rw [hyphen 8 (by decide) (by decide), hyphen 13 (by decide) (by decide),
      hyphen 18 (by decide) (by decide), hyphen 23 (by decide) (by decide)]
    simp only [ne_eq, not_true_eq_false, or_self, if_false, Option.isSome_map']
    apply hexPairs_isSome
    intro x hx
    simp only [List.mem_cons, List.mem_singleton, List.not_mem_nil, or_false] at hx
    rcases hx with rfl | rfl | rfl | rfl | rfl | rfl | rfl | rfl | rfl | rfl | rfl | rfl | rfl |
      rfl | rfl | rfl <;>
    exact ⟨hexAt _ (by decide) (by decide), hexAt _ (by decide) (by decide)⟩

theorem parseHyphenated_isSome_congr (b c : List Nat)
    (h : ∀ i, i < 36 → byteAt b i = byteAt c i) :
    (parseHyphenated b).isSome = (parseHyphenated c).isSome := by
  rw [Bool.eq_iff_iff, parseHyphenated_isSome_iff, parseHyphenated_isSome_iff]
  constructor
  · intro hb i hi
    rw [← h i hi]; exact hb i hi
  · intro hc i hi
    rw [h i hi]; exact hc i hi

theorem canonicalAt_iff (i : Nat) (c : Char) :
    canonicalAt i c = true ↔
      (if i = 8 ∨ i = 13 ∨ i = 18 ∨ i = 23 then c.toNat = 45
       else (xvalue c.toNat).isSome = true) := by
  unfold canonicalAt
  split
  · simp only [decide_eq_true_eq]
    constructor
    · intro hc; rw [hc]; rfl
    · intro hc
      rw [← Char.ofNat_toNat c, hc]
  · rw [xvalue_isSome]

theorem parseHyphenated_map_iff (t : GoString) (hlen : t.length = 36) :
    (parseHyphenated (t.map Char.toNat)).isSome = true ↔ isCanonicalForm t = true := by
  rw [parseHyphenated_isSome_iff]
  unfold isCanonicalForm
  simp only [hlen, decide_True, Bool.true_and, List.all_eq_true, List.mem_range]
  constructor
  · intro h i hi
    have h2 := h i hi
    rw [byteAt_map t i (by omega)] at h2
    exact (canonicalAt_iff i _).mpr h2
  · intro h i hi
    rw [byteAt_map t i (by omega)]
    exact (canonicalAt_iff i _).mp (h i hi)

theorem parseHyphenated_lt (b : List Nat) (h : (parseHyphenated b).isSome = true) :
    ∀ i, i < 36 → byteAt b i < 128 := by
  intro i hi
  have h2 := (parseHyphenated_isSome_iff b).mp h i hi
  split at h2
  · omega
  · exact xvalue_lt _ h2

theorem uuidParse_of_plainHex {s : GoString} (h : isPlainHexForm s = true) :
    (uuidParse s).isSome = true := by
  unfold isPlainHexForm at h
  simp only [Bool.and_eq_true, decide_eq_true_eq, List.all_eq_true] at h
  obtain ⟨hlen, hall⟩ := h
  have hb : bytesOf s = s.map Char.toNat :=
    bytesOf_ascii s (fun c hc => isHexDigit_lt c (hall c hc))
  have hexAt : ∀ i, i < 32 → (xvalue (byteAt (s.map Char.toNat) i)).isSome = true := by
    intro i hi
    rw [byteAt_map s i (by omega), xvalue_isSome]
    apply hall
    rw [List.getD_eq_getElem _ _ (by omega)]
    exact List.getElem_mem _
  unfold uuidParse
  simp only [hb, List.length_map, hlen]
  simp only [Nat.reduceEqDiff, if_false, if_true, Option.isSome_map']
  apply hexPairs_isSome
  intro x hx
  simp only [List.mem_cons, List.mem_singleton, List.not_mem_nil, or_false] at hx
  rcases hx with rfl | rfl | rfl | rfl | rfl | rfl | rfl | rfl | rfl | rfl | rfl | rfl | rfl |
    rfl | rfl | rfl <;>
  exact ⟨hexAt _ (by decide), hexAt _ (by decide)⟩

theorem plainHex_of_uuidParse {s : GoString} (hlen : (bytesOf s).length = 32)
    (h : (uuidParse s).isSome = true) : isPlainHexForm s = true := by
  unfold uuidParse at h
  simp only [hlen] at h
  simp only [Nat.reduceEqDiff, if_false, if_true, Option.isSome_map'] at h
  cases hp : hexPairs (bytesOf s) [0, 2, 4, 6, 8, 10, 12, 14, 16, 18, 20, 22, 24, 26, 28, 30] with
  | none => rw [hp] at h; cases h
  | some bs =>
    have hx := hexPairs_some_inv _ _ _ hp
    simp only [List.mem_cons, List.mem_singleton, List.not_mem_nil, or_false,
      forall_eq_or_imp, forall_eq] at hx
    have hat : ∀ i, i < 32 → (xvalue (byteAt (bytesOf s) i)).isSome = true := by
      intro i hi
      interval_cases i <;> simp [hx]
    have hbyte : ∀ n ∈ bytesOf s, n < 128 := by
      intro n hn
      obtain ⟨i, hi, rfl⟩ := List.getElem_of_mem hn
      have h2 := hat i (by omega)
      have h3 : byteAt (bytesOf s) i = (bytesOf s)[i] := by
        unfold byteAt
        exact List.getD_eq_getElem _ _ hi
      rw [h3] at h2
      exact xvalue_lt _ h2
    have hb : bytesOf s = s.map Char.toNat := bytesOf_ascii s (ascii_of_bytes s hbyte)
    have hl : s.length = 32 := by rw [hb] at hlen; simpa using hlen
    unfold isPlainHexForm
    simp only [hl, decide_True, Bool.true_and, List.all_eq_true]
    intro c hc
    obtain ⟨i, hi, rfl⟩ := List.getElem_of_mem hc
    have h2 := hat i (by omega)
    rw [hb, byteAt_map s i hi, xvalue_isSome, List.getD_eq_getElem _ _ hi] at h2
    exact h2

theorem lowerByte_of_fold : ∀ d ∈ "urn:uuid:".toList, ∀ c : Char,
    (c = d ∨ c = d.toUpper) → lowerByte c.toNat = d.toNat ∧ c.toNat < 128 := by
  intro d hd
  simp only [String.toList, List.mem_cons, List.mem_singleton, List.not_mem_nil, or_false] at hd
  rcases hd with rfl | rfl | rfl | rfl | rfl | rfl | rfl | rfl | rfl <;>
  · intro c hc
    rcases hc with rfl | rfl <;> decide

theorem fold_of_lowerByte : ∀ d ∈ "urn:uuid:".toList, ∀ c : Char,
    lowerByte c.toNat = d.toNat → (c = d ∨ c = d.toUpper) := by
  have key : ∀ (c : Char) (n : Nat), lowerByte c.toNat = n →
      c = Char.ofNat n ∨ (c = Char.ofNat (n - 32) ∧ 97 ≤ n ∧ n ≤ 122) := by
    intro c n h
    unfold lowerByte at h
    split at h
    · right
      refine ⟨?_, by omega, by omega⟩
      rw [← Char.ofNat_toNat c]
      congr 1
      omega
    · left
      rw [← h, Char.ofNat_toNat]
  intro d hd
  simp only [String.toList, List.mem_cons, List.mem_singleton, List.not_mem_nil, or_false] at hd
  rcases hd with rfl | rfl | rfl | rfl | rfl | rfl | rfl | rfl | rfl <;>
  · intro c hc
    rcases key c _ hc with h | ⟨h, h1, h2⟩
    · left; rw [h]; rfl
    · first
      | (right; rw [h]; rfl)
      | (exfalso; revert h1 h2; decide)

theorem equalFoldAscii_bytes (t : GoString)
    (hP : ∀ d ∈ t, ∀ c : Char, (c = d ∨ c = d.toUpper) →
      lowerByte c.toNat = d.toNat ∧ c.toNat < 128) :
    ∀ p, equalFoldAscii p t = true →
      (p.map Char.toNat).map lowerByte = t.map Char.toNat ∧ (∀ c ∈ p, c.toNat < 128) := by
  induction t with
  | nil =>
    intro p h
    cases p with
    | nil => exact ⟨rfl, fun c hc => by cases hc⟩
    | cons c cs => simp [equalFoldAscii] at h
  | cons d ds ih =>
    intro p h
    cases p with
    | nil => simp [equalFoldAscii] at h
    | cons c cs =>
      simp only [equalFoldAscii, Bool.and_eq_true, Bool.or_eq_true, decide_eq_true_eq] at h
      obtain ⟨h1, h2⟩ := hP d (List.mem_cons_self _ _) c h.1
      obtain ⟨h3, h4⟩ := ih (fun e he => hP e (List.mem_cons_of_mem _ he)) cs h.2
      refine ⟨?_, ?_⟩
      · simp only [List.map_cons, h1, h3]
      · intro x hx
        rcases List.mem_cons.mp hx with rfl | hx2
        · exact h2
        · exact h4 x hx2

theorem equalFoldAscii_of_bytes (t : GoString)
    (hQ : ∀ d ∈ t, ∀ c : Char, lowerByte c.toNat = d.toNat → (c = d ∨ c = d.toUpper)) :
    ∀ p, (p.map Char.toNat).map lowerByte = t.map Char.toNat → equalFoldAscii p t = true := by
  induction t with
  | nil =>
    intro p h
    cases p with
    | nil => rfl
    | cons c cs => simp at h
  | cons d ds ih =>
    intro p h
    cases p with
    | nil => simp at h
    | cons c cs =>
      simp only [List.map_cons, List.cons.injEq] at h
      simp only [equalFoldAscii, Bool.and_eq_true, Bool.or_eq_true, decide_eq_true_eq]
      exact ⟨hQ d (List.mem_cons_self _ _) c h.1,
        ih (fun e he => hQ e (List.mem_cons_of_mem _ he)) cs h.2⟩

theorem uuidParse_of_urn {s : GoString} (h : isUrnForm s = true) :
    (uuidParse s).isSome = true := by
  unfold isUrnForm at h
  simp only [Bool.and_eq_true] at h
  obtain ⟨hfold, hform⟩ := h
  obtain ⟨hpre, hascii⟩ := equalFoldAscii_bytes _ lowerByte_of_fold _ hfold
  have hdrop : (s.drop 9).length = 36 := (canonicalAt_of_form hform).1
  have hlen : s.length = 45 := by
    rw [List.length_drop] at hdrop
    omega
  have hall : ∀ c ∈ s, c.toNat < 128 := by
    intro c hc
    rw [← List.take_append_drop 9 s] at hc
    rcases List.mem_append.mp hc with h1 | h1
    · exact hascii c h1
    · exact ascii_of_form hform c h1
  have hb : bytesOf s = s.map Char.toNat := bytesOf_ascii s hall
  unfold uuidParse
  simp only [hb, List.length_map, hlen]
  simp only [Nat.reduceEqDiff, if_false, if_true]
  rw [← List.map_take, ← List.map_drop, if_pos (by rw [hpre]; rfl)]
  exact (parseHyphenated_map_iff _ hdrop).mpr hform

theorem lowerByte_lt (n : Nat) (h : lowerByte n < 128) : n < 128 := by
  unfold lowerByte at h
  split at h <;> omega

theorem urn_of_uuidParse {s : GoString} (hlen : (bytesOf s).length = 45)
    (h : (uuidParse s).isSome = true) : isUrnForm s = true := by
  unfold uuidParse at h
  simp only [hlen] at h
  simp only [Nat.reduceEqDiff, if_false, if_true] at h
  split at h
  · rename_i hpre
    have hdroplen : ((bytesOf s).drop 9).length = 36 := by
      rw [List.length_drop]; omega
    have hbyte : ∀ n ∈ bytesOf s, n < 128 := by
      intro n hn
      rw [← List.take_append_drop 9 (bytesOf s)] at hn
      rcases List.mem_append.mp hn with h1 | h1
      · apply lowerByte_lt
        have h2 : lowerByte n ∈ ((bytesOf s).take 9).map lowerByte := List.mem_map_of_mem _ h1
        rw [hpre] at h2
        revert h2
        generalize lowerByte n = m
        intro h2
        simp only [bytesOf, utf8Encode, String.toList] at h2
        simp at h2
        omega
      · obtain ⟨i, hi, rfl⟩ := List.getElem_of_mem h1
        have h2 := parseHyphenated_lt _ h i (by omega)
        unfold byteAt at h2
        rwa [List.getD_eq_getElem _ _ hi] at h2
    have hb : bytesOf s = s.map Char.toNat := bytesOf_ascii s (ascii_of_bytes s hbyte)
    have hl : s.length = 45 := by rw [hb] at hlen; simpa using hlen
    rw [hb, ← List.map_drop] at h
    rw [hb, ← List.map_take] at hpre
    unfold isUrnForm
    simp only [Bool.and_eq_true]
    refine ⟨equalFoldAscii_of_bytes _ fold_of_lowerByte _ ?_, ?_⟩
    · rw [hpre]; rfl
    · exact (parseHyphenated_map_iff _ (by rw [List.length_drop]; omega)).mp h
  · cases h

theorem getD_take (t : GoString) (n i : Nat) (hi : i < n) (hn : n ≤ t.length) :
    (t.take n).getD i ' ' = t.getD i ' ' := by
  rw [List.getD_eq_getElem _ _ (by rw [List.length_take]; omega),
    List.getD_eq_getElem _ _ (by omega), List.getElem_take]

theorem utf8Encode_length (c : Char) :
    1 ≤ (utf8Encode c).length ∧ ((utf8Encode c).length = 1 → c.toNat < 128) := by
  unfold utf8Encode
  split
  · rename_i h; exact ⟨by simp, fun _ => h⟩
  · split
    · simp
    · split <;> simp

theorem bytesOf_eq_nil (s : GoString) (h : (bytesOf s).length = 0) : s = [] := by
  cases s with
  | nil => rfl
  | cons c cs =>
    simp only [bytesOf, List.length_append] at h
    have := (utf8Encode_length c).1
    omega

theorem bytesOf_length_one (s : GoString) (h : (bytesOf s).length = 1) :
    ∃ z, s = [z] ∧ z.toNat < 128 := by
  cases s with
  | nil => simp [bytesOf] at h
  | cons c cs =>
    simp only [bytesOf, List.length_append] at h
    have h1 := utf8Encode_length c
    have hcs : cs = [] := bytesOf_eq_nil cs (by omega)
    exact ⟨c, by rw [hcs], h1.2 (by omega)⟩

theorem head_ascii (c : Char) (cs : GoString) (h : byteAt (bytesOf (c :: cs)) 0 < 128) :
    c.toNat < 128 := by
  by_contra hge
  simp only [bytesOf, utf8Encode, if_neg hge] at h
  split at h
  · simp [byteAt] at h; omega
  · split at h
    · simp [byteAt] at h; omega
    · simp [byteAt] at h; omega

theorem bytesOf_cons_ascii (c : Char) (cs : GoString) (h : c.toNat < 128) :
    bytesOf (c :: cs) = c.toNat :: bytesOf cs := by
  simp only [bytesOf, utf8Encode, h, if_true, List.singleton_append]

theorem bytesOf_take (k : Nat) : ∀ (s : GoString), k ≤ (bytesOf s).length →
    (∀ i, i < k → byteAt (bytesOf s) i < 128) →
    bytesOf s = (s.take k).map Char.toNat ++ bytesOf (s.drop k) ∧ (s.take k).length = k ∧
      ∀ c ∈ s.take k, c.toNat < 128 := by
  induction k with
  | zero =>
    intro s _ _
    simp
  | succ k ih =>
    intro s hk h
    cases s with
    | nil => simp [bytesOf] at hk
    | cons c cs =>
      have hc : c.toNat < 128 := head_ascii c cs (h 0 (by omega))
      rw [bytesOf_cons_ascii c cs hc] at hk h ⊢
      obtain ⟨h1, h2, h3⟩ := ih cs (by simpa using hk) (fun i hi => by
        have := h (i + 1) (by omega)
        simpa [byteAt] using this)
      refine ⟨?_, ?_, ?_⟩
      · simp only [List.take_succ_cons, List.map_cons, List.drop_succ_cons, List.cons_append]
        rw [← h1]
      · simp only [List.take_succ_cons, List.length_cons, h2]
      · intro x hx
        simp only [List.take_succ_cons, List.mem_cons] at hx
        rcases hx with rfl | hx2
        · exact hc
        · exact h3 x hx2

theorem uuidParse_of_wrapped {s : GoString} (h : isWrappedForm s = true) :
    (uuidParse s).isSome = true := by
  cases s with
  | nil => simp [isWrappedForm] at h
  | cons a rest =>
    simp only [isWrappedForm, Bool.and_eq_true, decide_eq_true_eq] at h
    obtain ⟨⟨⟨ha, hlen⟩, hz⟩, hform⟩ := h
    have htake : (rest.take 36).length = 36 := (canonicalAt_of_form hform).1
    have hall : ∀ c ∈ a :: rest, c.toNat < 128 := by
      intro c hc
      rcases List.mem_cons.mp hc with rfl | hc2
      · exact ha
      · rw [← List.take_append_drop 36 rest] at hc2
        rcases List.mem_append.mp hc2 with h1 | h1
        · exact ascii_of_form hform c h1
        · rw [List.drop_eq_getElem_cons (by omega : 36 < rest.length),
            List.drop_eq_nil_of_le (by omega : rest.length ≤ 36 + 1)] at h1
          rw [List.getD_eq_getElem _ _ (by omega : 36 < rest.length)] at hz
          simp only [List.mem_singleton] at h1
          rw [h1]; exact hz
    have hb : bytesOf (a :: rest) = (a :: rest).map Char.toNat := bytesOf_ascii _ hall
    unfold uuidParse
    simp only [hb, List.length_map, List.length_cons, hlen]
    simp only [Nat.reduceAdd, Nat.reduceEqDiff, if_false, if_true, List.map_cons,
      List.drop_succ_cons, List.drop_zero]
    rw [parseHyphenated_isSome_congr (rest.map Char.toNat) ((rest.take 36).map Char.toNat)]
    · exact (parseHyphenated_map_iff _ htake).mpr hform
    · intro i hi
      rw [byteAt_map rest i (by omega), byteAt_map _ i (by omega),
        getD_take rest 36 i hi (by omega)]

theorem wrapped_of_uuidParse {s : GoString} (hlen : (bytesOf s).length = 38)
    (h : (uuidParse s).isSome = true) : isWrappedForm s = true := by
  unfold uuidParse at h
  simp only [hlen] at h
  simp only [Nat.reduceEqDiff, if_false, if_true] at h
  cases s with
  | nil => simp [bytesOf] at hlen
  | cons a rest =>
    have ha : a.toNat < 128 := by
      by_contra hge
      have h0 := parseHyphenated_lt _ h 0 (by decide)
      simp only [bytesOf, utf8Encode, if_neg hge] at h0
      split at h0
      · simp [byteAt] at h0
      · split at h0
        · simp [byteAt] at h0
        · simp [byteAt] at h0
    rw [bytesOf_cons_ascii a rest ha] at hlen h
    simp only [List.drop_succ_cons, List.drop_zero] at h
    have hrest : (bytesOf rest).length = 37 := by simpa using hlen
    obtain ⟨h1, h2, h3⟩ := bytesOf_take 36 rest (by omega) (parseHyphenated_lt _ h)
    have hlast : (bytesOf (rest.drop 36)).length = 1 := by
      have := congrArg List.length h1
      rw [List.length_append, List.length_map, h2, hrest] at this
      omega
    obtain ⟨z, hz, hz2⟩ := bytesOf_length_one _ hlast
    have hl : rest.length = 37 := by
      have := congrArg List.length (List.take_append_drop 36 rest)
      rw [List.length_append, h2, hz] at this
      simpa using this.symm
    have hget : rest.getD 36 ' ' = z := by
      rw [List.getD_eq_getElem _ _ (by omega : 36 < rest.length)]
      rw [List.drop_eq_getElem_cons (by omega : 36 < rest.length)] at hz
      simp only [List.cons.injEq] at hz
      exact hz.1
    simp only [isWrappedForm, Bool.and_eq_true, decide_eq_true_eq]
    refine ⟨⟨⟨ha, hl⟩, by rw [hget]; exact hz2⟩, ?_⟩
    rw [← parseHyphenated_map_iff _ h2, ← h,
      parseHyphenated_isSome_congr (bytesOf rest) ((rest.take 36).map Char.toNat)]
    intro i hi
    rw [h1]
    unfold byteAt
    exact List.getD_append _ _ _ _ (by rw [List.length_map, h2]; exact hi)

theorem uuidParse_isSome_iff (s : GoString) :
    (uuidParse s).isSome = true ↔
      (isCanonicalForm s = true ∨ isPlainHexForm s = true ∨ isUrnForm s = true ∨
        isWrappedForm s = true) := by
  constructor
  · intro h
    by_cases h36 : (bytesOf s).length = 36
    · obtain ⟨id, hid⟩ := Option.isSome_iff_exists.mp h
      exact Or.inl (form_of_uuidParse h36 hid)
    · by_cases h32 : (bytesOf s).length = 32
      · exact Or.inr (Or.inl (plainHex_of_uuidParse h32 h))
      · by_cases h45 : (bytesOf s).length = 45
        · exact Or.inr (Or.inr (Or.inl (urn_of_uuidParse h45 h)))
        · by_cases h38 : (bytesOf s).length = 38
          · exact Or.inr (Or.inr (Or.inr (wrapped_of_uuidParse h38 h)))
          · rw [uuidParse_other_length s h32 h36 h38 h45] at h
            cases h
  · intro h
    rcases h with h | h | h | h
    · exact uuidParse_of_form h
    · exact uuidParse_of_plainHex h
    · exact uuidParse_of_urn h
    · exact uuidParse_of_wrapped h

/-- C15, as the claim states it, fails: the 32 hexadecimal digits
"7fb1377bb22349d9a31a5a02701dd310" without hyphens, the same identifier
written after "urn:uuid:", and the same identifier between an "x" and a "y"
are not in the canonical form of 36 characters, yet a GET with such an id
segment is answered 404 on the empty map, not 400, and 200 once a receipt is
stored under that identifier. -/
theorem noncanonical_id_is_not_400 :
    isCanonicalForm "7fb1377bb22349d9a31a5a02701dd310".toList = false ∧
    isCanonicalForm "urn:uuid:7fb1377b-b223-49d9-a31a-5a02701dd310".toList = false ∧
    isCanonicalForm "x7fb1377b-b223-49d9-a31a-5a02701dd310y".toList = false ∧
    pointsHandler emptyRegistry "GET".toList "7fb1377bb22349d9a31a5a02701dd310".toList =
      Response.error "Receipt not found" 404 ∧
    pointsHandler emptyRegistry "GET".toList
      "x7fb1377b-b223-49d9-a31a-5a02701dd310y".toList =
        Response.error "Receipt not found" 404 ∧
    pointsHandler emptyRegistry "GET".toList
      "urn:uuid:7fb1377b-b223-49d9-a31a-5a02701dd310".toList =
        Response.error "Receipt not found" 404 ∧
    pointsHandler (handleProcessReceipt emptyRegistry exampleID (bodyOf documentC)).2
      "GET".toList "7fb1377bb22349d9a31a5a02701dd310".toList = Response.ok ⟨100⟩ := by
  decide

/-- C15, amended: for every registry state and id path segment, the answer to
a GET of the points route is 400 exactly when uuid.Parse rejects the segment,
404 exactly when uuid.Parse accepts it and the identifier is not a key of the
registry, and 200 only when the identifier is a key of the registry, the body
then being the score of the stored receipt. uuid.Parse accepts every segment
in the canonical form of 36 characters; of the segments of 36 bytes it accepts
no other; it rejects every segment whose length in bytes is not 32, 36, 38 or
45. The segments that uuid.Parse accepts are exactly those of four forms: the
canonical form, 32 hexadecimal digits without hyphens, the canonical form
after "urn:uuid:" in any case, and the canonical form between two further
characters of one byte each; so the answer is 400 exactly when the segment has
none of the four forms. -/
theorem points_error_classification (receipts : Registry) (seg : GoString) :
    ((pointsHandler receipts "GET".toList seg).status = 400 ↔ uuidParse seg = none) ∧
    ((pointsHandler receipts "GET".toList seg).status = 404 ↔
      ∃ id, uuidParse seg = some id ∧ receipts id = none) ∧
    ((pointsHandler receipts "GET".toList seg).status = 200 →
      ∃ id p, uuidParse seg = some id ∧ receipts id = some p ∧
        pointsHandler receipts "GET".toList seg = Response.ok ⟨calcReceiptPoints p⟩) ∧
    (isCanonicalForm seg = true → (uuidParse seg).isSome = true) ∧
    ((bytesOf seg).length = 36 → isCanonicalForm seg = false → uuidParse seg = none) ∧
    ((bytesOf seg).length ≠ 32 → (bytesOf seg).length ≠ 36 → (bytesOf seg).length ≠ 38 →
      (bytesOf seg).length ≠ 45 → uuidParse seg = none) ∧
    ((uuidParse seg).isSome = true ↔
      (isCanonicalForm seg = true ∨ isPlainHexForm seg = true ∨ isUrnForm seg = true ∨
        isWrappedForm seg = true)) ∧
    ((pointsHandler receipts "GET".toList seg).status = 400 ↔
      (isCanonicalForm seg = false ∧ isPlainHexForm seg = false ∧ isUrnForm seg = false ∧
        isWrappedForm seg = false)) := by
  have hget : ∀ id, uuidParse seg = some id →
      pointsHandler receipts "GET".toList seg = handleGetPoints receipts id := by
    intro id hu
    unfold pointsHandler
    rw [hu]
    exact if_pos rfl
  have hbad : uuidParse seg = none →
      pointsHandler receipts "GET".toList seg = Response.error "Invalid receipt ID" 400 := by
    intro hu
    unfold pointsHandler
    rw [hu]
  have h400 : (pointsHandler receipts "GET".toList seg).status = 400 ↔ uuidParse seg = none := by
    cases hu : uuidParse seg with
    | none => rw [hbad hu]; simp [Response.status]
    | some id =>
      rw [hget id hu]
      unfold handleGetPoints
      cases hr : receipts id with
      | none => simp [Response.status, hr]
      | some p =>
        by_cases hc : calcReceiptPoints p = -1 <;> simp [hc, Response.status, hr]
  refine ⟨h400, ?_, ?_, uuidParse_of_form, ?_, uuidParse_other_length seg,
    uuidParse_isSome_iff seg, ?_⟩
  · cases hu : uuidParse seg with
    | none => rw [hbad hu]; simp [Response.status]
    | some id =>
      rw [hget id hu]
      unfold handleGetPoints
      cases hr : receipts id with
      | none => simp [Response.status, hr]
      | some p =>
        by_cases hc : calcReceiptPoints p = -1 <;> simp [hc, Response.status, hr]
  · cases hu : uuidParse seg with
    | none => rw [hbad hu]; simp [Response.status]
    | some id =>
      rw [hget id hu]
      unfold handleGetPoints
      cases hr : receipts id with
      | none => simp [Response.status, hr]
      | some p =>
        by_cases hc : calcReceiptPoints p = -1
        · simp [hc, Response.status]
        · intro _
          exact ⟨id, p, rfl, hr, by simp [hc]⟩
  · intro hlen hform
    cases hu : uuidParse seg with
    | none => rfl
    | some id => rw [form_of_uuidParse hlen hu] at hform; cases hform
  · rw [h400, ← Option.not_isSome_iff_eq_none, uuidParse_isSome_iff]
    simp only [not_or, Bool.not_eq_true]

/-- The segment "7fb1377b-b223-49d9-a31a-5a02701dd310" is in the canonical form
and uuid.Parse accepts it. -/
theorem points_error_classification_witness :
    isCanonicalForm "7fb1377b-b223-49d9-a31a-5a02701dd310".toList = true ∧
    (uuidParse "7fb1377b-b223-49d9-a31a-5a02701dd310".toList).isSome = true :=
  ⟨by decide,
    (points_error_classification emptyRegistry
      "7fb1377b-b223-49d9-a31a-5a02701dd310".toList).2.2.2.1 (by decide)⟩

end Receipts
